import Mathlib

/-!
# The riff autoscaler and sidecar, embedded in Lean

A shallow embedding of `function-controller/pkg/controller/autoscaler/autoscaler.go`,
followed by `function-sidecar/pkg/backoff/backoff.go`, the head and the dispatch loop of
`function-sidecar/cmd/function-sidecar.go`, the closure `postRunE` of
`riff-cli/cmd/utils/command_chain.go` and the table of
`cmd/commands/subscription_display.go`. For the autoscaler:

* Go maps are `GoMap`s: association lists with pairwise distinct keys. The order of the
  list is the order in which a `range` loop visits the entries; Go leaves that order open,
  so statements are made for every `GoMap`, that is, for every order.
* `int` is the 64-bit integer of the usual platforms and `int32` wraps around; both are
  modelled by `Int`, with `wrapInt32` where the code adds.
* `float64` values are modelled by the rational numbers they denote, every operation
  rounding its exact result to the nearest value with a 53-bit significand (ties to even).
* A panic is an `Except.error`. The mutex only matters in that it is `nil` once the
  engine is closed; mutual exclusion itself is outside a sequential model.
* Closures stored in `a.scalers` read the engine through the pointer `a` whenever they
  are called, so the model rebuilds them from the current engine value at each call and
  stores only what a closure owns privately: the state of its delayer.
* The `range` of `emptyQueue` may visit the topics in another order than the loop of
  `Propose` that calls it; `emptyQueueLoop_true_iff` shows that its verdict is the same
  for every order, so only the lines logged can differ.
* `Propose`, `StartMonitoring` and the other methods return what the Go method returns
  together with the engine they leave, since the Go methods update the engine in place.
-/

set_option autoImplicit false

/-! ## Go maps -/

/-- A Go map: finitely many entries with pairwise distinct keys. -/
structure GoMap (K : Type) (V : Type) where
  /-- The entries, in the order a `range` loop visits them. -/
  entries : List (K × V)
  /-- Keys are pairwise distinct. -/
  nodup : (entries.map Prod.fst).Nodup

namespace GoMap

variable {K V : Type} [DecidableEq K]

/-- First value stored under `k` in a list of entries. -/
def lookupL (k : K) : List (K × V) → Option V
  | [] => none
  | e :: r => if e.1 = k then some e.2 else lookupL k r

/-- Overwrite the entry of `k` in place, or append a new entry. -/
def storeL (k : K) (v : V) : List (K × V) → List (K × V)
  | [] => [(k, v)]
  | e :: r => if e.1 = k then (k, v) :: r else e :: storeL k v r

/-- Drop the entries of `k`. -/
def deleteL (k : K) (l : List (K × V)) : List (K × V) :=
  l.filter (fun e => decide (e.1 ≠ k))

theorem keys_storeL (k : K) (v : V) (l : List (K × V)) :
    (storeL k v l).map Prod.fst =
      if k ∈ l.map Prod.fst then l.map Prod.fst else l.map Prod.fst ++ [k] := by
  induction l with
  | nil => simp [storeL]
  | cons e r ih =>
    by_cases h : e.1 = k
    · simp [storeL, h]
    · have h' : ¬ k = e.1 := fun c => h c.symm
      simp only [storeL, h, if_false, List.map_cons, ih, List.mem_cons, h', false_or]
      split <;> simp

theorem nodup_storeL (k : K) (v : V) {l : List (K × V)} (h : (l.map Prod.fst).Nodup) :
    ((storeL k v l).map Prod.fst).Nodup := by
  rw [keys_storeL]
  split
  · exact h
  · rename_i hk
    exact List.Nodup.append h (List.nodup_singleton k) (by
      intro x hx hx1
      rw [List.mem_singleton] at hx1
      exact hk (hx1 ▸ hx))

theorem nodup_deleteL (k : K) {l : List (K × V)} (h : (l.map Prod.fst).Nodup) :
    ((deleteL k l).map Prod.fst).Nodup :=
  List.Nodup.sublist (List.Sublist.map _ (List.filter_sublist l)) h

/-- The empty map, `make(map[K]V)`. -/
def empty : GoMap K V := ⟨[], List.nodup_nil⟩

/-- The lookup `v, ok := m[k]`. -/
def get? (m : GoMap K V) (k : K) : Option V := lookupL k m.entries

/-- The `ok` of `_, ok := m[k]`. -/
def contains (m : GoMap K V) (k : K) : Bool := (m.get? k).isSome

/-- The assignment `m[k] = v`. -/
def store (m : GoMap K V) (k : K) (v : V) : GoMap K V :=
  ⟨storeL k v m.entries, nodup_storeL k v m.nodup⟩

/-- The deletion `delete(m, k)`. -/
def delete (m : GoMap K V) (k : K) : GoMap K V :=
  ⟨deleteL k m.entries, nodup_deleteL k m.nodup⟩

/-- The number of entries, `len(m)`. -/
def len (m : GoMap K V) : Nat := m.entries.length

/-- The keys, in visiting order. -/
def keys (m : GoMap K V) : List K := m.entries.map Prod.fst

/-- Update every value in place, as a `range` over pointers does. -/
def mapValues (f : V → V) (m : GoMap K V) : GoMap K V :=
  ⟨m.entries.map (fun e => (e.1, f e.2)), by
    have h : (m.entries.map (fun e => (e.1, f e.2))).map Prod.fst = m.entries.map Prod.fst := by
      simp [List.map_map, Function.comp_def]
    rw [h]
    exact m.nodup⟩

end GoMap

/-! ## float64 arithmetic -/

/-- Nearest integer to `x`, a tie going to the even neighbour. -/
def roundHalfEven (x : ℚ) : ℤ :=
  let f := ⌊x⌋
  if x - f < 1 / 2 then f
  else if 1 / 2 < x - f then f + 1
  else if f % 2 = 0 then f else f + 1

/-- The float64 nearest to the real number `x` (53-bit significand, round to nearest, ties
to even). The exponent is not bounded: the magnitudes the autoscaler computes lie between
`2^-31` and `2^94`, far inside the normal range, and its divisor is never zero, so
subnormals, infinities and NaN do not arise. -/
def roundFloat64 (x : ℚ) : ℚ :=
  if x = 0 then 0
  else
    let e := Int.log 2 |x|
    let ulp : ℚ := 2 ^ (e - 52)
    roundHalfEven (x / ulp) * ulp

/-- The conversion `float64(n)` of an integer. -/
def float64 (n : Int) : ℚ := roundFloat64 n

/-- The float64 product `x * y`. -/
def f64mul (x y : ℚ) : ℚ := roundFloat64 (x * y)

/-- The float64 quotient `x / y`, for `y ≠ 0`. -/
def f64div (x y : ℚ) : ℚ := roundFloat64 (x / y)

/-- The function `math.Ceil`; it is exact on float64. -/
def mathCeil (x : ℚ) : ℚ := ⌈x⌉

/-- The smallest `int`. -/
def MinInt : Int := -(2 ^ 63)

/-- The constant `MaxInt = int(MaxUint >> 1)`, for a 64-bit `uint`. -/
def MaxInt : Int := 2 ^ 63 - 1

/-- The conversion `int(x)` of a float64: truncation toward zero when the result fits.
When it does not fit Go leaves the value to the implementation; amd64 yields the smallest
`int`, which is what is written here. -/
def floatToInt (x : ℚ) : Int :=
  let t : Int := if 0 ≤ x then ⌊x⌋ else ⌈x⌉
  if MinInt ≤ t ∧ t ≤ MaxInt then t else MinInt

/-- Addition of `int32` values wraps around. -/
def wrapInt32 (x : Int) : Int := (x + 2 ^ 31) % 2 ^ 32 - 2 ^ 31

/-- The values of type `int32`. -/
def IsInt32 (x : Int) : Prop := -(2 ^ 31) ≤ x ∧ x < 2 ^ 31

instance (x : Int) : Decidable (IsInt32 x) := by
  unfold IsInt32
  infer_instance

/-! ## The autoscaler: data -/

namespace autoscaler

/-- The struct `FunctionId`, which identifies a function. -/
structure FunctionId where
  /-- The name of the function. -/
  Function : String
deriving DecidableEq, Repr

/-- The struct `metricsTotals`: messages transmitted to a topic and received by a function.
Both counters are `int32`. -/
structure metricsTotals where
  /-- Messages produced to the topic in the current interval. -/
  transmitCount : Int
  /-- Messages consumed by the function in the current interval. -/
  receiveCount : Int
deriving DecidableEq, Repr

/-- The value `&metricsTotals{}`. -/
def metricsTotals.zero : metricsTotals := ⟨0, 0⟩

/-- Modelled from the spec: the struct `metrics.ProducerAggregateMetric`, declared in a
package that is not among the sources; the code reads its fields `Topic` and `Count`, the
latter added to an `int32`. -/
structure ProducerAggregateMetric where
  /-- The topic produced to. -/
  Topic : String
  /-- The number of messages, an `int32`. -/
  Count : Int
deriving DecidableEq, Repr

/-- Modelled from the spec: the struct `metrics.ConsumerAggregateMetric`, declared in a
package that is not among the sources; the code reads its fields `Topic`, `ConsumerGroup`
(the name of the consuming function) and `Count`, the latter added to an `int32`. -/
structure ConsumerAggregateMetric where
  /-- The topic consumed from. -/
  Topic : String
  /-- The consumer group, which names the function. -/
  ConsumerGroup : String
  /-- The number of messages, an `int32`. -/
  Count : Int
deriving DecidableEq, Repr

/-- Modelled from the spec: the type `Delayer` behind `NewDelayer`, `Delay` and `Get`,
which `autoScaler.delay` uses and which is not among the sources. It is a parameter of the
whole development: any state type, any initial state, and any function giving, for the value
of the delay policy, the time of the call, the state and a proposal, the result of
`p.Delay(proposal).Get()` together with the state afterwards. -/
structure Delayer where
  /-- The private state of one delayer. -/
  State : Type
  /-- The state after `NewDelayer`. -/
  NewDelayer : State
  /-- The call `p.Delay(proposal).Get()`: its result and the state it leaves. -/
  DelayGet : (delayPolicy : Int) → (now : Int) → State → (proposal : Int) → Int × State

/-- What the engine's collaborators answer while one call runs. -/
structure World where
  /-- The answers of `transportInspector.QueueLength(topic, function)`: a queue length
  (an `int64`) or an error. -/
  QueueLength : String → String → Except String Int
  /-- The reading of the clock, in nanoseconds. -/
  now : Int

/-- The three lines the scalers write with `log.Printf`, by their arguments. -/
inductive LogLine where
  /-- The line "Proposing %v should have maxReplicas (%d) instead of %d replicas". -/
  | shouldHaveMaxReplicas (fn : FunctionId) (maxReplicas : Int) (proposedReplicas : Int)
  /-- The line "Failed to obtain queue length (and will assume it is positive): %v". -/
  | failedQueueLength (err : String)
  /-- The line "Ignoring proposal to scale %v to 0 replicas since queue length is %d". -/
  | ignoringScaleToZero (function : String) (length : Int)
deriving DecidableEq, Repr

/-- The ways the engine panics. -/
inductive Panic where
  /-- The call `a.mutex.Lock()` on the `nil` mutex of a closed engine. -/
  | nilMutex
  /-- The panic "Functions with multiple input topics are not supported". -/
  | multipleInputTopics
  /-- The call of `a.scalers[fn]` when the map has no scaler for `fn` (a `nil` func). -/
  | nilScaler
  /-- The call `close` on a channel that is closed already. -/
  | closeOfClosedChannel
deriving DecidableEq, Repr

/-- The errors that `StartMonitoring` and `StopMonitoring` return, by their arguments. -/
inductive MonitorError where
  /-- The error "Already monitoring topic %s and function %s". -/
  | alreadyMonitoring (topic : String) (fn : FunctionId)
  /-- The error "Not monitoring topic %s and function %s". -/
  | notMonitoring (topic : String) (fn : FunctionId)
deriving DecidableEq, Repr

/-- The struct `autoScaler`. The collaborators `metricsReceiver` and `transportInspector`
answer through `World`; the channels `stop` and `accumulatingStopped` only coordinate the
receive loop with `Close`, and are kept in `Channels`. -/
structure autoScaler (D : Delayer) where
  /-- Whether `mutex` is non-nil; it is `nil` when the engine is closed. -/
  mutex : Bool
  /-- The monitoring set: topic, then function, then totals. -/
  totals : GoMap String (GoMap FunctionId metricsTotals)
  /-- One scaler per function: the state of the delayer its closure owns. -/
  scalers : GoMap FunctionId D.State
  /-- The last informed replica count of every function, monitored or not. -/
  replicas : GoMap FunctionId Int
  /-- The maximum replica count policy. -/
  maxReplicas : FunctionId → Int
  /-- The delay scale down policy, a `time.Duration` in nanoseconds. -/
  delayScaleDown : FunctionId → Int

/-- What a scaler closure can change when it is called: its delayer and the log. -/
structure Effects (D : Delayer) where
  /-- The state of the delayer of the function. -/
  delayer : D.State
  /-- The lines logged so far. -/
  log : List LogLine

/-- The type `scaler`, `func(*metricsTotals) int`. -/
abbrev scaler (D : Delayer) := metricsTotals → StateM (Effects D) Int

/-- The type `adjuster`, `func(int) int`. -/
abbrev adjuster (D : Delayer) := Int → StateM (Effects D) Int

/-! ## The autoscaler: operations -/

variable {D : Delayer}

/-- The call `log.Printf`. -/
def logPrintf (l : LogLine) : StateM (Effects D) Unit :=
  modify (fun e => { e with log := e.log ++ [l] })

/-- The function `NewAutoScaler`. -/
def NewAutoScaler : autoScaler D where
  mutex := true
  totals := GoMap.empty
  scalers := GoMap.empty
  replicas := GoMap.empty
  maxReplicas := fun _ => MaxInt
  delayScaleDown := fun _ => 0

/-- The call `a.mutex.Lock()`, which panics on the `nil` mutex of a closed engine. -/
def lock (a : autoScaler D) : Except Panic Unit :=
  if a.mutex then pure () else throw Panic.nilMutex

/-- The read `a.replicas[fn]`, which is 0 for a function never informed. -/
def replicasOf (a : autoScaler D) (fn : FunctionId) : Int :=
  (a.replicas.get? fn).getD 0

/-- Whether the pair of `topic` and `fn` is in the monitoring set. -/
def monitored (a : autoScaler D) (topic : String) (fn : FunctionId) : Bool :=
  match a.totals.get? topic with
  | some funcTotals => funcTotals.contains fn
  | none => false

/-- The function `compose`. -/
def compose (a : adjuster D) (s : scaler D) : scaler D :=
  fun mt => do
    let v ← s mt
    a v

/-- The function `decorate`. -/
def decorate (s : scaler D) (adjusters : List (adjuster D)) : scaler D :=
  adjusters.foldl (fun s a => compose a s) s

/-- The method `metricsScaler`. -/
def metricsScaler (a : autoScaler D) (fn : FunctionId) : scaler D :=
  fun mt =>
    if mt.receiveCount = 0 then
      if mt.transmitCount = 0 then pure 0
      else pure 1
    else
      pure (floatToInt (mathCeil
        (f64div (f64mul (float64 (replicasOf a fn)) (float64 mt.transmitCount))
          (float64 mt.receiveCount))))

/-- The method `limitScalingUp`. -/
def limitScalingUp (a : autoScaler D) (fn : FunctionId) : adjuster D :=
  fun proposedReplicas => do
    let maxReplicas := a.maxReplicas fn
    let possibleChange := decide (proposedReplicas ≠ replicasOf a fn)
    if proposedReplicas > maxReplicas then
      if possibleChange then
        logPrintf (LogLine.shouldHaveMaxReplicas fn maxReplicas proposedReplicas)
      pure maxReplicas
    else
      pure proposedReplicas

/-- The loop of `emptyQueue` over the entries of `a.totals`. -/
def emptyQueueLoop (w : World) (funcId : FunctionId) :
    List (String × GoMap FunctionId metricsTotals) → StateM (Effects D) (Bool × Int)
  | [] => pure (true, 0)
  | (topic, funcTotals) :: rest =>
    if funcTotals.contains funcId then
      match w.QueueLength topic funcId.Function with
      | Except.error err => do
        logPrintf (LogLine.failedQueueLength err)
        pure (false, -1)
      | Except.ok queueLen =>
        if queueLen > 0 then pure (false, queueLen)
        else emptyQueueLoop w funcId rest
    else emptyQueueLoop w funcId rest

/-- The method `emptyQueue`. -/
def emptyQueue (a : autoScaler D) (w : World) (funcId : FunctionId) :
    StateM (Effects D) (Bool × Int) :=
  emptyQueueLoop w funcId a.totals.entries

/-- The method `limitScalingDown`. -/
def limitScalingDown (a : autoScaler D) (w : World) (fn : FunctionId) : adjuster D :=
  fun proposedReplicas =>
    if proposedReplicas = 0 ∧ replicasOf a fn ≠ 0 then do
      let r ← emptyQueue a w fn
      if r.1 then pure proposedReplicas
      else do
        logPrintf (LogLine.ignoringScaleToZero fn.Function r.2)
        pure 1
    else pure proposedReplicas

/-- The method `delay`. The closure owns a delayer built from the delay policy of `fn`. -/
def delay (a : autoScaler D) (w : World) (fn : FunctionId) : adjuster D :=
  fun proposal e =>
    let r := D.DelayGet (a.delayScaleDown fn) w.now e.delayer proposal
    (r.1, { e with delayer := r.2 })

/-- The scaler that `StartMonitoring` stores in `a.scalers[fn]`. -/
def pipeline (a : autoScaler D) (w : World) (fn : FunctionId) : scaler D :=
  decorate (metricsScaler a fn) [limitScalingUp a fn, limitScalingDown a w fn, delay a w fn]

/-- What the loops of `Propose` carry: the map `proposals`, the engine and the log. It is
also what `Propose` hands back: the proposals it returns, the engine it leaves, and the
lines it logged. -/
structure ProposeState (D : Delayer) where
  /-- The map `proposals`. -/
  proposals : GoMap FunctionId Int
  /-- The engine. -/
  a : autoScaler D
  /-- The lines logged. -/
  log : List LogLine

/-- The body of the inner loop of `Propose`, for the entry `e` of the map `funcTotals` that
`a.totals` holds under `topic`. The map is carried along with the engine because the loop
variable and `a.totals[topic]` are one and the same map. -/
def proposeEntry (w : World) (topic : String)
    (s : ProposeState D × GoMap FunctionId metricsTotals) (e : FunctionId × metricsTotals) :
    Except Panic (ProposeState D × GoMap FunctionId metricsTotals) :=
  if s.1.proposals.contains e.1 then throw Panic.multipleInputTopics
  else
    match s.1.a.scalers.get? e.1 with
    | none => throw Panic.nilScaler
    | some d =>
      let r := pipeline s.1.a w e.1 e.2 ⟨d, s.1.log⟩
      let funcTotals := s.2.store e.1 metricsTotals.zero
      pure ({ proposals := s.1.proposals.store e.1 r.1
              a := { s.1.a with
                      totals := s.1.a.totals.store topic funcTotals
                      scalers := s.1.a.scalers.store e.1 r.2.delayer }
              log := r.2.log }, funcTotals)

/-- The body of the outer loop of `Propose`, for the entry `t` of `a.totals`. -/
def proposeTopic (w : World) (s : ProposeState D)
    (t : String × GoMap FunctionId metricsTotals) : Except Panic (ProposeState D) := do
  let r ← t.2.entries.foldlM (proposeEntry w t.1) (s, t.2)
  pure r.1

/-- The method `Propose`. -/
def Propose (a : autoScaler D) (w : World) : Except Panic (ProposeState D) := do
  lock a
  a.totals.entries.foldlM (proposeTopic w) ⟨GoMap.empty, a, []⟩

/-- The method `StartMonitoring`: the error it returns, if any, and the engine it leaves. -/
def StartMonitoring (a : autoScaler D) (topic : String) (fn : FunctionId) :
    Except Panic (Option MonitorError × autoScaler D) := do
  lock a
  let (funcTotals, a1) :=
    match a.totals.get? topic with
    | some funcTotals => (funcTotals, a)
    | none => (GoMap.empty, { a with totals := a.totals.store topic GoMap.empty })
  if funcTotals.contains fn then
    pure (some (MonitorError.alreadyMonitoring topic fn), a1)
  else
    pure (none, { a1 with
                    totals := a1.totals.store topic (funcTotals.store fn metricsTotals.zero)
                    scalers := a1.scalers.store fn D.NewDelayer })

/-- The method `StopMonitoring`: the error it returns, if any, and the engine it leaves. -/
def StopMonitoring (a : autoScaler D) (topic : String) (function : FunctionId) :
    Except Panic (Option MonitorError × autoScaler D) := do
  lock a
  match a.totals.get? topic with
  | none => pure (some (MonitorError.notMonitoring topic function), a)
  | some funcTotals =>
    if funcTotals.contains function then
      let funcTotals1 := funcTotals.delete function
      let totals1 := a.totals.store topic funcTotals1
      let totals2 := if funcTotals1.len = 0 then totals1.delete topic else totals1
      pure (none, { a with totals := totals2, scalers := a.scalers.delete function })
    else
      pure (some (MonitorError.notMonitoring topic function), a)

/-- The method `InformFunctionReplicas`. -/
def InformFunctionReplicas (a : autoScaler D) (function : FunctionId) (replicas : Int) :
    Except Panic (autoScaler D) := do
  lock a
  pure { a with replicas := a.replicas.store function replicas }

/-- The method `receiveConsumerMetric`. -/
def receiveConsumerMetric (a : autoScaler D) (cm : ConsumerAggregateMetric) :
    Except Panic (autoScaler D) := do
  lock a
  match a.totals.get? cm.Topic with
  | none => pure a
  | some funcTotals =>
    match funcTotals.get? ⟨cm.ConsumerGroup⟩ with
    | none => pure a
    | some mt =>
      pure { a with
              totals := a.totals.store cm.Topic
                (funcTotals.store ⟨cm.ConsumerGroup⟩
                  { mt with receiveCount := wrapInt32 (mt.receiveCount + cm.Count) }) }

/-- The method `receiveProducerMetric`. -/
def receiveProducerMetric (a : autoScaler D) (pm : ProducerAggregateMetric) :
    Except Panic (autoScaler D) := do
  lock a
  match a.totals.get? pm.Topic with
  | none => pure a
  | some funcTotals =>
    pure { a with
            totals := a.totals.store pm.Topic
              (funcTotals.mapValues
                (fun mt => { mt with transmitCount := wrapInt32 (mt.transmitCount + pm.Count) })) }

/-- A metric event taken from one of the two channels of the metrics receiver. -/
inductive MetricEvent where
  /-- An event from `ProducerMetrics()`. -/
  | producer (pm : ProducerAggregateMetric)
  /-- An event from `ConsumerMetrics()`. -/
  | consumer (cm : ConsumerAggregateMetric)
deriving DecidableEq, Repr

/-- One turn of the `select` of `receiveLoop` that takes a metric event. -/
def receiveMetric (a : autoScaler D) : MetricEvent → Except Panic (autoScaler D)
  | MetricEvent.producer pm => receiveProducerMetric a pm
  | MetricEvent.consumer cm => receiveConsumerMetric a cm

/-- The turns of `receiveLoop` that take the events of a list, one after the other. -/
def receiveMetrics (a : autoScaler D) (events : List MetricEvent) : Except Panic (autoScaler D) :=
  events.foldlM receiveMetric a

/-! ## Derived notions used in the statements -/

/-- All entries of the monitoring set, in the order `Propose` visits them. -/
def flatTotals (ts : List (String × GoMap FunctionId metricsTotals)) :
    List (FunctionId × metricsTotals) :=
  ts.flatMap (fun t => t.2.entries)

/-- No function is registered under more than one topic. -/
def singleTopic (a : autoScaler D) : Prop :=
  ((flatTotals a.totals.entries).map Prod.fst).Nodup

/-- Every monitored function has a scaler in `a.scalers`. -/
def scalersRegistered (a : autoScaler D) : Prop :=
  ∀ fn, fn ∈ (flatTotals a.totals.entries).map Prod.fst → a.scalers.contains fn = true

/-- The value the scaler of `fn` returns on `mt`, if `fn` has a scaler. -/
def proposalFor (a : autoScaler D) (w : World) (fn : FunctionId) (mt : metricsTotals) :
    Option Int :=
  (a.scalers.get? fn).map (fun d => (pipeline a w fn mt ⟨d, []⟩).1)

/-- The monitoring set with every total set to zero. -/
def zeroedTotals (totals : GoMap String (GoMap FunctionId metricsTotals)) :
    GoMap String (GoMap FunctionId metricsTotals) :=
  totals.mapValues (GoMap.mapValues (fun _ => metricsTotals.zero))

/-- The inspector does not report an empty queue for `topic` and `fn`: it fails or it
reports a positive length. -/
def notEmptyAnswer (w : World) (topic : String) (fn : FunctionId) : Prop :=
  ∀ q, w.QueueLength topic fn.Function = Except.ok q → 0 < q

/-- The number of messages that the producer events of a list report for `topic`. -/
def producedTo (topic : String) : List MetricEvent → Int
  | [] => 0
  | MetricEvent.producer pm :: rest =>
    (if pm.Topic = topic then pm.Count else 0) + producedTo topic rest
  | MetricEvent.consumer _ :: rest => producedTo topic rest

/-- The number of messages that the consumer events of a list report for `topic` and the
consumer group `function`. -/
def consumedBy (topic : String) (function : String) : List MetricEvent → Int
  | [] => 0
  | MetricEvent.producer _ :: rest => consumedBy topic function rest
  | MetricEvent.consumer cm :: rest =>
    (if cm.Topic = topic ∧ cm.ConsumerGroup = function then cm.Count else 0) +
      consumedBy topic function rest

/-- The cooldown acts as the identity: the delayer returns every proposal as it is. -/
def cooldownIsIdentity (D : Delayer) : Prop :=
  ∀ delayPolicy now st proposal, (D.DelayGet delayPolicy now st proposal).1 = proposal

/-- A fresh engine with default policies that monitors `fn` on `topic` alone, with the
given totals, delayer state and replica counts. -/
def monitoringOnly (topic : String) (fn : FunctionId) (mt : metricsTotals) (d : D.State)
    (replicas : GoMap FunctionId Int) : autoScaler D :=
  { (NewAutoScaler : autoScaler D) with
    totals := GoMap.empty.store topic (GoMap.empty.store fn mt)
    scalers := GoMap.empty.store fn d
    replicas := replicas }

/-- The totals that the monitoring set holds for the pair of `topic` and `fn`, if the pair
is monitored: `a.totals[topic][fn]`. -/
def totalsOf (a : autoScaler D) (topic : String) (fn : FunctionId) : Option metricsTotals :=
  (a.totals.get? topic).bind (fun funcTotals => funcTotals.get? fn)

/-- A call of `StartMonitoring` or of `StopMonitoring`, by its arguments. -/
inductive MonitorCall where
  /-- The call `StartMonitoring(topic, fn)`. -/
  | start (topic : String) (fn : FunctionId)
  /-- The call `StopMonitoring(topic, fn)`. -/
  | stop (topic : String) (fn : FunctionId)
deriving DecidableEq, Repr

/-- The engine that a call of `StartMonitoring` or `StopMonitoring` leaves, whatever the
call returns; a call that panics leaves the engine as it is. -/
def afterCall (a : autoScaler D) : MonitorCall → autoScaler D
  | MonitorCall.start topic fn =>
    match StartMonitoring a topic fn with
    | Except.ok r => r.2
    | Except.error _ => a
  | MonitorCall.stop topic fn =>
    match StopMonitoring a topic fn with
    | Except.ok r => r.2
    | Except.error _ => a

/-- The engine after a sequence of calls of `StartMonitoring` and `StopMonitoring`. -/
def afterCalls (a : autoScaler D) (calls : List MonitorCall) : autoScaler D :=
  calls.foldl afterCall a

/-- A sequence of calls in which `StartMonitoring` is never called for a function that is,
at that moment, registered under another topic. -/
def oneTopicAtATime (a : autoScaler D) : List MonitorCall → Prop
  | [] => True
  | MonitorCall.start topic fn :: rest =>
    (∀ topic', monitored a topic' fn = true → topic' = topic) ∧
      oneTopicAtATime (afterCall a (MonitorCall.start topic fn)) rest
  | MonitorCall.stop topic fn :: rest =>
    oneTopicAtATime (afterCall a (MonitorCall.stop topic fn)) rest

/-- The update `mt.transmitCount += count`. -/
def addTransmitted (count : Int) (mt : metricsTotals) : metricsTotals :=
  { mt with transmitCount := wrapInt32 (mt.transmitCount + count) }

/-- The update `mt.receiveCount += count`. -/
def addReceived (count : Int) (mt : metricsTotals) : metricsTotals :=
  { mt with receiveCount := wrapInt32 (mt.receiveCount + count) }

/-! ## Invariants of the loops of `Propose` -/

/-- The part of an entry of the monitoring set that `emptyQueue` reads. -/
def shape (t : String × GoMap FunctionId metricsTotals) : String × List FunctionId :=
  (t.1, t.2.keys)

/-- A computation whose result and whose effect on the delayer do not depend on what has
been logged before. -/
def LogBlind {α : Type} (x : StateM (Effects D) α) : Prop :=
  ∀ d log, (x ⟨d, log⟩).1 = (x ⟨d, []⟩).1 ∧ (x ⟨d, log⟩).2.delayer = (x ⟨d, []⟩).2.delayer

/-- What `Propose` leaves alone in the engine. -/
def SameSettings (a b : autoScaler D) : Prop :=
  b.mutex = a.mutex ∧ b.replicas = a.replicas ∧ b.maxReplicas = a.maxReplicas ∧
    b.delayScaleDown = a.delayScaleDown

/-- An entry of a topic with its totals set to zero. -/
def zeroEntry (e : FunctionId × metricsTotals) : FunctionId × metricsTotals :=
  (e.1, metricsTotals.zero)

/-- An entry of the monitoring set with all its totals set to zero. -/
def zeroTopic (t : String × GoMap FunctionId metricsTotals) :
    String × GoMap FunctionId metricsTotals :=
  (t.1, t.2.mapValues (fun _ => metricsTotals.zero))

/-- What holds of the state of the loops of `Propose`, started on the engine `a`, once the
entries `seen` have been visited. -/
structure ProposeInv (a : autoScaler D) (w : World) (seen : List (FunctionId × metricsTotals))
    (s : ProposeState D) : Prop where
  /-- Replica counts, policies and the mutex are those of `a`. -/
  settings : SameSettings a s.a
  /-- The monitoring set has the topics and functions of `a`, in the same order. -/
  shape : s.a.totals.entries.map shape = a.totals.entries.map shape
  /-- The proposals are those of the entries seen, in the order seen. -/
  proposals : s.proposals.entries.map (fun p => (p.1, some p.2)) =
    seen.map (fun e => (e.1, proposalFor a w e.1 e.2))
  /-- The scalers of the functions not seen yet are those of `a`. -/
  scalers : ∀ fn, fn ∉ seen.map Prod.fst → s.a.scalers.get? fn = a.scalers.get? fn
  /-- The functions that have a scaler are those of `a`. -/
  scalerKeys : s.a.scalers.keys = a.scalers.keys
  /-- Every function seen has a scaler in `a`. -/
  registered : ∀ fn, fn ∈ seen.map Prod.fst → a.scalers.contains fn = true

/-- What holds inside the inner loop of `Propose` over the map `ft₀` of `topic`, which sits
between the entries `pre` and `post`. -/
def InnerInv (a : autoScaler D) (w : World) (topic : String)
    (pre post : List (String × GoMap FunctionId metricsTotals))
    (seen₀ : List (FunctionId × metricsTotals)) (ft₀ : GoMap FunctionId metricsTotals)
    (done rest : List (FunctionId × metricsTotals))
    (s : ProposeState D × GoMap FunctionId metricsTotals) : Prop :=
  ft₀.entries = done ++ rest ∧ s.2.entries = done.map zeroEntry ++ rest ∧
    s.1.a.totals.entries = pre ++ (topic, s.2) :: post ∧ ProposeInv a w (seen₀ ++ done) s.1

/-- What holds in the outer loop of `Propose`, started on the engine `a`. -/
def OuterInv (a : autoScaler D) (w : World)
    (done rest : List (String × GoMap FunctionId metricsTotals)) (s : ProposeState D) : Prop :=
  a.totals.entries = done ++ rest ∧ s.a.totals.entries = done.map zeroTopic ++ rest ∧
    ProposeInv a w (flatTotals done) s

/-! ## Concrete instances -/

/-- A delayer that hands every proposal on at once: a cooldown that acts as the identity. -/
def Delayer.passThrough : Delayer where
  State := Unit
  NewDelayer := ()
  DelayGet := fun _ _ s proposal => (proposal, s)

/-- A world in which the inspector reports an empty queue for every topic and function. -/
def emptyQueues : World where
  QueueLength := fun _ _ => Except.ok 0
  now := 0

/-- A world in which every call of the inspector fails. -/
def brokenInspector : World where
  QueueLength := fun _ _ => Except.error "unreachable"
  now := 0

/-- A world in which the inspector reports a queue of length 3 everywhere. -/
def queuesOfThree : World where
  QueueLength := fun _ _ => Except.ok 3
  now := 0

/-- The function `F` of the examples. -/
def F : FunctionId := ⟨"F"⟩

/-- A fresh engine that has been informed of `n` replicas of `F`. -/
def informed (n : Int) : autoScaler Delayer.passThrough :=
  { (NewAutoScaler : autoScaler Delayer.passThrough) with replicas := GoMap.empty.store F n }

/-- A fresh engine that monitors `F` on topic "T" with the given totals and has been
informed of `n` replicas of `F`. -/
def monitoring (n : Int) (mt : metricsTotals) : autoScaler Delayer.passThrough :=
  { (NewAutoScaler : autoScaler Delayer.passThrough) with
    totals := GoMap.empty.store "T" (GoMap.empty.store F mt)
    scalers := GoMap.empty.store F ()
    replicas := GoMap.empty.store F n }

/-- A fresh engine whose maximum replica count policy answers `m` for every function. -/
def capped (m : Int) : autoScaler Delayer.passThrough :=
  { (NewAutoScaler : autoScaler Delayer.passThrough) with maxReplicas := fun _ => m }

/-- The engine after `StartMonitoring("T1", F)` and `StartMonitoring("T2", F)` on a fresh
engine: `F` is registered under two topics. -/
def twoTopics : autoScaler Delayer.passThrough :=
  { (NewAutoScaler : autoScaler Delayer.passThrough) with
    totals := (GoMap.empty.store "T1" (GoMap.empty.store F metricsTotals.zero)).store "T2"
      (GoMap.empty.store F metricsTotals.zero)
    scalers := GoMap.empty.store F () }

/-- The engine after `StopMonitoring("T1", F)` on `twoTopics`: `F` is still monitored on
"T2", and its scaler is gone. -/
def orphaned : autoScaler Delayer.passThrough :=
  { (NewAutoScaler : autoScaler Delayer.passThrough) with
    totals := GoMap.empty.store "T2" (GoMap.empty.store F metricsTotals.zero) }

/-- A closed engine: `monitoring n mt` after `Close`, its mutex `nil`. -/
def closed (n : Int) (mt : metricsTotals) : autoScaler Delayer.passThrough :=
  { monitoring n mt with mutex := false }

/-- The engine after `StartMonitoring("T1", F)`, `StartMonitoring("T2", F)`,
`StartMonitoring("T3", F)` and `StopMonitoring("T1", F)` on a fresh engine: `F` is
registered under "T2" and "T3", and its scaler is gone. -/
def orphanedTwice : autoScaler Delayer.passThrough :=
  { (NewAutoScaler : autoScaler Delayer.passThrough) with
    totals := (GoMap.empty.store "T2" (GoMap.empty.store F metricsTotals.zero)).store "T3"
      (GoMap.empty.store F metricsTotals.zero) }

/-- Nothing logged yet, for the pass-through delayer. -/
def noEffects : Effects Delayer.passThrough := ⟨(), []⟩

end autoscaler

/-! ## The backoff policy

A shallow embedding of `function-sidecar/pkg/backoff/backoff.go`. `int` and `time.Duration`
are 64-bit integers whose arithmetic wraps around; a duration counts nanoseconds. -/

/-- Arithmetic on `int` and `time.Duration` wraps around at 64 bits. -/
def wrapInt64 (x : Int) : Int := (x + 2 ^ 63) % 2 ^ 64 - 2 ^ 63

namespace backoff

/-- The struct `Backoff`. -/
structure Backoff where
  /-- The number of retries allowed. -/
  maxRetries : Int
  /-- The number of calls of `Backoff()` so far. -/
  retries : Int
  /-- The factor by which the duration grows from one call to the next. -/
  multiplier : Int
  /-- The duration of the next sleep, in nanoseconds. -/
  duration : Int
deriving DecidableEq, Repr

/-- The function `NewBackoff`: the `Backoff` it returns, or the text of its error. -/
def NewBackoff (duration : Int) (maxRetries : Int) (multiplier : Int) : Except String Backoff :=
  if maxRetries ≤ 0 then Except.error "'maxRetries' must be > 0"
  else if multiplier ≤ 0 then Except.error "'multiplier' must be > 0"
  else if duration ≤ 0 then Except.error "'duration' must be > 0"
  else Except.ok { maxRetries := maxRetries, retries := 0, multiplier := multiplier,
                   duration := duration }

/-- What one call of the method `Backoff()` does: the value it returns, the duration it
hands to `time.Sleep` if it sleeps, and the `Backoff` it leaves. -/
structure BackoffResult where
  /-- The value returned: whether the caller may retry. -/
  retry : Bool
  /-- The argument of `time.Sleep`, if it is called. -/
  slept : Option Int
  /-- The `Backoff` after the call. -/
  b : Backoff
deriving DecidableEq, Repr

set_option linter.dupNamespace false in
/-- The method `Backoff()`. -/
def Backoff.Backoff (b : Backoff) : BackoffResult :=
  let duration := if b.retries > 0 then wrapInt64 (b.duration * b.multiplier) else b.duration
  let retries := wrapInt64 (b.retries + 1)
  if retries ≤ b.maxRetries then
    ⟨true, some duration, { b with duration := duration, retries := retries }⟩
  else
    ⟨false, none, { b with duration := duration, retries := retries }⟩

/-- The `Backoff` after `k` calls of `Backoff()`. -/
def afterBackoffs (b : Backoff) : Nat → Backoff
  | 0 => b
  | k + 1 => (afterBackoffs b k).Backoff.b

/-- The `k`-th call of `Backoff()`, for `k ≥ 1`. -/
def kthBackoff (b : Backoff) (k : Nat) : BackoffResult :=
  (afterBackoffs b (k - 1)).Backoff

/-- The duration that the `k`-th call hands to `time.Sleep` when it sleeps, for a `Backoff`
built with base duration `d` and multiplier `m`. -/
def sleepOf (d m : Int) (k : Nat) : Int :=
  if k ≤ 1 then d else wrapInt64 (d * m ^ (k - 1))

/-- The durations that the first `k` calls hand to `time.Sleep` when they all sleep, for a
`Backoff` built with base duration `d` and multiplier `m`. -/
def backoffDelays (d m : Int) (k : Nat) : List Int :=
  (List.range k).map (fun i => sleepOf d m (i + 1))

end backoff

/-! ## The dispatch loop of the sidecar

A shallow embedding of the loop `LOOP` of `main` in
`function-sidecar/cmd/function-sidecar.go`, with `backoffOrExit`. -/

namespace sidecar

open backoff

/-- Modelled from the spec: what the loop meets from outside. The signal channel and the
constructors `http.NewHttpDispatcher`, `dispatch.NewWrapper` and `grpc.NewGrpcDispatcher`,
which are declared in packages that are not among the sources, are parameters: whether a
termination signal is pending at a pass of the loop, and whether the construction of a
dispatcher succeeds at that pass. -/
structure Environment where
  /-- Whether a signal is waiting when the `select` at the head of pass `i` runs. -/
  signalPending : Nat → Bool
  /-- Whether the constructor for the protocol returns without error at pass `i`. -/
  constructs : String → Nat → Bool

/-- The ways `createDispatcher` ends. -/
inductive Created where
  /-- A dispatcher and no error. -/
  | dispatcher
  /-- An error. -/
  | err
  /-- The panic "Unsupported Dispatcher". -/
  | unsupported
deriving DecidableEq, Repr

/-- The function `createDispatcher`, at pass `i` of the loop. -/
def createDispatcher (env : Environment) (protocol : String) (i : Nat) : Created :=
  if protocol = "http" then
    (if env.constructs "http" i then Created.dispatcher else Created.err)
  else if protocol = "grpc" then
    (if env.constructs "grpc" i then Created.dispatcher else Created.err)
  else Created.unsupported

/-- The function `backoffOrExit`, with the flag `exitOnComplete`. -/
def backoffOrExit (exitOnComplete : Bool) (b : Backoff) : BackoffResult :=
  if exitOnComplete then ⟨false, none, b⟩ else b.Backoff

/-- The ways the loop `LOOP` ends. -/
inductive LoopEnd where
  /-- A signal was pending at the head of a pass: "Shutting Down...", no dispatch. -/
  | shutDown
  /-- A dispatcher was created and `carrier.Run` was called: steady-state dispatch. -/
  | dispatched
  /-- The call `panic(err)` after `backoffOrExit` returned false. -/
  | fatal
  /-- The panic "Unsupported Dispatcher" of `createDispatcher`. -/
  | unsupported
deriving DecidableEq, Repr

/-- What the loop has done when it ends. -/
structure LoopResult where
  /-- How the loop ended. -/
  finish : LoopEnd
  /-- The durations handed to `time.Sleep` by the backoff, in order. -/
  delays : List Int
deriving DecidableEq, Repr

/-- The loop `LOOP` of `main`, from pass `i` on, with the backoff `b` and the delays made so
far; `fuel` bounds the number of passes. -/
def mainLoop (exitOnComplete : Bool) (protocol : String) (env : Environment) :
    (fuel : Nat) → (i : Nat) → Backoff → List Int → Option LoopResult
  | 0, _, _, _ => none
  | fuel + 1, i, b, delays =>
    if env.signalPending i then some ⟨LoopEnd.shutDown, delays⟩
    else
      match createDispatcher env protocol i with
      | Created.unsupported => some ⟨LoopEnd.unsupported, delays⟩
      | Created.dispatcher => some ⟨LoopEnd.dispatched, delays⟩
      | Created.err =>
        let r := backoffOrExit exitOnComplete b
        if r.retry then
          mainLoop exitOnComplete protocol env fuel (i + 1) r.b (delays ++ r.slept.toList)
        else some ⟨LoopEnd.fatal, delays⟩

/-- An environment without signals in which the construction of a dispatcher fails at the
first `k` passes and succeeds from then on. -/
def failsThenSucceeds (k : Nat) : Environment where
  signalPending := fun _ => false
  constructs := fun _ i => decide (k ≤ i)

/-- An environment without signals in which the construction of a dispatcher always
fails. -/
def alwaysFails : Environment where
  signalPending := fun _ => false
  constructs := fun _ _ => false

end sidecar

/-! ## The autoscaler: its life cycle -/

namespace autoscaler

variable {D : Delayer}

/-- The channels `stop` and `accumulatingStopped` of the struct `autoScaler`, with the
number of goroutines that run `receiveLoop`. Only `Run` and `Close` touch them, so they are
kept apart from the rest of the engine. -/
structure Channels where
  /-- Whether the channel `stop` is closed. -/
  stop : Bool
  /-- Whether the channel `accumulatingStopped` is closed. -/
  accumulatingStopped : Bool
  /-- The number of goroutines running `receiveLoop`. -/
  receiveLoops : Nat
deriving DecidableEq, Repr

/-- The channels of `NewAutoScaler`: both open, and no receive loop yet. -/
def Channels.fresh : Channels := ⟨false, false, 0⟩

/-- The method `SetMaxReplicasPolicy`, which does not touch the mutex. -/
def SetMaxReplicasPolicy (a : autoScaler D) (maxReplicas : FunctionId → Int) : autoScaler D :=
  { a with maxReplicas := maxReplicas }

/-- The method `SetDelayScaleDownPolicy`, which does not touch the mutex. -/
def SetDelayScaleDownPolicy (a : autoScaler D) (delayScaleDown : FunctionId → Int) :
    autoScaler D :=
  { a with delayScaleDown := delayScaleDown }

/-- The method `Run`: it locks the mutex, which fails on a closed engine, and starts a
goroutine that runs `receiveLoop`. -/
def Run (a : autoScaler D) (c : Channels) : Except Panic (autoScaler D × Channels) := do
  lock a
  pure (a, { c with receiveLoops := c.receiveLoops + 1 })

/-- What the receive loops do once `stop` is closed, when none of them is busy with a
metric: each one leaves its `select` through `case <-a.stop` and closes
`accumulatingStopped`. The first close succeeds; every later one panics, in the goroutine of
its receive loop and not in `Close`. The result is the channels left and the number of
receive loops that panic. -/
def stopReceiveLoops (c : Channels) : Channels × Nat :=
  match c.receiveLoops with
  | 0 => (c, 0)
  | n + 1 =>
    if c.accumulatingStopped then ({ c with receiveLoops := 0 }, n + 1)
    else ({ c with accumulatingStopped := true, receiveLoops := 0 }, n)

/-- How a call of `Close` ends when it does not panic. -/
inductive CloseEnd (D : Delayer) where
  /-- The call returns nil and leaves this engine and these channels. -/
  | returned (a : autoScaler D) (c : Channels)
  /-- The call waits for `accumulatingStopped` for ever, holding the mutex. -/
  | blocked

/-- The method `Close`: it locks the mutex, closes `stop`, waits until `accumulatingStopped`
is closed, and sets the mutex to `nil`; the mutex is never unlocked. A receive loop that
panics does so in its own goroutine: `Close` itself goes on and returns nil. -/
def Close (a : autoScaler D) (c : Channels) : Except Panic (CloseEnd D) := do
  lock a
  if c.stop then throw Panic.closeOfClosedChannel
  let c1 := (stopReceiveLoops { c with stop := true }).1
  if c1.accumulatingStopped then pure (CloseEnd.returned { a with mutex := false } c1)
  else pure CloseEnd.blocked

end autoscaler

/-! ## The autoscaler: the scaler up to the cooldown -/

namespace autoscaler

variable {D : Delayer}

/-- The scaler of `fn` up to the cooldown: the base scaler followed by the adjusters
`limitScalingUp` and `limitScalingDown`. Its value is what the adjuster `delay` is given. -/
def beforeCooldown (a : autoScaler D) (w : World) (fn : FunctionId) : scaler D :=
  decorate (metricsScaler a fn) [limitScalingUp a fn, limitScalingDown a w fn]

/-- The engine `monitoring 1 mt` with a maximum replica count policy that answers 0. -/
def cappedAtZero (mt : metricsTotals) : autoScaler Delayer.passThrough :=
  { monitoring 1 mt with maxReplicas := fun _ => 0 }

end autoscaler

/-! ## The autoscaler: sequences of calls -/

namespace autoscaler

variable {D : Delayer}

/-- A call of one of the operations that change the monitoring set, the replica counts or
the totals, by its arguments; for `Propose`, with what the collaborators answer. -/
inductive EngineCall where
  /-- The call `StartMonitoring(topic, fn)`. -/
  | start (topic : String) (fn : FunctionId)
  /-- The call `StopMonitoring(topic, fn)`. -/
  | stop (topic : String) (fn : FunctionId)
  /-- The call `InformFunctionReplicas(fn, replicas)`. -/
  | inform (fn : FunctionId) (replicas : Int)
  /-- One metric event folded by the receive loop. -/
  | metric (event : MetricEvent)
  /-- The call `Propose()`. -/
  | propose (w : World)

/-- The engine that a call leaves when it returns; the panic when it panics. -/
def afterEngineCall (a : autoScaler D) : EngineCall → Except Panic (autoScaler D)
  | EngineCall.start topic fn => do
    let r ← StartMonitoring a topic fn
    pure r.2
  | EngineCall.stop topic fn => do
    let r ← StopMonitoring a topic fn
    pure r.2
  | EngineCall.inform fn replicas => InformFunctionReplicas a fn replicas
  | EngineCall.metric event => receiveMetric a event
  | EngineCall.propose w => do
    let r ← Propose a w
    pure r.a

/-- The engine after a sequence of calls that all return; the first panic otherwise. -/
def afterEngineCalls (a : autoScaler D) (calls : List EngineCall) :
    Except Panic (autoScaler D) :=
  calls.foldlM afterEngineCall a

/-- A call that is not a `StartMonitoring` for a function registered, at that moment, under
another topic. -/
def startAllowed (a : autoScaler D) : EngineCall → Prop
  | EngineCall.start topic fn => ∀ topic', monitored a topic' fn = true → topic' = topic
  | _ => True

/-- A sequence of calls in which `StartMonitoring` is never called for a function that is,
at that moment, registered under another topic. -/
def startsOnOneTopic (a : autoScaler D) : List EngineCall → Prop
  | [] => True
  | c :: rest =>
    startAllowed a c ∧
      match afterEngineCall a c with
      | Except.ok a' => startsOnOneTopic a' rest
      | Except.error _ => True

/-- An engine that is open, has no function under two topics, and has a scaler for every
monitored function. -/
def Serviceable (a : autoScaler D) : Prop :=
  a.mutex = true ∧ singleTopic a ∧ scalersRegistered a

end autoscaler

/-! ## The autoscaler: the cooldown gate -/

namespace autoscaler

variable {D : Delayer}

/-- Modelled from the spec: the value that the cooldown gate holds, the highest proposal
seen within the trailing window of length `delayPolicy`. The window at time `now` holds the
proposal just given and every earlier proposal given less than `delayPolicy` before `now`;
`seen` lists the earlier proposals with the times they were given at. The source of the
`Delayer` is not among the sources. -/
def heldValue (delayPolicy now : Int) (seen : List (Int × Int)) (proposal : Int) : Int :=
  ((seen.filter (fun e => decide (now - e.1 < delayPolicy))).map Prod.snd).foldl max proposal

/-- Modelled from the spec: the `Delayer` as a high-water mark held for a trailing window.
Its state is the list of the proposals given so far, each with the time of its call;
`Delay(proposal)` records the proposal and `Get()` returns the held value. The source of
`NewDelayer`, `Delay` and `Get` is not among the sources. -/
def Delayer.trailingWindow : Delayer where
  State := List (Int × Int)
  NewDelayer := []
  DelayGet := fun delayPolicy now seen proposal =>
    (heldValue delayPolicy now seen proposal, seen ++ [(now, proposal)])

/-- The values that the adjuster `delay` of `fn` returns for a sequence of proposals, each
paired with the time at which it is passed, starting from the effects `e`. -/
def cooldownOutputs (a : autoScaler D) (fn : FunctionId) :
    List (Int × Int) → Effects D → List Int
  | [], _ => []
  | (now, proposal) :: rest, e =>
    let r := delay a { emptyQueues with now := now } fn proposal e
    r.1 :: cooldownOutputs a fn rest r.2

/-- A fresh engine with the trailing-window delayer whose delay scale down policy answers
`d` for every function. -/
def coolingDown (d : Int) : autoScaler Delayer.trailingWindow :=
  { (NewAutoScaler : autoScaler Delayer.trailingWindow) with delayScaleDown := fun _ => d }

end autoscaler

/-! ## The sidecar: the head of `main` and the timeout of gRPC calls -/

namespace sidecar

open backoff

/-- The constant `time.Millisecond`, in nanoseconds. -/
def Millisecond : Int := 1000000

/-- The constant `time.Second`, in nanoseconds. -/
def Second : Int := 1000 * Millisecond

/-- The function `grpcContextTimeout`, with the flags `exitOnComplete` and `initialDelayMs`;
the product of durations wraps around at 64 bits. -/
def grpcContextTimeout (exitOnComplete : Bool) (initialDelayMs : Int) : Int :=
  let grpcDefaultContextTimeout : Int := 100 * Millisecond
  let grpcDefaultExitOnCompleteTimeout : Int := 60 * Second
  if exitOnComplete then grpcDefaultExitOnCompleteTimeout
  else
    let delay := grpcDefaultContextTimeout
    let delay := if initialDelayMs > 0 then wrapInt64 (initialDelayMs * Millisecond) else delay
    delay

end sidecar

namespace sidecar

open backoff

/-- The flags that the head of `main` reads once `flag.Parse()` has returned. A slice flag
that is not given on the command line is left `nil`, the empty list. -/
structure Flags where
  /-- The flag `inputs`. -/
  inputs : List String
  /-- The flag `outputs`. -/
  outputs : List String
  /-- The flag `backoffDuration`, in milliseconds. -/
  backoffDurationMs : Int
  /-- The flag `maxBackoffRetries`. -/
  backoffMaxRetries : Int
  /-- The flag `backoffMultiplier`. -/
  backoffMultiplier : Int
deriving DecidableEq, Repr

/-- The ways the head of `main` ends, up to the choice of the input and output topics. -/
inductive MainHead where
  /-- The call `log.Fatalf("Only 1 input supported for now. ...")`. -/
  | fatalInputs
  /-- The call `log.Fatalf("Only 1 output supported for now. ...")`. -/
  | fatalOutputs
  /-- The call `log.Fatalf("Error initializing backoff: %v\n", err)`. -/
  | fatalBackoff (err : String)
  /-- The run-time panic of `inputs[0]`: index out of range. -/
  | indexOutOfRange
  /-- The topics are chosen and `main` goes on with them and the backoff. -/
  | started (input : String) (output : String) (b : Backoff)
deriving DecidableEq, Repr

/-- The head of `main`: the two count checks, `NewBackoff`, and the choice of `input` and
`output`. -/
def mainHead (f : Flags) : MainHead :=
  if f.inputs.length > 1 then MainHead.fatalInputs
  else if f.outputs.length > 1 then MainHead.fatalOutputs
  else
    match NewBackoff (wrapInt64 (f.backoffDurationMs * Millisecond)) f.backoffMaxRetries
        f.backoffMultiplier with
    | Except.error err => MainHead.fatalBackoff err
    | Except.ok b =>
      match f.inputs[0]? with
      | none => MainHead.indexOutOfRange
      | some input =>
        let output := if f.outputs.length > 0 then f.outputs[0]?.getD "" else ""
        MainHead.started input output b

/-- The flags of a sidecar started without any flag on the command line, but for the
defaults given in `init`. -/
def defaultFlags : Flags where
  inputs := []
  outputs := []
  backoffDurationMs := 1000
  backoffMaxRetries := 3
  backoffMultiplier := 2

end sidecar

/-! ## The command chain of the CLI

A shallow embedding of the closure `postRunE` of `CommandChain` in
`riff-cli/cmd/utils/command_chain.go`. -/

namespace utils

/-- The fields of a `cobra.Command` that `postRunE` reads. The hooks act on a state of type
`σ`, which stands for all they can change, the command and the arguments they are given
included; `PostRunE` also returns an error, or nil. -/
structure Command (σ : Type) where
  /-- The field `PostRunE`, which is `nil` or a hook that can fail. -/
  PostRunE : Option (σ → σ × Option String)
  /-- The field `PostRun`, which is `nil` or a hook. -/
  PostRun : Option (σ → σ)

/-- The ways `postRunE` panics. -/
inductive ChainPanic where
  /-- The run-time panic of `commands[i]`: index out of range. -/
  | indexOutOfRange (index : Nat) (length : Nat)
deriving DecidableEq, Repr

variable {σ : Type}

/-- The body of the loop of `postRunE` at index `i`: the state the hook leaves and the
error to return, if any. -/
def postRunEBody (commands : List (Command σ)) (i : Nat) (s : σ) :
    Except ChainPanic (σ × Option String) :=
  match commands[i]? with
  | none => Except.error (ChainPanic.indexOutOfRange i commands.length)
  | some command =>
    match command.PostRunE with
    | some hook => Except.ok (hook s)
    | none =>
      match command.PostRun with
      | some hook => Except.ok (hook s, none)
      | none => Except.ok (s, none)

/-- The loop `for i := ...; i >= 0; i--` of `postRunE`, from index `i` down to 0. -/
def postRunELoop (commands : List (Command σ)) : Nat → σ → Except ChainPanic (σ × Option String)
  | 0, s => postRunEBody commands 0 s
  | i + 1, s =>
    match postRunEBody commands (i + 1) s with
    | Except.error p => Except.error p
    | Except.ok (s1, some err) => Except.ok (s1, some err)
    | Except.ok (s1, none) => postRunELoop commands i s1

/-- The closure `postRunE` of `CommandChain(commands...)`: the loop starts at
`i := len(commands)`. -/
def postRunE (commands : List (Command σ)) (s : σ) : Except ChainPanic (σ × Option String) :=
  postRunELoop commands commands.length s

/-- A command whose `PostRunE` appends its name to a trace and returns nil. -/
def tracing (name : String) : Command (List String) where
  PostRunE := some (fun s => (s ++ [name], none))
  PostRun := none

end utils

/-! ## The table of subscriptions of the CLI

A shallow embedding of `cmd/commands/subscription_display.go`. A Go string is a `String`,
its `len` the number of bytes of its UTF-8 encoding; lengths and widths are `int`s that are
never negative and far from overflow, hence natural numbers. -/

namespace commands

/-- The fields of a `v1alpha1.Subscription` that the extractors read: `Name`,
`Spec.Channel`, `Spec.Subscriber` and `Spec.ReplyTo`. -/
structure Subscription where
  /-- The field `Name`. -/
  Name : String
  /-- The field `Spec.Channel`. -/
  Channel : String
  /-- The field `Spec.Subscriber`. -/
  Subscriber : String
  /-- The field `Spec.ReplyTo`. -/
  ReplyTo : String
deriving DecidableEq, Repr

/-- The struct `namedExtractor`. -/
structure namedExtractor where
  /-- The header of the column. -/
  name : String
  /-- The cell of a subscription in the column. -/
  fn : Subscription → String

/-- The struct `subscriptionTable`; `content` is a list of columns. -/
structure subscriptionTable where
  /-- The number of rows, the header row included. -/
  height : Nat
  /-- The width of each column. -/
  widths : List Nat
  /-- The cells: `content[i][j]` is the cell of column `i` in row `j`. -/
  content : List (List String)
deriving DecidableEq, Repr

/-- The built-in `len` of a string: its number of bytes. -/
def len (s : String) : Nat := s.utf8ByteSize

/-- The function `max`. -/
def max (a : Nat) (b : Nat) : Nat := if a > b then a else b

/-- The function `make2dArray`. -/
def make2dArray (width : Nat) (height : Nat) : List (List String) :=
  List.replicate width (List.replicate height "")

/-- The function `makeExtractors`. -/
def makeExtractors : List namedExtractor :=
  [⟨"NAME", fun s => s.Name⟩, ⟨"CHANNEL", fun s => s.Channel⟩,
   ⟨"SUBSCRIBER", fun s => s.Subscriber⟩, ⟨"REPLY-TO", fun s => s.ReplyTo⟩]

/-- The assignment `content[i][j] = value`. -/
def setCell (content : List (List String)) (i j : Nat) (value : String) : List (List String) :=
  content.set i ((content.getD i []).set j value)

/-- The inner loop of `makeSubscriptionDisplay` over the subscriptions, from index `j` on,
for the column `i`: it carries `content` and `width`. -/
def fillColumn (extractor : namedExtractor) (i : Nat) :
    List Subscription → Nat → List (List String) × Nat → List (List String) × Nat
  | [], _, st => st
  | subscription :: rest, j, (content, width) =>
    let value := extractor.fn subscription
    fillColumn extractor i rest (j + 1) (setCell content i (j + 1) value, max width (len value))

/-- The outer loop of `makeSubscriptionDisplay` over the extractors, from index `i` on: it
carries `widths` and `content`. -/
def fillTable (subscriptions : List Subscription) :
    List namedExtractor → Nat → List Nat × List (List String) → List Nat × List (List String)
  | [], _, st => st
  | extractor :: rest, i, (widths, content) =>
    let width := len extractor.name
    let content := setCell content i 0 extractor.name
    let r := fillColumn extractor i subscriptions 0 (content, width)
    fillTable subscriptions rest (i + 1) (widths.set i (1 + r.2), r.1)

/-- The function `makeSubscriptionDisplay`. -/
def makeSubscriptionDisplay (subscriptions : List Subscription) : subscriptionTable :=
  let extractors := makeExtractors
  let widths := List.replicate extractors.length 0
  let height := 1 + subscriptions.length
  let content := make2dArray extractors.length height
  let r := fillTable subscriptions extractors 0 (widths, content)
  { height := height, widths := r.1, content := r.2 }

/-- What `fmt.Fprintf(out, "%-*s", width, s)` writes: `s`, padded with spaces on the right
up to `width` characters. -/
def leftAligned (width : Nat) (s : String) : String :=
  s ++ String.mk (List.replicate (width - s.length) ' ')

/-- What the body of the outer loop of `display` writes for row `j`: the cells of the row,
each padded to the width of its column, and a line break. -/
def displayRow (t : subscriptionTable) (j : Nat) : String :=
  t.widths.enum.foldl
      (fun out iw => out ++ leftAligned iw.2 ((t.content.getD iw.1 []).getD j "")) "" ++ "\n"

/-- What the function `display` writes to `out`. -/
def display (subscriptions : List Subscription) : String :=
  let subscriptionDisplay := makeSubscriptionDisplay subscriptions
  (List.range subscriptionDisplay.height).foldl
    (fun out j => out ++ displayRow subscriptionDisplay j) ""

/-- The column of an extractor: its header, then the cell of each subscription. -/
def column (subscriptions : List Subscription) (extractor : namedExtractor) : List String :=
  extractor.name :: subscriptions.map extractor.fn

/-- The greatest length among the header and the cells of the column of an extractor. -/
def columnWidth (subscriptions : List Subscription) (extractor : namedExtractor) : Nat :=
  ((column subscriptions extractor).map len).foldl Max.max 0

/-- The subscription of the test of the list command. -/
def mySubscription : Subscription :=
  ⟨"my-subscription", "channel", "subscriber", "reply-to"⟩

end commands

/-! # Properties -/

/-! ## Rounding to float64 -/

theorem roundHalfEven_le {s : ℚ} {z : ℤ} (h : s ≤ z) : roundHalfEven s ≤ z := by
  have hf : ⌊s⌋ ≤ z := Int.cast_le.mp (le_trans (Int.floor_le s) h)
  unfold roundHalfEven
  simp only
  split
  · exact hf
  · rename_i h1
    have hlt : (⌊s⌋ : ℚ) < z := by
      have : (1:ℚ)/2 ≤ s - ⌊s⌋ := not_lt.mp h1
      linarith
    have hlt' : ⌊s⌋ < z := Int.cast_lt.mp hlt
    split
    · omega
    · split <;> omega

theorem roundHalfEven_ge {s : ℚ} {z : ℤ} (h : (z : ℚ) + 1 / 2 < s) : z + 1 ≤ roundHalfEven s := by
  have hf : z ≤ ⌊s⌋ := Int.le_floor.mpr (by linarith)
  unfold roundHalfEven
  simp only
  split
  · rename_i h1
    have : (z : ℚ) < ⌊s⌋ := by linarith
    have := Int.cast_lt.mp this
    omega
  · rename_i h1
    split
    · omega
    · rename_i h2
      have : (z : ℚ) < ⌊s⌋ := by
        have := not_lt.mp h2
        linarith
      have := Int.cast_lt.mp this
      split <;> omega

theorem roundHalfEven_intCast (z : ℤ) : roundHalfEven (z : ℚ) = z := by
  unfold roundHalfEven
  simp

theorem roundHalfEven_floor_le (s : ℚ) : ⌊s⌋ ≤ roundHalfEven s := by
  unfold roundHalfEven
  simp only
  split
  · exact le_refl _
  · split
    · omega
    · split <;> omega

/-- The unit in the last place used for `x`, when `|x| < 2^53`, is `1 / 2^k` for a natural `k`
with `2^k * |x| < 2^53 ≤ 2^(k+1) * |x|`. -/
theorem ulp_eq {x : ℚ} (hx : x ≠ 0) (hlt : |x| < 2 ^ 53) :
    ∃ k : ℕ, (2 : ℚ) ^ (Int.log 2 |x| - 52) = 1 / 2 ^ k ∧ (2 : ℚ) ^ 52 ≤ 2 ^ k * |x| := by
  have hpos : 0 < |x| := abs_pos.mpr hx
  have he : Int.log 2 |x| < 53 := by
    have := (Int.lt_zpow_iff_log_lt (b := 2) (by norm_num) hpos (x := 53)).mp (by exact_mod_cast hlt)
    exact this
  have hle := Int.zpow_log_le_self (b := 2) (by norm_num) hpos
  refine ⟨(52 - Int.log 2 |x|).toNat, ?_, ?_⟩
  · have h1 : Int.log 2 |x| - 52 = -((52 - Int.log 2 |x|).toNat : ℤ) := by
      rw [Int.toNat_of_nonneg (by omega)]; ring
    rw [h1, zpow_neg, zpow_natCast]
    simp
  · have h2 : ((2:ℚ) ^ (52 - Int.log 2 |x|).toNat) = (2:ℚ) ^ (52 - Int.log 2 |x|) := by
      rw [← zpow_natCast, Int.toNat_of_nonneg (by omega)]
    rw [h2]
    have h3 : (2:ℚ) ^ (52:ℤ) = 2 ^ (52 - Int.log 2 |x|) * 2 ^ (Int.log 2 |x|) := by
      rw [← zpow_add₀ (by norm_num)]; congr 1; ring
    have h4 : (2:ℚ) ^ (52:ℕ) = (2:ℚ) ^ (52:ℤ) := by norm_cast
    rw [h4, h3]
    have hnn : (0:ℚ) ≤ 2 ^ (52 - Int.log 2 |x|) := by positivity
    push_cast at hle
    exact mul_le_mul_of_nonneg_left hle hnn

theorem roundFloat64_intCast (n : ℤ) (h : |n| < 2 ^ 53) : roundFloat64 (n : ℚ) = n := by
  unfold roundFloat64
  by_cases h0 : (n : ℚ) = 0
  · simp [h0]
  · rw [if_neg h0]
    have hlt : |(n : ℚ)| < 2 ^ 53 := by exact_mod_cast h
    obtain ⟨k, hk, _⟩ := ulp_eq h0 hlt
    simp only [hk]
    have : (n : ℚ) / (1 / 2 ^ k) = ((n * 2 ^ k : ℤ) : ℚ) := by
      push_cast; field_simp
    rw [this, roundHalfEven_intCast]
    push_cast
    field_simp

theorem ceil_roundFloat64_div (P r : ℤ) (hr : 0 < r) (hP : |P| < 2 ^ 53) :
    ⌈roundFloat64 ((P : ℚ) / r)⌉ = ⌈(P : ℚ) / r⌉ := by
  have hrq : (0 : ℚ) < r := by exact_mod_cast hr
  have hr1 : (1 : ℚ) ≤ r := by exact_mod_cast hr
  unfold roundFloat64
  by_cases h0 : (P : ℚ) / r = 0
  · simp [h0]
  · rw [if_neg h0]
    have habs : |(P : ℚ) / r| = |(P : ℚ)| / r := by rw [abs_div, abs_of_pos hrq]
    have hPq : |(P : ℚ)| < 2 ^ 53 := by exact_mod_cast hP
    have hlt : |(P : ℚ) / r| < 2 ^ 53 := by
      rw [habs]
      calc |(P : ℚ)| / r ≤ |(P : ℚ)| := div_le_self (abs_nonneg _) hr1
        _ < 2 ^ 53 := hPq
    obtain ⟨k, hk, hk2⟩ := ulp_eq h0 hlt
    simp only [hk]
    set q : ℚ := (P : ℚ) / r with hq
    set c : ℤ := ⌈q⌉ with hc
    have hN : (0 : ℚ) < 2 ^ k := by positivity
    have hdiv : q / (1 / 2 ^ k) = q * 2 ^ k := by field_simp
    rw [hdiv, Int.ceil_eq_iff]
    constructor
    · -- lower bound
      have hc1 : ((c : ℚ) - 1) < q := by
        have := Int.ceil_lt_add_one q
        linarith
      -- q - (c - 1) ≥ 1 / r
      have hnum : 1 ≤ P - (c - 1) * r := by
        have : ((c : ℚ) - 1) * r < P := by
          have := (lt_div_iff₀ hrq).mp hc1
          exact this
        have : (((c - 1) * r : ℤ) : ℚ) < (P : ℚ) := by push_cast; exact this
        have := Int.cast_lt.mp this
        omega
      have hnumq : (1 : ℚ) ≤ P - (c - 1) * r := by exact_mod_cast hnum
      -- r < 2 * 2^k
      have hrk : (r : ℚ) < 2 * 2 ^ k := by
        rw [habs] at hk2
        have h5 : (2 : ℚ) ^ 52 * r ≤ 2 ^ k * |(P : ℚ)| := by
          have h9 : (2 : ℚ) ^ k * (|(P : ℚ)| / r) = (2 ^ k * |(P : ℚ)|) / r := by ring
          rw [h9] at hk2
          exact (le_div_iff₀ hrq).mp hk2
        have h6 : (2 : ℚ) ^ k * |(P : ℚ)| < 2 ^ k * 2 ^ 53 := mul_lt_mul_of_pos_left hPq hN
        have h7 : (2 : ℚ) ^ 52 * r < 2 ^ 52 * (2 * 2 ^ k) := by
          calc (2 : ℚ) ^ 52 * r ≤ 2 ^ k * |(P : ℚ)| := h5
            _ < 2 ^ k * 2 ^ 53 := h6
            _ = 2 ^ 52 * (2 * 2 ^ k) := by ring
        exact lt_of_mul_lt_mul_left h7 (by positivity)
      have hkey : (((c - 1) * 2 ^ k : ℤ) : ℚ) + 1 / 2 < q * 2 ^ k := by
        push_cast
        have hqe : q = (P : ℚ) / r := hq
        have : q * 2 ^ k - (c - 1) * 2 ^ k = (P - (c - 1) * r) * 2 ^ k / r := by
          rw [hqe]; field_simp; ring
        have h8 : (1 : ℚ) / 2 < (P - (c - 1) * r) * 2 ^ k / r := by
          rw [lt_div_iff₀ hrq]
          nlinarith
        linarith
      have := roundHalfEven_ge hkey
      have hge : ((c - 1) * 2 ^ k + 1 : ℚ) ≤ (roundHalfEven (q * 2 ^ k) : ℚ) := by
        exact_mod_cast this
      have : ((c : ℚ) - 1) * 2 ^ k < (roundHalfEven (q * 2 ^ k) : ℚ) := by linarith
      rw [mul_one_div, lt_div_iff₀ hN]
      exact this
    · -- upper bound
      have hqc : q ≤ c := Int.le_ceil q
      have hle : q * 2 ^ k ≤ ((c * 2 ^ k : ℤ) : ℚ) := by
        push_cast
        exact mul_le_mul_of_nonneg_right hqc hN.le
      have := roundHalfEven_le hle
      have hle2 : (roundHalfEven (q * 2 ^ k) : ℚ) ≤ c * 2 ^ k := by exact_mod_cast this
      rw [mul_one_div, div_le_iff₀ hN]
      exact hle2

theorem Int.log_two_eq {x : ℚ} {e : ℤ} (hx : 0 < x) (h1 : (2 : ℚ) ^ e ≤ x) (h2 : x < (2 : ℚ) ^ (e + 1)) :
    Int.log 2 |x| = e := by
  rw [abs_of_pos hx]
  have a1 := (Int.zpow_le_iff_le_log (b := 2) (by norm_num) hx).mp (by exact_mod_cast h1)
  have a2 := (Int.lt_zpow_iff_log_lt (b := 2) (by norm_num) hx).mp (by exact_mod_cast h2)
  omega

theorem roundFloat64_two_pow_53 : roundFloat64 9007199254740992 = 9007199254740992 := by
  have hlog : Int.log 2 |(9007199254740992 : ℚ)| = 53 :=
    Int.log_two_eq (by norm_num) (by norm_num) (by norm_num)
  unfold roundFloat64
  rw [if_neg (by norm_num), hlog]
  have : (9007199254740992 : ℚ) / 2 ^ ((53 : ℤ) - 52) = ((4503599627370496 : ℤ) : ℚ) := by norm_num
  simp only [this, roundHalfEven_intCast]
  norm_num

theorem roundFloat64_two_pow_53_add_one : roundFloat64 9007199254740993 = 9007199254740992 := by
  have hlog : Int.log 2 |(9007199254740993 : ℚ)| = 53 :=
    Int.log_two_eq (by norm_num) (by norm_num) (by norm_num)
  unfold roundFloat64
  rw [if_neg (by norm_num), hlog]
  have hf : ⌊(9007199254740993 : ℚ) / 2 ^ ((53 : ℤ) - 52)⌋ = 4503599627370496 := by
    rw [Int.floor_eq_iff]; norm_num
  have : roundHalfEven ((9007199254740993 : ℚ) / 2 ^ ((53 : ℤ) - 52)) = 4503599627370496 := by
    unfold roundHalfEven
    simp only [hf]
    norm_num
  simp only [this]
  norm_num

namespace autoscaler
variable {D : Delayer}

theorem floatToInt_intCast (c : ℤ) (h1 : MinInt ≤ c) (h2 : c ≤ MaxInt) : floatToInt (c : ℚ) = c := by
  unfold floatToInt
  simp [h1, h2]

theorem metricsScaler_exact (a : autoScaler D) (fn : FunctionId) (mt : metricsTotals)
    (e : Effects D) (hr : 0 < mt.receiveCount) (hr32 : IsInt32 mt.receiveCount)
    (ht32 : IsInt32 mt.transmitCount)
    (hprod : |replicasOf a fn * mt.transmitCount| < 2 ^ 53) :
    metricsScaler a fn mt e =
      (⌈((replicasOf a fn * mt.transmitCount : ℤ) : ℚ) / (mt.receiveCount : ℤ)⌉, e) := by
  obtain ⟨t, r⟩ := mt
  simp only at hr hr32 ht32 hprod ⊢
  have hr0 : r ≠ 0 := by omega
  have hrabs : |r| < 2 ^ 53 := by
    unfold IsInt32 at hr32
    rw [abs_lt]; constructor <;> omega
  have htabs : |t| < 2 ^ 53 := by
    unfold IsInt32 at ht32
    rw [abs_lt]; constructor <;> omega
  have hmul : f64mul (float64 (replicasOf a fn)) (float64 t) = ((replicasOf a fn * t : ℤ) : ℚ) := by
    unfold f64mul float64
    rw [roundFloat64_intCast t htabs]
    by_cases ht0 : t = 0
    · subst ht0
      simp [roundFloat64]
    · have hR : |replicasOf a fn| < 2 ^ 53 := by
        have h1 : 1 ≤ |t| := Int.one_le_abs ht0
        have h2 : |replicasOf a fn| * 1 ≤ |replicasOf a fn| * |t| :=
          mul_le_mul_of_nonneg_left h1 (abs_nonneg _)
        rw [abs_mul] at hprod
        omega
      rw [roundFloat64_intCast _ hR]
      have := roundFloat64_intCast (replicasOf a fn * t) hprod
      push_cast at this ⊢
      exact this
  have hq : |((replicasOf a fn * t : ℤ) : ℚ) / (r : ℤ)| < 2 ^ 53 := by
    have hrq : (1 : ℚ) ≤ r := by exact_mod_cast hr
    have hrpos : (0 : ℚ) < r := by linarith
    rw [abs_div, abs_of_pos hrpos]
    calc |((replicasOf a fn * t : ℤ) : ℚ)| / r ≤ |((replicasOf a fn * t : ℤ) : ℚ)| :=
          div_le_self (abs_nonneg _) hrq
      _ < 2 ^ 53 := by exact_mod_cast hprod
  generalize hqdef : ((replicasOf a fn * t : ℤ) : ℚ) / (r : ℤ) = q at hq
  have hc1 : MinInt ≤ ⌈q⌉ := by
    have h := (abs_lt.mp hq).1
    have h2 := Int.le_ceil q
    have h3 : ((-(2 ^ 53) : ℤ) : ℚ) < ((⌈q⌉ : ℤ) : ℚ) := by
      push_cast; linarith
    have := Int.cast_lt.mp h3
    unfold MinInt; omega
  have hc2 : ⌈q⌉ ≤ MaxInt := by
    have h := (abs_lt.mp hq).2
    have h3 : ⌈q⌉ ≤ 2 ^ 53 :=
      Int.ceil_le.mpr (by push_cast; linarith)
    unfold MaxInt; omega
  subst hqdef
  unfold metricsScaler
  simp only [hr0, if_false]
  rw [hmul]
  unfold f64div float64 mathCeil
  rw [roundFloat64_intCast r hrabs, ceil_roundFloat64_div _ r hr hprod,
    floatToInt_intCast _ hc1 hc2]
  rfl
end autoscaler

namespace autoscaler

/-- C1 (amended). For every metrics total with `int32` counters and `receiveCount > 0`, and
every last informed replica count `R` with `|R * transmitCount| < 2^53`, the base scaler
`metricsScaler` proposes exactly `ceil(R * transmitCount / receiveCount)`, the ceiling of
the exact rational, and changes nothing else. -/
theorem metricsScaler_ceil_of_small {D : Delayer} (a : autoScaler D) (fn : FunctionId)
    (mt : metricsTotals) (e : Effects D)
    (hr : 0 < mt.receiveCount) (hr32 : IsInt32 mt.receiveCount)
    (ht32 : IsInt32 mt.transmitCount)
    (hprod : |replicasOf a fn * mt.transmitCount| < 2 ^ 53) :
    metricsScaler a fn mt e =
      (⌈((replicasOf a fn * mt.transmitCount : ℤ) : ℚ) / (mt.receiveCount : ℤ)⌉, e) :=
  metricsScaler_exact a fn mt e hr hr32 ht32 hprod

/-- C1, witness: with 2 replicas, 10 messages transmitted and 4 received the proposal is 5. -/
theorem metricsScaler_ceil_of_small_witness :
    metricsScaler (informed 2) F ⟨10, 4⟩ noEffects = (5, noEffects) := by
  have h := metricsScaler_ceil_of_small (informed 2) F ⟨10, 4⟩ noEffects
    (by decide) (by decide) (by decide) (by decide)
  have hR : replicasOf (informed 2) F = 2 := by decide
  have hc : ⌈(((2 : ℤ) * (10 : ℤ) : ℤ) : ℚ) / ((4 : ℤ) : ℚ)⌉ = 5 := by
    rw [Int.ceil_eq_iff]; norm_num
  rw [h, hR]
  simp only [hc]

/-- C1, counterexample: with `2^53 + 1` replicas informed, one message transmitted and one
received, `float64` rounds the replica count and the proposal is `2^53`, not the exact
ceiling `2^53 + 1`. -/
theorem metricsScaler_not_exact_ceil :
    replicasOf (informed 9007199254740993) F = 9007199254740993 ∧
    (metricsScaler (informed 9007199254740993) F ⟨1, 1⟩ noEffects).1 = 9007199254740992 ∧
    ⌈(((9007199254740993 : ℤ) * (1 : ℤ) : ℤ) : ℚ) / ((1 : ℤ) : ℚ)⌉ = 9007199254740993 := by
  have hR : replicasOf (informed 9007199254740993) F = 9007199254740993 := by decide
  refine ⟨hR, ?_, ?_⟩
  · have h1 : float64 1 = 1 := by
      have := roundFloat64_intCast 1 (by decide)
      simpa [float64] using this
    have h2 : float64 9007199254740993 = 9007199254740992 := by
      have := roundFloat64_two_pow_53_add_one
      simpa [float64] using this
    have h3 : f64mul 9007199254740992 1 = 9007199254740992 := by
      have := roundFloat64_two_pow_53
      simpa [f64mul] using this
    have h4 : f64div 9007199254740992 1 = 9007199254740992 := by
      have := roundFloat64_two_pow_53
      simpa [f64div] using this
    have h5 : floatToInt (mathCeil 9007199254740992) = 9007199254740992 := by
      have := floatToInt_intCast 9007199254740992 (by decide) (by decide)
      simpa [mathCeil] using this
    show (metricsScaler (informed 9007199254740993) F ⟨1, 1⟩ noEffects).1 = 9007199254740992
    unfold metricsScaler
    simp only [hR, h1, h2, h3, h4, h5]
    rfl
  · rw [Int.ceil_eq_iff]; norm_num

/-- C2. For every metrics total with `receiveCount = 0`, whatever the last informed replica
count is, the base scaler `metricsScaler` proposes 0 when `transmitCount = 0` and 1 when
`transmitCount > 0`, and changes nothing else. -/
theorem metricsScaler_nothing_received {D : Delayer} (a : autoScaler D) (fn : FunctionId)
    (mt : metricsTotals) (e : Effects D) (hr : mt.receiveCount = 0) :
    (mt.transmitCount = 0 → metricsScaler a fn mt e = (0, e)) ∧
    (0 < mt.transmitCount → metricsScaler a fn mt e = (1, e)) := by
  constructor
  · intro ht
    simp [metricsScaler, hr, ht]
    rfl
  · intro ht
    have ht0 : mt.transmitCount ≠ 0 := by omega
    simp [metricsScaler, hr, ht0]
    rfl

/-- C2, witness: nothing received and nothing transmitted gives 0, nothing received and 7
transmitted gives 1, here with 5 replicas informed. -/
theorem metricsScaler_nothing_received_witness :
    metricsScaler (informed 5) F ⟨0, 0⟩ noEffects = (0, noEffects) ∧
    metricsScaler (informed 5) F ⟨7, 0⟩ noEffects = (1, noEffects) :=
  ⟨(metricsScaler_nothing_received (informed 5) F ⟨0, 0⟩ noEffects rfl).1 rfl,
   (metricsScaler_nothing_received (informed 5) F ⟨7, 0⟩ noEffects rfl).2 (by decide)⟩

end autoscaler

/-! ## Go maps -/

namespace GoMap

variable {K V : Type} [DecidableEq K]

omit [DecidableEq K] in
theorem ext {m₁ m₂ : GoMap K V} (h : m₁.entries = m₂.entries) : m₁ = m₂ := by
  cases m₁; cases m₂; simp only at h; subst h; rfl

theorem lookupL_eq_none {k : K} {l : List (K × V)} :
    lookupL k l = none ↔ k ∉ l.map Prod.fst := by
  induction l with
  | nil => simp [lookupL]
  | cons e r ih =>
    by_cases h : e.1 = k
    · simp [lookupL, h]
    · have h' : ¬ k = e.1 := fun c => h c.symm
      simp [lookupL, h, h', ih]

theorem mem_of_lookupL {k : K} {v : V} {l : List (K × V)} (h : lookupL k l = some v) :
    (k, v) ∈ l := by
  induction l with
  | nil => simp [lookupL] at h
  | cons e r ih =>
    by_cases hk : e.1 = k
    · simp [lookupL, hk] at h
      have : e = (k, v) := by
        cases e; simp at hk h; simp [hk, h]
      simp [this]
    · simp [lookupL, hk] at h
      exact List.mem_cons_of_mem _ (ih h)

theorem lookupL_of_mem {k : K} {v : V} {l : List (K × V)} (hn : (l.map Prod.fst).Nodup)
    (h : (k, v) ∈ l) : lookupL k l = some v := by
  induction l with
  | nil => simp at h
  | cons e r ih =>
    rw [List.map_cons, List.nodup_cons] at hn
    rcases List.mem_cons.mp h with h1 | h1
    · subst h1; simp [lookupL]
    · have hk : e.1 ≠ k := by
        intro c
        apply hn.1
        rw [c]
        exact List.mem_map_of_mem Prod.fst h1
      simp [lookupL, hk, ih hn.2 h1]

theorem contains_iff {m : GoMap K V} {k : K} : m.contains k = true ↔ k ∈ m.keys := by
  unfold contains get? keys
  cases h : lookupL k m.entries with
  | none => simpa using lookupL_eq_none.mp h
  | some v =>
    simp only [Option.isSome_some, true_iff]
    exact List.mem_map_of_mem Prod.fst (mem_of_lookupL h)

theorem contains_eq_false {m : GoMap K V} {k : K} : m.contains k = false ↔ k ∉ m.keys := by
  rw [← contains_iff]; simp

theorem storeL_mid (k : K) (v v₀ : V) (pre post : List (K × V)) (h : k ∉ pre.map Prod.fst) :
    storeL k v (pre ++ (k, v₀) :: post) = pre ++ (k, v) :: post := by
  induction pre with
  | nil => simp [storeL]
  | cons e r ih =>
    simp only [List.map_cons, List.mem_cons, not_or] at h
    have hk : e.1 ≠ k := fun c => h.1 c.symm
    simp [storeL, hk, ih h.2]

theorem storeL_new (k : K) (v : V) (l : List (K × V)) (h : k ∉ l.map Prod.fst) :
    storeL k v l = l ++ [(k, v)] := by
  induction l with
  | nil => simp [storeL]
  | cons e r ih =>
    simp only [List.map_cons, List.mem_cons, not_or] at h
    have hk : e.1 ≠ k := fun c => h.1 c.symm
    simp [storeL, hk, ih h.2]

theorem lookupL_storeL_same (k : K) (v : V) (l : List (K × V)) :
    lookupL k (storeL k v l) = some v := by
  induction l with
  | nil => simp [storeL, lookupL]
  | cons e r ih =>
    by_cases hk : e.1 = k
    · simp [storeL, lookupL, hk]
    · simp [storeL, lookupL, hk, ih]

theorem lookupL_storeL_ne {k k' : K} (v : V) (l : List (K × V)) (h : k' ≠ k) :
    lookupL k' (storeL k v l) = lookupL k' l := by
  induction l with
  | nil =>
    have : ¬ k = k' := fun c => h c.symm
    simp [storeL, lookupL, this]
  | cons e r ih =>
    by_cases hk : e.1 = k
    · have : ¬ k = k' := fun c => h c.symm
      have h2 : ¬ e.1 = k' := by rw [hk]; exact this
      simp [storeL, lookupL, hk, this, h2]
    · have hs : storeL k v (e :: r) = e :: storeL k v r := by simp [storeL, hk]
      rw [hs]
      by_cases hk' : e.1 = k'
      · simp [lookupL, hk']
      · simp [lookupL, hk', ih]

theorem get?_store_same (m : GoMap K V) (k : K) (v : V) : (m.store k v).get? k = some v :=
  lookupL_storeL_same k v m.entries

theorem get?_store_ne (m : GoMap K V) {k k' : K} (v : V) (h : k' ≠ k) :
    (m.store k v).get? k' = m.get? k' :=
  lookupL_storeL_ne v m.entries h

omit [DecidableEq K] in
theorem keys_mapValues (f : V → V) (m : GoMap K V) : (m.mapValues f).keys = m.keys := by
  simp [mapValues, keys, List.map_map, Function.comp_def]

theorem keys_store_of_get? {m : GoMap K V} {k : K} {v₀ : V} (v : V) (h : m.get? k = some v₀) :
    (m.store k v).keys = m.keys := by
  have hk : k ∈ m.entries.map Prod.fst := List.mem_map_of_mem Prod.fst (mem_of_lookupL h)
  show (storeL k v m.entries).map Prod.fst = m.entries.map Prod.fst
  rw [keys_storeL, if_pos hk]

theorem mem_entries_of_get? {m : GoMap K V} {k : K} {v : V} (h : m.get? k = some v) :
    (k, v) ∈ m.entries :=
  mem_of_lookupL h

theorem get?_of_mem_entries {m : GoMap K V} {k : K} {v : V} (h : (k, v) ∈ m.entries) :
    m.get? k = some v :=
  lookupL_of_mem m.nodup h

end GoMap

/-! ## The scalers -/

namespace autoscaler

variable {D : Delayer}

theorem limitScalingUp_value (a : autoScaler D) (fn : FunctionId) (p : Int) (e : Effects D) :
    (limitScalingUp a fn p e).1 = if a.maxReplicas fn < p then a.maxReplicas fn else p := by
  simp only [limitScalingUp]
  split_ifs <;> rfl

theorem limitScalingUp_delayer (a : autoScaler D) (fn : FunctionId) (p : Int) (e : Effects D) :
    (limitScalingUp a fn p e).2.delayer = e.delayer := by
  simp only [limitScalingUp]
  split_ifs <;> rfl

theorem emptyQueueLoop_false (w : World) (fn : FunctionId) (topic : String)
    (ft : GoMap FunctionId metricsTotals) (hc : ft.contains fn = true)
    (hq : notEmptyAnswer w topic fn) :
    ∀ (l : List (String × GoMap FunctionId metricsTotals)) (e : Effects D),
      (topic, ft) ∈ l → (emptyQueueLoop w fn l e).1.1 = false := by
  intro l
  induction l with
  | nil => intro e h; simp at h
  | cons t r ih =>
    intro e h
    obtain ⟨t1, t2⟩ := t
    unfold emptyQueueLoop
    by_cases hc2 : t2.contains fn = true
    · simp only [hc2, if_true]
      cases hql : w.QueueLength t1 fn.Function with
      | error err =>
        simp [bind, StateT.bind, pure, StateT.pure, logPrintf, modify, modifyGet,
          MonadStateOf.modifyGet, StateT.modifyGet]
      | ok q =>
        by_cases hpos : q > 0
        · simp [hpos, pure, StateT.pure]
        · simp only [hpos, if_false]
          rcases List.mem_cons.mp h with h1 | h1
          · have : topic = t1 := by simpa using congrArg Prod.fst h1
            subst this
            exact absurd (hq q hql) hpos
          · exact ih e h1
    · simp only [hc2]
      rcases List.mem_cons.mp h with h1 | h1
      · have : ft = t2 := by simpa using congrArg Prod.snd h1
        subst this
        exact absurd hc hc2
      · exact ih e h1

theorem exists_entry_of_monitored {a : autoScaler D} {topic : String} {fn : FunctionId}
    (h : monitored a topic fn = true) :
    ∃ ft, (topic, ft) ∈ a.totals.entries ∧ ft.contains fn = true := by
  unfold monitored at h
  cases hg : a.totals.get? topic with
  | none => simp [hg] at h
  | some ft =>
    simp only [hg] at h
    exact ⟨ft, GoMap.mem_entries_of_get? hg, h⟩

theorem limitScalingDown_floor (a : autoScaler D) (w : World) (fn : FunctionId)
    (topic : String) (e : Effects D) (hmon : monitored a topic fn = true)
    (hrep : replicasOf a fn ≠ 0) (hq : notEmptyAnswer w topic fn) :
    (limitScalingDown a w fn 0 e).1 = 1 := by
  obtain ⟨ft, hmem, hc⟩ := exists_entry_of_monitored hmon
  have hf := emptyQueueLoop_false w fn topic ft hc hq a.totals.entries e hmem
  unfold limitScalingDown
  simp only [hrep, ne_eq, not_false_eq_true, and_self, if_true]
  unfold emptyQueue
  simp only [bind, StateT.bind]
  generalize emptyQueueLoop w fn a.totals.entries e = res at hf
  obtain ⟨⟨b, n⟩, s⟩ := res
  simp only at hf
  subst hf
  rfl

theorem limitScalingDown_same (a : autoScaler D) (w : World) (fn : FunctionId) (p : Int)
    (e : Effects D) (h : p ≠ 0 ∨ replicasOf a fn = 0) :
    limitScalingDown a w fn p e = (p, e) := by
  unfold limitScalingDown
  have : ¬ (p = 0 ∧ replicasOf a fn ≠ 0) := by
    rintro ⟨h1, h2⟩
    rcases h with h | h
    · exact h h1
    · exact h2 h
  simp only [this, if_false]
  rfl

theorem decorate_eq_foldl (s : scaler D) (adjusters : List (adjuster D)) (mt : metricsTotals) :
    decorate s adjusters mt = adjusters.foldl (fun acc ad => acc >>= ad) (s mt) := by
  unfold decorate
  induction adjusters generalizing s with
  | nil => rfl
  | cons ad r ih =>
    simp only [List.foldl_cons]
    rw [ih]
    rfl

theorem pipeline_eq (a : autoScaler D) (w : World) (fn : FunctionId) (mt : metricsTotals) :
    pipeline a w fn mt =
      (metricsScaler a fn mt >>= limitScalingUp a fn >>= limitScalingDown a w fn
        >>= delay a w fn) := by
  unfold pipeline
  rw [decorate_eq_foldl]
  rfl

end autoscaler

/-! ## Loops that may panic -/

theorem Except.bind_ok_iff {ε α β : Type} (x : Except ε α) (f : α → Except ε β) (b : β) :
    (x >>= f) = Except.ok b ↔ ∃ a, x = Except.ok a ∧ f a = Except.ok b := by
  cases x with
  | error e =>
    constructor
    · intro h; cases h
    · rintro ⟨a, h, _⟩; cases h
  | ok a =>
    constructor
    · intro h; exact ⟨a, rfl, h⟩
    · rintro ⟨a', h, h'⟩
      cases h
      exact h'

theorem foldlM_invariant {σ α ε : Type} (f : σ → α → Except ε σ)
    (Inv : List α → List α → σ → Prop)
    (hstep : ∀ done x rest s s', Inv done (x :: rest) s → f s x = Except.ok s' →
      Inv (done ++ [x]) rest s') :
    ∀ (l done : List α) (s s' : σ), Inv done l s → l.foldlM f s = Except.ok s' →
      Inv (done ++ l) [] s' := by
  intro l
  induction l with
  | nil =>
    intro done s s' h hf
    rw [List.foldlM_nil] at hf
    cases hf
    simpa using h
  | cons x r ih =>
    intro done s s' h hf
    rw [List.foldlM_cons, Except.bind_ok_iff] at hf
    obtain ⟨s1, h1, h2⟩ := hf
    have := ih (done ++ [x]) s1 s' (hstep done x r s s1 h h1) h2
    simpa using this

theorem foldlM_succeeds {σ α ε : Type} (f : σ → α → Except ε σ)
    (Inv : List α → List α → σ → Prop)
    (hstep : ∀ done x rest s, Inv done (x :: rest) s →
      ∃ s', f s x = Except.ok s' ∧ Inv (done ++ [x]) rest s') :
    ∀ (l done : List α) (s : σ), Inv done l s →
      ∃ s', l.foldlM f s = Except.ok s' ∧ Inv (done ++ l) [] s' := by
  intro l
  induction l with
  | nil =>
    intro done s h
    exact ⟨s, by rw [List.foldlM_nil]; rfl, by simpa using h⟩
  | cons x r ih =>
    intro done s h
    obtain ⟨s1, h1, h2⟩ := hstep done x r s h
    obtain ⟨s', h3, h4⟩ := ih (done ++ [x]) s1 h2
    refine ⟨s', ?_, by simpa using h4⟩
    rw [List.foldlM_cons, Except.bind_ok_iff]
    exact ⟨s1, h1, h3⟩

namespace autoscaler

variable {D : Delayer}

/-! ## What a scaler reads of the engine -/

theorem contains_congr {m₁ m₂ : GoMap FunctionId metricsTotals} (h : m₁.keys = m₂.keys)
    (fn : FunctionId) : m₁.contains fn = m₂.contains fn := by
  rw [Bool.eq_iff_iff, GoMap.contains_iff, GoMap.contains_iff, h]

theorem emptyQueueLoop_congr (w : World) (fn : FunctionId) :
    ∀ (l₁ l₂ : List (String × GoMap FunctionId metricsTotals)),
      l₁.map shape = l₂.map shape →
      (emptyQueueLoop w fn l₁ : StateM (Effects D) (Bool × Int)) = emptyQueueLoop w fn l₂ := by
  intro l₁
  induction l₁ with
  | nil =>
    intro l₂ h
    cases l₂ with
    | nil => rfl
    | cons _ _ => simp at h
  | cons t r ih =>
    intro l₂ h
    cases l₂ with
    | nil => simp at h
    | cons t' r' =>
      simp only [List.map_cons, List.cons.injEq] at h
      obtain ⟨t1, t2⟩ := t
      obtain ⟨t1', t2'⟩ := t'
      simp only [shape, Prod.mk.injEq] at h
      obtain ⟨⟨h1, h2⟩, h3⟩ := h
      subst h1
      unfold emptyQueueLoop
      rw [contains_congr h2 fn, ih r' h3]

theorem pipeline_congr {a₁ a₂ : autoScaler D} (w : World) (fn : FunctionId)
    (hrep : a₁.replicas = a₂.replicas) (hmax : a₁.maxReplicas = a₂.maxReplicas)
    (hdel : a₁.delayScaleDown = a₂.delayScaleDown)
    (hshape : a₁.totals.entries.map shape = a₂.totals.entries.map shape) :
    pipeline a₁ w fn = pipeline a₂ w fn := by
  have h1 : metricsScaler a₁ fn = metricsScaler a₂ fn := by
    unfold metricsScaler replicasOf; rw [hrep]
  have h2 : limitScalingUp a₁ fn = limitScalingUp a₂ fn := by
    unfold limitScalingUp replicasOf; rw [hrep, hmax]
  have h3 : limitScalingDown a₁ w fn = limitScalingDown a₂ w fn := by
    unfold limitScalingDown emptyQueue replicasOf
    rw [hrep, emptyQueueLoop_congr w fn _ _ hshape]
  have h4 : delay a₁ w fn = delay a₂ w fn := by
    unfold delay; rw [hdel]
  unfold pipeline
  rw [h1, h2, h3, h4]

theorem LogBlind.pure {α : Type} (v : α) : LogBlind (pure v : StateM (Effects D) α) :=
  fun _ _ => ⟨rfl, rfl⟩

theorem LogBlind.bind {α β : Type} {x : StateM (Effects D) α} {f : α → StateM (Effects D) β}
    (hx : LogBlind x) (hf : ∀ v, LogBlind (f v)) : LogBlind (x >>= f) := by
  intro d log
  have h1 := hx d log
  show ((f (x ⟨d, log⟩).1) (x ⟨d, log⟩).2).1 = ((f (x ⟨d, []⟩).1) (x ⟨d, []⟩).2).1 ∧
    ((f (x ⟨d, log⟩).1) (x ⟨d, log⟩).2).2.delayer = ((f (x ⟨d, []⟩).1) (x ⟨d, []⟩).2).2.delayer
  rw [h1.1]
  have e1 : (x ⟨d, log⟩).2 = ⟨(x ⟨d, []⟩).2.delayer, (x ⟨d, log⟩).2.log⟩ := by
    rw [← h1.2]
  have e2 : (x ⟨d, []⟩).2 = ⟨(x ⟨d, []⟩).2.delayer, (x ⟨d, []⟩).2.log⟩ := rfl
  rw [e1, e2]
  have h2 := hf (x ⟨d, []⟩).1 (x ⟨d, []⟩).2.delayer
  exact ⟨(h2 _).1.trans (h2 _).1.symm, (h2 _).2.trans (h2 _).2.symm⟩

theorem LogBlind.logPrintf (l : LogLine) : LogBlind (logPrintf l : StateM (Effects D) Unit) :=
  fun _ _ => ⟨rfl, rfl⟩

theorem LogBlind.emptyQueueLoop (w : World) (fn : FunctionId) :
    ∀ l, LogBlind (emptyQueueLoop w fn l : StateM (Effects D) (Bool × Int)) := by
  intro l
  induction l with
  | nil => exact LogBlind.pure _
  | cons t r ih =>
    obtain ⟨t1, t2⟩ := t
    unfold autoscaler.emptyQueueLoop
    split
    · split
      · exact LogBlind.bind (LogBlind.logPrintf _) (fun _ => LogBlind.pure _)
      · split
        · exact LogBlind.pure _
        · exact ih
    · exact ih

theorem LogBlind.pipeline (a : autoScaler D) (w : World) (fn : FunctionId) (mt : metricsTotals) :
    LogBlind (pipeline a w fn mt) := by
  rw [pipeline_eq]
  refine LogBlind.bind (LogBlind.bind (LogBlind.bind ?_ ?_) ?_) ?_
  · unfold metricsScaler
    split
    · split <;> exact LogBlind.pure _
    · exact LogBlind.pure _
  · intro v
    simp only [limitScalingUp]
    split
    · split
      · exact LogBlind.bind (LogBlind.logPrintf _) (fun _ => LogBlind.pure _)
      · exact LogBlind.bind (LogBlind.pure _) (fun _ => LogBlind.pure _)
    · exact LogBlind.pure _
  · intro v
    unfold limitScalingDown
    split
    · refine LogBlind.bind (LogBlind.emptyQueueLoop w fn _) ?_
      intro r
      split
      · exact LogBlind.pure _
      · exact LogBlind.bind (LogBlind.logPrintf _) (fun _ => LogBlind.pure _)
    · exact LogBlind.pure _
  · intro v d log
    exact ⟨rfl, rfl⟩

end autoscaler

namespace autoscaler

variable {D : Delayer}

/-! ## The loops of `Propose` -/

theorem ProposeInv.proposal_keys {a : autoScaler D} {w : World}
    {seen : List (FunctionId × metricsTotals)} {s : ProposeState D} (h : ProposeInv a w seen s) :
    s.proposals.keys = seen.map Prod.fst := by
  have := congrArg (List.map Prod.fst) h.proposals
  simpa [GoMap.keys, List.map_map, Function.comp_def] using this

theorem proposeEntry_ok {w : World} {topic : String} {s s' : ProposeState D}
    {ft ft' : GoMap FunctionId metricsTotals} {e : FunctionId × metricsTotals}
    (h : proposeEntry w topic (s, ft) e = Except.ok (s', ft')) :
    s.proposals.contains e.1 = false ∧ ∃ d, s.a.scalers.get? e.1 = some d ∧
      ft' = ft.store e.1 metricsTotals.zero ∧
      s'.proposals = s.proposals.store e.1 (pipeline s.a w e.1 e.2 ⟨d, s.log⟩).1 ∧
      s'.a.totals = s.a.totals.store topic ft' ∧
      s'.a.scalers = s.a.scalers.store e.1 (pipeline s.a w e.1 e.2 ⟨d, s.log⟩).2.delayer ∧
      SameSettings s.a s'.a := by
  unfold proposeEntry at h
  by_cases hc : s.proposals.contains e.1 = true
  · simp [hc] at h
  · simp only [hc] at h
    cases hd : s.a.scalers.get? e.1 with
    | none =>
      simp [hd] at h
    | some d =>
      simp only [hd] at h
      have h' := Except.ok.inj h
      have h1 := congrArg Prod.fst h'
      have h2 := congrArg Prod.snd h'
      simp only at h1 h2
      subst h1
      subst h2
      refine ⟨by simpa using hc, d, rfl, rfl, rfl, rfl, rfl, ⟨rfl, rfl, rfl, rfl⟩⟩

theorem proposeEntry_succeeds (w : World) (topic : String) (s : ProposeState D)
    (ft : GoMap FunctionId metricsTotals) (e : FunctionId × metricsTotals)
    (hc : s.proposals.contains e.1 = false) (hs : s.a.scalers.contains e.1 = true) :
    ∃ r, proposeEntry w topic (s, ft) e = Except.ok r := by
  unfold proposeEntry
  cases hd : s.a.scalers.get? e.1 with
  | none => simp [GoMap.contains, hd] at hs
  | some d =>
    simp only [hc]
    exact ⟨_, rfl⟩

theorem not_mem_keys_of_nodup {K V : Type} {pre post : List (K × V)} {k : K} {v : V}
    (h : ((pre ++ (k, v) :: post).map Prod.fst).Nodup) : k ∉ pre.map Prod.fst := by
  rw [List.map_append, List.map_cons] at h
  intro hk
  exact (List.nodup_append.mp h).2.2 hk (List.mem_cons_self _ _)

theorem inner_step (a : autoScaler D) (w : World) (topic : String)
    (pre post : List (String × GoMap FunctionId metricsTotals))
    (seen₀ : List (FunctionId × metricsTotals)) (ft₀ : GoMap FunctionId metricsTotals)
    (done : List (FunctionId × metricsTotals)) (e : FunctionId × metricsTotals)
    (rest : List (FunctionId × metricsTotals))
    (s s' : ProposeState D × GoMap FunctionId metricsTotals)
    (hinv : InnerInv a w topic pre post seen₀ ft₀ done (e :: rest) s)
    (hstep : proposeEntry w topic s e = Except.ok s') :
    InnerInv a w topic pre post seen₀ ft₀ (done ++ [e]) rest s' := by
  obtain ⟨s, ft⟩ := s
  obtain ⟨s', ft'⟩ := s'
  obtain ⟨h0, hft, htot, hP⟩ := hinv
  simp only at hft htot hP
  obtain ⟨hc, d, hd, hft', hprop, htot', hscal, hset⟩ := proposeEntry_ok hstep
  have hkeyft : e.1 ∉ (done.map zeroEntry).map Prod.fst := by
    have hn := ft.nodup
    rw [hft] at hn
    exact not_mem_keys_of_nodup (v := e.2) (by simpa using hn)
  have hft'e : ft'.entries = (done ++ [e]).map zeroEntry ++ rest := by
    rw [hft']
    show GoMap.storeL e.1 metricsTotals.zero ft.entries = _
    rw [hft]
    have := GoMap.storeL_mid e.1 metricsTotals.zero e.2 (done.map zeroEntry) rest hkeyft
    simp only [Prod.mk.eta] at this
    rw [this]
    simp [zeroEntry]
  have hkeytop : topic ∉ pre.map Prod.fst := by
    have hn := s.a.totals.nodup
    rw [htot] at hn
    exact not_mem_keys_of_nodup hn
  have htot'e : s'.a.totals.entries = pre ++ (topic, ft') :: post := by
    rw [htot']
    show GoMap.storeL topic ft' s.a.totals.entries = _
    rw [htot]
    exact GoMap.storeL_mid topic ft' ft pre post hkeytop
  have hnotseen : e.1 ∉ (seen₀ ++ done).map Prod.fst := by
    rw [← hP.proposal_keys]
    exact GoMap.contains_eq_false.mp hc
  have hdA : a.scalers.get? e.1 = some d := by
    rw [← hP.scalers e.1 hnotseen]; exact hd
  have hpipe : pipeline s.a w e.1 = pipeline a w e.1 :=
    pipeline_congr w e.1 hP.settings.2.1 hP.settings.2.2.1 hP.settings.2.2.2 hP.shape
  refine ⟨by simpa using h0, hft'e, htot'e, ?_⟩
  simp only
  constructor
  · obtain ⟨a1, a2, a3, a4⟩ := hP.settings
    obtain ⟨b1, b2, b3, b4⟩ := hset
    exact ⟨b1.trans a1, b2.trans a2, b3.trans a3, b4.trans a4⟩
  · rw [htot'e, ← hP.shape, htot]
    have hk : ft'.keys = ft.keys := by
      unfold GoMap.keys
      rw [hft'e, hft]
      simp [zeroEntry]
    simp [shape, hk]
  · rw [hprop]
    show (GoMap.storeL e.1 _ s.proposals.entries).map _ = _
    rw [GoMap.storeL_new _ _ _ (GoMap.contains_eq_false.mp hc)]
    rw [List.map_append, hP.proposals, hpipe]
    simp only [List.map_cons, List.map_nil, ← List.append_assoc, List.map_append]
    congr 2
    unfold proposalFor
    rw [hdA]
    simp only [Option.map_some', Prod.mk.injEq, Option.some.injEq, true_and]
    exact (LogBlind.pipeline a w e.1 e.2 d s.log).1
  · intro fn hfn
    rw [hscal]
    have hne : fn ≠ e.1 := by
      intro c
      apply hfn
      simp [c]
    rw [GoMap.get?_store_ne _ _ hne]
    apply hP.scalers
    intro c
    apply hfn
    simp only [List.map_append, List.mem_append] at c ⊢
    rcases c with c | c
    · exact Or.inl c
    · exact Or.inr (Or.inl c)
  · rw [hscal, GoMap.keys_store_of_get? _ hd]
    exact hP.scalerKeys
  · intro fn hfn
    simp only [List.map_append, List.mem_append, List.map_cons, List.map_nil,
      List.mem_singleton] at hfn
    rcases hfn with h1 | h1 | h1
    · exact hP.registered fn (by simp [h1])
    · exact hP.registered fn (by simp [h1])
    · subst h1
      simp [GoMap.contains, hdA]

theorem flatTotals_append (l₁ l₂ : List (String × GoMap FunctionId metricsTotals)) :
    flatTotals (l₁ ++ l₂) = flatTotals l₁ ++ flatTotals l₂ := by
  simp [flatTotals, List.flatMap_append]

theorem flatTotals_singleton (t : String × GoMap FunctionId metricsTotals) :
    flatTotals [t] = t.2.entries := by
  simp [flatTotals, List.flatMap_cons]

theorem outer_step (a : autoScaler D) (w : World)
    (done : List (String × GoMap FunctionId metricsTotals))
    (t : String × GoMap FunctionId metricsTotals)
    (rest : List (String × GoMap FunctionId metricsTotals)) (s s' : ProposeState D)
    (hinv : OuterInv a w done (t :: rest) s) (hstep : proposeTopic w s t = Except.ok s') :
    OuterInv a w (done ++ [t]) rest s' := by
  obtain ⟨h0, htot, hP⟩ := hinv
  unfold proposeTopic at hstep
  rw [Except.bind_ok_iff] at hstep
  obtain ⟨r, hr, hr2⟩ := hstep
  have hr3 : r.1 = s' := by
    have := Except.ok.inj hr2
    exact this
  have hstart : InnerInv a w t.1 (done.map zeroTopic) rest (flatTotals done) t.2 []
      t.2.entries (s, t.2) := by
    refine ⟨rfl, rfl, ?_, ?_⟩
    · simpa using htot
    · simpa using hP
  have hend := foldlM_invariant (proposeEntry w t.1)
    (InnerInv a w t.1 (done.map zeroTopic) rest (flatTotals done) t.2)
    (inner_step a w t.1 (done.map zeroTopic) rest (flatTotals done) t.2)
    t.2.entries [] (s, t.2) r hstart hr
  obtain ⟨_, hft, htot', hP'⟩ := hend
  simp only [List.nil_append, List.append_nil] at hft htot' hP'
  have hz : r.2 = t.2.mapValues (fun _ => metricsTotals.zero) := by
    apply GoMap.ext
    rw [hft]
    rfl
  subst hr3
  refine ⟨by simpa using h0, ?_, ?_⟩
  · rw [htot', hz]
    simp [zeroTopic]
  · rw [flatTotals_append, flatTotals_singleton]
    exact hP'

theorem Propose_spec {a : autoScaler D} {w : World} {r : ProposeState D}
    (h : Propose a w = Except.ok r) :
    a.mutex = true ∧ r.a.totals = zeroedTotals a.totals ∧
      ProposeInv a w (flatTotals a.totals.entries) r := by
  unfold Propose at h
  rw [Except.bind_ok_iff] at h
  obtain ⟨u, hu, hf⟩ := h
  have hm : a.mutex = true := by
    unfold lock at hu
    by_cases hm : a.mutex = true
    · exact hm
    · simp [hm] at hu
  have hstart : OuterInv a w [] a.totals.entries ⟨GoMap.empty, a, []⟩ := by
    refine ⟨rfl, rfl, ⟨⟨rfl, rfl, rfl, rfl⟩, rfl, rfl, fun _ _ => rfl, rfl, ?_⟩⟩
    intro fn hfn
    simp [flatTotals] at hfn
  have hend := foldlM_invariant (proposeTopic w) (OuterInv a w) (outer_step a w)
    a.totals.entries [] _ r hstart hf
  obtain ⟨_, htot, hP⟩ := hend
  simp only [List.nil_append, List.append_nil] at htot hP
  refine ⟨hm, ?_, hP⟩
  apply GoMap.ext
  rw [htot]
  rfl

end autoscaler

namespace autoscaler

variable {D : Delayer}

theorem inner_step_succeeds (a : autoScaler D) (w : World) (topic : String)
    (pre post : List (String × GoMap FunctionId metricsTotals))
    (seen₀ tail : List (FunctionId × metricsTotals)) (ft₀ : GoMap FunctionId metricsTotals)
    (hflat : flatTotals a.totals.entries = seen₀ ++ ft₀.entries ++ tail)
    (hsingle : singleTopic a) (hreg : scalersRegistered a)
    (done : List (FunctionId × metricsTotals)) (e : FunctionId × metricsTotals)
    (rest : List (FunctionId × metricsTotals))
    (s : ProposeState D × GoMap FunctionId metricsTotals)
    (hinv : InnerInv a w topic pre post seen₀ ft₀ done (e :: rest) s) :
    ∃ s', proposeEntry w topic s e = Except.ok s' ∧
      InnerInv a w topic pre post seen₀ ft₀ (done ++ [e]) rest s' := by
  obtain ⟨h0, _, _, hP⟩ := hinv
  have hkeys : (flatTotals a.totals.entries).map Prod.fst =
      (seen₀ ++ done).map Prod.fst ++ e.1 :: (rest ++ tail).map Prod.fst := by
    rw [hflat, h0]
    simp
  have hnotseen : e.1 ∉ (seen₀ ++ done).map Prod.fst := by
    have hn : ((flatTotals a.totals.entries).map Prod.fst).Nodup := hsingle
    rw [hkeys] at hn
    intro hk
    exact (List.nodup_append.mp hn).2.2 hk (List.mem_cons_self _ _)
  have hc : s.1.proposals.contains e.1 = false := by
    rw [GoMap.contains_eq_false, hP.proposal_keys]
    exact hnotseen
  have hs : s.1.a.scalers.contains e.1 = true := by
    have h1 := hreg e.1 (by rw [hkeys]; simp)
    unfold GoMap.contains at h1 ⊢
    rw [hP.scalers e.1 hnotseen]
    exact h1
  obtain ⟨r, hr⟩ := proposeEntry_succeeds w topic s.1 s.2 e hc hs
  exact ⟨r, hr, inner_step a w topic pre post seen₀ ft₀ done e rest s r
    ⟨h0, by assumption, by assumption, hP⟩ hr⟩

theorem outer_step_succeeds (a : autoScaler D) (w : World)
    (hsingle : singleTopic a) (hreg : scalersRegistered a)
    (done : List (String × GoMap FunctionId metricsTotals))
    (t : String × GoMap FunctionId metricsTotals)
    (rest : List (String × GoMap FunctionId metricsTotals)) (s : ProposeState D)
    (hinv : OuterInv a w done (t :: rest) s) :
    ∃ s', proposeTopic w s t = Except.ok s' ∧ OuterInv a w (done ++ [t]) rest s' := by
  obtain ⟨h0, htot, hP⟩ := hinv
  have hflat : flatTotals a.totals.entries = flatTotals done ++ t.2.entries ++ flatTotals rest := by
    rw [h0]
    simp [flatTotals, List.flatMap_append, List.flatMap_cons]
  have hstart : InnerInv a w t.1 (done.map zeroTopic) rest (flatTotals done) t.2 []
      t.2.entries (s, t.2) := by
    refine ⟨rfl, rfl, ?_, ?_⟩
    · simpa using htot
    · simpa using hP
  obtain ⟨r, hr, _⟩ := foldlM_succeeds (proposeEntry w t.1)
    (InnerInv a w t.1 (done.map zeroTopic) rest (flatTotals done) t.2)
    (inner_step_succeeds a w t.1 (done.map zeroTopic) rest (flatTotals done) (flatTotals rest)
      t.2 hflat hsingle hreg)
    t.2.entries [] (s, t.2) hstart
  have hstep : proposeTopic w s t = Except.ok r.1 := by
    unfold proposeTopic
    rw [Except.bind_ok_iff]
    exact ⟨r, hr, rfl⟩
  exact ⟨r.1, hstep, outer_step a w done t rest s r.1 ⟨h0, htot, hP⟩ hstep⟩

theorem Propose_succeeds (a : autoScaler D) (w : World) (hopen : a.mutex = true)
    (hsingle : singleTopic a) (hreg : scalersRegistered a) :
    ∃ r, Propose a w = Except.ok r := by
  have hstart : OuterInv a w [] a.totals.entries ⟨GoMap.empty, a, []⟩ := by
    refine ⟨rfl, rfl, ⟨⟨rfl, rfl, rfl, rfl⟩, rfl, rfl, fun _ _ => rfl, rfl, ?_⟩⟩
    intro fn hfn
    simp [flatTotals] at hfn
  obtain ⟨r, hr, _⟩ := foldlM_succeeds (proposeTopic w) (OuterInv a w)
    (outer_step_succeeds a w hsingle hreg) a.totals.entries [] _ hstart
  refine ⟨r, ?_⟩
  unfold Propose
  rw [Except.bind_ok_iff]
  refine ⟨(), ?_, hr⟩
  unfold lock
  simp [hopen]
  rfl

end autoscaler

namespace GoMap

variable {K V : Type} [DecidableEq K]

theorem lookupL_map (f : V → V) (k : K) (l : List (K × V)) :
    lookupL k (l.map (fun e => (e.1, f e.2))) = (lookupL k l).map f := by
  induction l with
  | nil => rfl
  | cons e r ih =>
    by_cases h : e.1 = k
    · simp [lookupL, h]
    · simp [lookupL, h, ih]

theorem get?_mapValues (f : V → V) (m : GoMap K V) (k : K) :
    (m.mapValues f).get? k = (m.get? k).map f :=
  lookupL_map f k m.entries

theorem contains_mapValues (f : V → V) (m : GoMap K V) (k : K) :
    (m.mapValues f).contains k = m.contains k := by
  unfold contains
  rw [get?_mapValues]
  cases m.get? k <;> rfl

end GoMap

namespace autoscaler

variable {D : Delayer}

theorem monitored_of_zeroed (a b : autoScaler D) (h : b.totals = zeroedTotals a.totals)
    (topic : String) (fn : FunctionId) : monitored b topic fn = monitored a topic fn := by
  unfold monitored
  rw [h, zeroedTotals, GoMap.get?_mapValues]
  cases a.totals.get? topic with
  | none => rfl
  | some ft => simp [GoMap.contains_mapValues]

theorem zero_of_zeroed (a b : autoScaler D) (h : b.totals = zeroedTotals a.totals)
    (topic : String) (funcTotals : GoMap FunctionId metricsTotals) (fn : FunctionId)
    (mt : metricsTotals) (h1 : b.totals.get? topic = some funcTotals)
    (h2 : funcTotals.get? fn = some mt) : mt = metricsTotals.zero := by
  rw [h, zeroedTotals, GoMap.get?_mapValues] at h1
  cases h3 : a.totals.get? topic with
  | none => simp [h3] at h1
  | some ft =>
    simp only [h3, Option.map_some', Option.some.injEq] at h1
    subst h1
    rw [GoMap.get?_mapValues] at h2
    cases h4 : ft.get? fn with
    | none => simp [h4] at h2
    | some mt' =>
      simp only [h4, Option.map_some', Option.some.injEq] at h2
      exact h2.symm

theorem mem_flatTotals {l : List (String × GoMap FunctionId metricsTotals)}
    {e : FunctionId × metricsTotals} :
    e ∈ flatTotals l ↔ ∃ t, t ∈ l ∧ e ∈ t.2.entries := by
  simp [flatTotals, List.mem_flatMap]

theorem mem_flatTotals_keys_iff (a : autoScaler D) (fn : FunctionId) :
    fn ∈ (flatTotals a.totals.entries).map Prod.fst ↔ ∃ topic, monitored a topic fn = true := by
  constructor
  · intro h
    obtain ⟨e, he, hfn⟩ := List.mem_map.mp h
    obtain ⟨t, ht, het⟩ := mem_flatTotals.mp he
    refine ⟨t.1, ?_⟩
    unfold monitored
    rw [GoMap.get?_of_mem_entries (k := t.1) (v := t.2) ht]
    simp only
    rw [GoMap.contains_iff]
    subst hfn
    exact List.mem_map_of_mem Prod.fst het
  · rintro ⟨topic, h⟩
    obtain ⟨ft, hmem, hc⟩ := exists_entry_of_monitored h
    rw [GoMap.contains_iff] at hc
    obtain ⟨e, he, hfn⟩ := List.mem_map.mp hc
    exact List.mem_map.mpr ⟨e, mem_flatTotals.mpr ⟨(topic, ft), hmem, he⟩, hfn⟩

/-- C3. After `Propose` returns, every entry of the monitoring set has `transmitCount = 0`
and `receiveCount = 0` while the set of monitored pairs is unchanged (the monitoring set is
the one before with every total set to zero, in the same order); hence the base scaler of
every function, evaluated on the totals a second `Propose` finds, proposes 0. -/
theorem Propose_resets_totals {D : Delayer} (a : autoScaler D) (w : World) (r : ProposeState D)
    (h : Propose a w = Except.ok r) :
    r.a.totals = zeroedTotals a.totals ∧
    (∀ topic fn, monitored r.a topic fn = monitored a topic fn) ∧
    (∀ topic funcTotals fn mt, r.a.totals.get? topic = some funcTotals →
      funcTotals.get? fn = some mt → mt.transmitCount = 0 ∧ mt.receiveCount = 0) ∧
    (∀ topic funcTotals fn mt (e : Effects D), r.a.totals.get? topic = some funcTotals →
      funcTotals.get? fn = some mt → metricsScaler r.a fn mt e = (0, e)) := by
  have hz := (Propose_spec h).2.1
  refine ⟨hz, monitored_of_zeroed a r.a hz, ?_, ?_⟩
  · intro topic funcTotals fn mt h1 h2
    have := zero_of_zeroed a r.a hz topic funcTotals fn mt h1 h2
    subst this
    exact ⟨rfl, rfl⟩
  · intro topic funcTotals fn mt e h1 h2
    have := zero_of_zeroed a r.a hz topic funcTotals fn mt h1 h2
    subst this
    rfl

/-- C3, witness: `Propose` on an engine that monitors `F` on "T" with 7 messages transmitted
and none received returns, proposing 1 replica, and leaves the totals of `F` at zero. -/
theorem Propose_resets_totals_witness :
    Propose (monitoring 1 ⟨7, 0⟩) emptyQueues =
      Except.ok ⟨GoMap.empty.store F 1, monitoring 1 ⟨0, 0⟩, []⟩ ∧
    (monitoring 1 ⟨0, 0⟩).totals = zeroedTotals (monitoring 1 ⟨7, 0⟩).totals ∧
    monitored (monitoring 1 ⟨0, 0⟩) "T" F = true :=
  ⟨rfl,
   (Propose_resets_totals (monitoring 1 ⟨7, 0⟩) emptyQueues
      ⟨GoMap.empty.store F 1, monitoring 1 ⟨0, 0⟩, []⟩ rfl).1,
   by decide⟩

end autoscaler

namespace autoscaler

variable {D : Delayer}

theorem Propose_general (a : autoScaler D) (w : World) (hopen : a.mutex = true)
    (hsingle : singleTopic a) (hreg : scalersRegistered a) :
    ∃ r, Propose a w = Except.ok r ∧
      (∀ fn, r.proposals.contains fn = true ↔ ∃ topic, monitored a topic fn = true) ∧
      (∀ topic funcTotals fn mt d, a.totals.get? topic = some funcTotals →
        funcTotals.get? fn = some mt → a.scalers.get? fn = some d →
        r.proposals.get? fn = some (pipeline a w fn mt ⟨d, []⟩).1) := by
  obtain ⟨r, hr⟩ := Propose_succeeds a w hopen hsingle hreg
  have hP := (Propose_spec hr).2.2
  refine ⟨r, hr, ?_, ?_⟩
  · intro fn
    rw [GoMap.contains_iff, hP.proposal_keys, mem_flatTotals_keys_iff]
  · intro topic funcTotals fn mt d h1 h2 h3
    have hmem : (fn, mt) ∈ flatTotals a.totals.entries :=
      mem_flatTotals.mpr ⟨(topic, funcTotals), GoMap.mem_entries_of_get? h1,
        GoMap.mem_entries_of_get? h2⟩
    have hmem2 : (fn, proposalFor a w fn mt) ∈
        (flatTotals a.totals.entries).map (fun e => (e.1, proposalFor a w e.1 e.2)) :=
      List.mem_map.mpr ⟨(fn, mt), hmem, rfl⟩
    rw [← hP.proposals] at hmem2
    obtain ⟨p, hp, hpe⟩ := List.mem_map.mp hmem2
    simp only [Prod.mk.injEq] at hpe
    obtain ⟨hp1, hp2⟩ := hpe
    have hget : r.proposals.get? fn = some p.2 := by
      apply GoMap.get?_of_mem_entries
      rw [← hp1]
      exact hp
    rw [hget, hp2]
    unfold proposalFor
    rw [h3]
    rfl

end autoscaler

namespace autoscaler

variable {D : Delayer}

theorem wrapInt32_add_left (x c : Int) : wrapInt32 (wrapInt32 x + c) = wrapInt32 (x + c) := by
  unfold wrapInt32
  norm_num
  omega

theorem wrapInt32_of_IsInt32 {x : Int} (h : IsInt32 x) : wrapInt32 x = x := by
  unfold wrapInt32
  unfold IsInt32 at h
  norm_num at h ⊢
  omega

theorem bind_apply {α β : Type} (x : StateM (Effects D) α) (f : α → StateM (Effects D) β)
    (e : Effects D) : (x >>= f) e = f (x e).1 (x e).2 := rfl

theorem limitScalingUp_of_le (a : autoScaler D) (fn : FunctionId) (p : Int) (e : Effects D)
    (h : p ≤ a.maxReplicas fn) : limitScalingUp a fn p e = (p, e) := by
  simp only [limitScalingUp]
  have : ¬ p > a.maxReplicas fn := by omega
  simp only [this, if_false]
  rfl

theorem emptyQueueLoop_single_empty (w : World) (fn : FunctionId) (topic : String)
    (ft : GoMap FunctionId metricsTotals) (e : Effects D)
    (hq : w.QueueLength topic fn.Function = Except.ok 0) :
    emptyQueueLoop w fn [(topic, ft)] e = ((true, 0), e) := by
  unfold emptyQueueLoop
  split
  · simp only [hq]
    rfl
  · rfl

theorem StartMonitoring_fresh (topic : String) (fn : FunctionId) :
    StartMonitoring (NewAutoScaler : autoScaler D) topic fn =
      Except.ok (none, monitoringOnly topic fn metricsTotals.zero D.NewDelayer GoMap.empty) := by
  have h : (GoMap.empty.store topic (GoMap.empty : GoMap FunctionId metricsTotals)).store topic
      (GoMap.empty.store fn metricsTotals.zero) =
      GoMap.empty.store topic (GoMap.empty.store fn metricsTotals.zero) := by
    apply GoMap.ext
    simp [GoMap.store, GoMap.storeL, GoMap.empty]
  unfold StartMonitoring monitoringOnly
  show Except.ok _ = Except.ok _
  simp only [NewAutoScaler, h]

theorem isInt32_wrapInt32 (x : Int) : IsInt32 (wrapInt32 x) := by
  unfold wrapInt32 IsInt32
  norm_num
  omega

theorem totals_monitoringOnly_get? (topic topic' : String) (fn : FunctionId) (mt : metricsTotals)
    (d : D.State) (replicas : GoMap FunctionId Int) :
    (monitoringOnly topic fn mt d replicas : autoScaler D).totals.get? topic' =
      if topic = topic' then some (GoMap.empty.store fn mt) else none := by
  simp [monitoringOnly, GoMap.get?, GoMap.store, GoMap.storeL, GoMap.empty, GoMap.lookupL]

theorem receiveProducerMetric_monitoringOnly (topic : String) (fn : FunctionId) (d : D.State)
    (replicas : GoMap FunctionId Int) (t r : Int) (pm : ProducerAggregateMetric) :
    receiveProducerMetric (monitoringOnly topic fn ⟨t, r⟩ d replicas : autoScaler D) pm =
      Except.ok (if pm.Topic = topic
        then monitoringOnly topic fn ⟨wrapInt32 (t + pm.Count), r⟩ d replicas
        else monitoringOnly topic fn ⟨t, r⟩ d replicas) := by
  unfold receiveProducerMetric
  rw [totals_monitoringOnly_get?]
  by_cases h : topic = pm.Topic
  · subst h
    simp only [if_true]
    show Except.ok _ = Except.ok _
    congr 1
    unfold monitoringOnly
    congr 1
    apply GoMap.ext
    simp [GoMap.store, GoMap.storeL, GoMap.empty, GoMap.mapValues]
  · have h' : ¬ pm.Topic = topic := fun c => h c.symm
    simp only [h, h', if_false]
    rfl

theorem receiveConsumerMetric_monitoringOnly (topic : String) (fn : FunctionId) (d : D.State)
    (replicas : GoMap FunctionId Int) (t r : Int) (cm : ConsumerAggregateMetric) :
    receiveConsumerMetric (monitoringOnly topic fn ⟨t, r⟩ d replicas : autoScaler D) cm =
      Except.ok (if cm.Topic = topic ∧ cm.ConsumerGroup = fn.Function
        then monitoringOnly topic fn ⟨t, wrapInt32 (r + cm.Count)⟩ d replicas
        else monitoringOnly topic fn ⟨t, r⟩ d replicas) := by
  unfold receiveConsumerMetric
  rw [totals_monitoringOnly_get?]
  by_cases h : topic = cm.Topic
  · subst h
    simp only [if_true, true_and]
    have hg : (GoMap.empty.store fn (⟨t, r⟩ : metricsTotals)).get? ⟨cm.ConsumerGroup⟩ =
        if fn = ⟨cm.ConsumerGroup⟩ then some ⟨t, r⟩ else none := by
      simp [GoMap.get?, GoMap.store, GoMap.storeL, GoMap.empty, GoMap.lookupL]
    rw [hg]
    by_cases h2 : fn = ⟨cm.ConsumerGroup⟩
    · subst h2
      simp only [if_true]
      show Except.ok _ = Except.ok _
      congr 1
      unfold monitoringOnly
      congr 1
      apply GoMap.ext
      simp [GoMap.store, GoMap.storeL, GoMap.empty]
    · have h3 : ¬ cm.ConsumerGroup = fn.Function := by
        intro c
        apply h2
        cases fn
        simp at c
        simp [c]
      simp only [h2, h3, if_false]
      rfl
  · have h' : ¬ cm.Topic = topic := fun c => h c.symm
    simp only [h, h', if_false, false_and]
    rfl

theorem receiveMetrics_monitoringOnly (topic : String) (fn : FunctionId) (d : D.State)
    (replicas : GoMap FunctionId Int) :
    ∀ (events : List MetricEvent) (t r : Int), IsInt32 t → IsInt32 r →
      receiveMetrics (monitoringOnly topic fn ⟨t, r⟩ d replicas : autoScaler D) events =
        Except.ok (monitoringOnly topic fn
          ⟨wrapInt32 (t + producedTo topic events),
           wrapInt32 (r + consumedBy topic fn.Function events)⟩ d replicas) := by
  intro events
  induction events with
  | nil =>
    intro t r ht hr
    simp only [producedTo, consumedBy, add_zero, wrapInt32_of_IsInt32 ht,
      wrapInt32_of_IsInt32 hr]
    rfl
  | cons ev rest ih =>
    intro t r ht hr
    unfold receiveMetrics at ih ⊢
    rw [List.foldlM_cons]
    cases ev with
    | producer pm =>
      simp only [receiveMetric, receiveProducerMetric_monitoringOnly, producedTo, consumedBy]
      by_cases h : pm.Topic = topic
      · simp only [h, if_true]
        show List.foldlM receiveMetric _ rest = _
        rw [ih _ _ (isInt32_wrapInt32 _) hr, wrapInt32_add_left, add_assoc]
      · simp only [h, if_false, zero_add]
        show List.foldlM receiveMetric _ rest = _
        rw [ih _ _ ht hr]
    | consumer cm =>
      simp only [receiveMetric, receiveConsumerMetric_monitoringOnly, producedTo, consumedBy]
      by_cases h : cm.Topic = topic ∧ cm.ConsumerGroup = fn.Function
      · simp only [h, and_self, if_true]
        show List.foldlM receiveMetric _ rest = _
        rw [ih _ _ ht (isInt32_wrapInt32 _), wrapInt32_add_left, add_assoc]
      · simp only [h, if_false, zero_add]
        show List.foldlM receiveMetric _ rest = _
        rw [ih _ _ ht hr]

end autoscaler

namespace autoscaler

variable {D : Delayer}

theorem delay_value (hD : cooldownIsIdentity D) (a : autoScaler D) (w : World)
    (fn : FunctionId) (p : Int) (e : Effects D) : (delay a w fn p e).1 = p :=
  hD _ _ _ _

theorem pipeline_busy (hD : cooldownIsIdentity D) (a : autoScaler D) (w : World)
    (fn : FunctionId) (e : Effects D) (hrep : replicasOf a fn = 1)
    (hmax : a.maxReplicas fn = MaxInt) : (pipeline a w fn ⟨100, 25⟩ e).1 = 4 := by
  have h1 : metricsScaler a fn ⟨100, 25⟩ e = (4, e) := by
    have h := metricsScaler_exact a fn ⟨100, 25⟩ e (by decide) (by decide) (by decide)
      (by rw [hrep]; decide)
    rw [h, hrep]
    have hc : ⌈(((1 : ℤ) * (100 : ℤ) : ℤ) : ℚ) / ((25 : ℤ) : ℚ)⌉ = 4 := by
      rw [Int.ceil_eq_iff]; norm_num
    simp only [hc]
  have h2 : limitScalingUp a fn 4 e = (4, e) :=
    limitScalingUp_of_le a fn 4 e (by rw [hmax]; decide)
  have h3 : limitScalingDown a w fn 4 e = (4, e) :=
    limitScalingDown_same a w fn 4 e (Or.inl (by decide))
  rw [pipeline_eq, bind_apply, bind_apply, bind_apply, h1, h2, h3]
  exact delay_value hD a w fn 4 e

theorem pipeline_idle (hD : cooldownIsIdentity D) (a : autoScaler D) (w : World)
    (topic : String) (fn : FunctionId) (ft : GoMap FunctionId metricsTotals) (e : Effects D)
    (hmax : a.maxReplicas fn = MaxInt) (htot : a.totals.entries = [(topic, ft)])
    (hq : w.QueueLength topic fn.Function = Except.ok 0) :
    (pipeline a w fn ⟨0, 0⟩ e).1 = 0 := by
  have h1 : metricsScaler a fn ⟨0, 0⟩ e = (0, e) := rfl
  have h2 : limitScalingUp a fn 0 e = (0, e) :=
    limitScalingUp_of_le a fn 0 e (by rw [hmax]; decide)
  have h3 : limitScalingDown a w fn 0 e = (0, e) := by
    by_cases hrep : replicasOf a fn = 0
    · exact limitScalingDown_same a w fn 0 e (Or.inr hrep)
    · unfold limitScalingDown emptyQueue
      simp only [hrep, ne_eq, not_false_eq_true, and_self, if_true, htot, bind_apply,
        emptyQueueLoop_single_empty w fn topic ft e hq]
      rfl
  rw [pipeline_eq, bind_apply, bind_apply, bind_apply, h1, h2, h3]
  exact delay_value hD a w fn 0 e

theorem entries_of_map_some {l : List (FunctionId × Int)} {fn : FunctionId} {v : Int}
    (h : l.map (fun p => (p.1, some p.2)) = [(fn, some v)]) : l = [(fn, v)] := by
  cases l with
  | nil => simp at h
  | cons p r =>
    cases r with
    | nil =>
      simp only [List.map_cons, List.map_nil, List.cons.injEq, Prod.mk.injEq,
        Option.some.injEq, and_true] at h
      obtain ⟨p1, p2⟩ := p
      simp only at h
      rw [h.1, h.2]
    | cons _ _ => simp at h

theorem Propose_monitoringOnly (w : World) (topic : String)
    (fn : FunctionId) (mt : metricsTotals) (d : D.State) (replicas : GoMap FunctionId Int)
    (v : Int)
    (hv : ∀ e, (pipeline (monitoringOnly topic fn mt d replicas : autoScaler D) w fn mt e).1 = v) :
    ∃ r d', Propose (monitoringOnly topic fn mt d replicas : autoScaler D) w = Except.ok r ∧
      r.proposals.entries = [(fn, v)] ∧
      r.a = monitoringOnly topic fn metricsTotals.zero d' replicas := by
  have hflat : flatTotals (monitoringOnly topic fn mt d replicas : autoScaler D).totals.entries =
      [(fn, mt)] := by
    simp [flatTotals, monitoringOnly, GoMap.store, GoMap.storeL, GoMap.empty]
  have hsc : (monitoringOnly topic fn mt d replicas : autoScaler D).scalers.get? fn = some d := by
    simp [monitoringOnly, GoMap.get?, GoMap.store, GoMap.storeL, GoMap.empty, GoMap.lookupL]
  have hsingle : singleTopic (monitoringOnly topic fn mt d replicas : autoScaler D) := by
    unfold singleTopic
    rw [hflat]
    simp
  have hreg : scalersRegistered (monitoringOnly topic fn mt d replicas : autoScaler D) := by
    intro f hf
    rw [hflat] at hf
    simp only [List.map_cons, List.map_nil, List.mem_singleton] at hf
    subst hf
    simp [GoMap.contains, hsc]
  obtain ⟨r, hr⟩ := Propose_succeeds _ w rfl hsingle hreg
  obtain ⟨_, htot, hP⟩ := Propose_spec hr
  have hprop : r.proposals.entries = [(fn, v)] := by
    apply entries_of_map_some
    rw [hP.proposals, hflat]
    simp only [List.map_cons, List.map_nil, proposalFor, hsc, Option.map_some', hv]
  have hkeys : r.a.scalers.keys = [fn] := by
    rw [hP.scalerKeys]
    simp [monitoringOnly, GoMap.keys, GoMap.store, GoMap.storeL, GoMap.empty]
  obtain ⟨d', hd'⟩ : ∃ d', r.a.scalers = GoMap.empty.store fn d' := by
    have hk := hkeys
    unfold GoMap.keys at hk
    cases hent : r.a.scalers.entries with
    | nil => rw [hent] at hk; simp at hk
    | cons p rest =>
      rw [hent] at hk
      cases rest with
      | nil =>
        simp only [List.map_cons, List.map_nil, List.cons.injEq, and_true] at hk
        refine ⟨p.2, GoMap.ext ?_⟩
        rw [hent]
        obtain ⟨p1, p2⟩ := p
        simp only at hk
        subst hk
        rfl
      | cons _ _ => simp at hk
  refine ⟨r, d', hr, hprop, ?_⟩
  obtain ⟨s1, s2, s3, s4⟩ := hP.settings
  have htot' : r.a.totals = GoMap.empty.store topic (GoMap.empty.store fn metricsTotals.zero) := by
    rw [htot]
    apply GoMap.ext
    simp [zeroedTotals, monitoringOnly, GoMap.mapValues, GoMap.store, GoMap.storeL, GoMap.empty]
  cases hra : r.a with
  | mk mutex totals scalers reps maxR delayS =>
    rw [hra] at s1 s2 s3 s4 htot' hd'
    simp only at s1 s2 s3 s4 htot' hd'
    subst s1 s2 s3 s4 htot' hd'
    rfl

end autoscaler

namespace autoscaler

variable {D : Delayer}

theorem Propose_ok_iff (a : autoScaler D) (w : World) :
    (∃ r, Propose a w = Except.ok r) ↔
      a.mutex = true ∧ singleTopic a ∧ scalersRegistered a := by
  constructor
  · rintro ⟨r, hr⟩
    obtain ⟨hm, _, hP⟩ := Propose_spec hr
    refine ⟨hm, ?_, hP.registered⟩
    unfold singleTopic
    rw [← hP.proposal_keys]
    exact r.proposals.nodup
  · rintro ⟨h1, h2, h3⟩
    exact Propose_succeeds a w h1 h2 h3

theorem Propose_scenario (hD : cooldownIsIdentity D) (topic : String) (fn : FunctionId)
    (events : List MetricEvent) (w₁ w₂ : World)
    (hp : producedTo topic events = 100) (hc : consumedBy topic fn.Function events = 25)
    (hq : w₂.QueueLength topic fn.Function = Except.ok 0) :
    ∃ (a₁ a₂ a₃ : autoScaler D) (r₁ r₂ : ProposeState D),
      StartMonitoring NewAutoScaler topic fn = Except.ok (none, a₁) ∧
      InformFunctionReplicas a₁ fn 1 = Except.ok a₂ ∧
      receiveMetrics a₂ events = Except.ok a₃ ∧
      Propose a₃ w₁ = Except.ok r₁ ∧ r₁.proposals.entries = [(fn, 4)] ∧
      Propose r₁.a w₂ = Except.ok r₂ ∧ r₂.proposals.entries = [(fn, 0)] := by
  have hrep : ∀ (mt : metricsTotals) (d : D.State),
      replicasOf (monitoringOnly topic fn mt d (GoMap.empty.store fn 1) : autoScaler D) fn = 1 := by
    intro mt d
    simp [replicasOf, monitoringOnly, GoMap.get?, GoMap.store, GoMap.storeL, GoMap.empty,
      GoMap.lookupL]
  have h3 := receiveMetrics_monitoringOnly topic fn D.NewDelayer (GoMap.empty.store fn 1)
    events 0 0 (by decide) (by decide)
  rw [hp, hc] at h3
  have e1 : wrapInt32 (0 + 100) = 100 := by decide
  have e2 : wrapInt32 (0 + 25) = 25 := by decide
  rw [e1, e2] at h3
  obtain ⟨r₁, d₁, hr₁, hprop₁, ha₁⟩ := Propose_monitoringOnly w₁ topic fn ⟨100, 25⟩ D.NewDelayer
    (GoMap.empty.store fn 1) 4
    (fun e => pipeline_busy hD _ w₁ fn e (hrep _ _) rfl)
  obtain ⟨r₂, d₂, hr₂, hprop₂, _⟩ := Propose_monitoringOnly w₂ topic fn metricsTotals.zero d₁
    (GoMap.empty.store fn 1) 0
    (fun e => pipeline_idle hD _ w₂ topic fn (GoMap.empty.store fn metricsTotals.zero) e rfl
      (by simp [monitoringOnly, GoMap.store, GoMap.storeL, GoMap.empty]) hq)
  refine ⟨_, _, _, r₁, r₂, StartMonitoring_fresh topic fn, rfl, h3, hr₁, hprop₁, ?_, hprop₂⟩
  rw [ha₁]
  exact hr₂

end autoscaler

/-! ## The order of visits in `emptyQueue` -/

namespace autoscaler

/-- Whether `emptyQueue` finds the queue empty does not depend on the order in which the
topics are visited: it does so exactly when the inspector reports a length of at most 0 for
every topic under which the function is registered. -/
theorem emptyQueueLoop_true_iff {D : Delayer} (w : World) (fn : FunctionId) :
    ∀ (l : List (String × GoMap FunctionId metricsTotals)) (e : Effects D),
      (emptyQueueLoop w fn l e).1.1 = true ↔
        ∀ t, t ∈ l → t.2.contains fn = true →
          ∃ q, w.QueueLength t.1 fn.Function = Except.ok q ∧ q ≤ 0 := by
  intro l
  induction l with
  | nil =>
    intro e
    simp [emptyQueueLoop, pure, StateT.pure]
  | cons t r ih =>
    intro e
    obtain ⟨t1, t2⟩ := t
    unfold emptyQueueLoop
    by_cases hc : t2.contains fn = true
    · simp only [hc, if_true]
      cases hq : w.QueueLength t1 fn.Function with
      | error err =>
        constructor
        · intro h
          exact absurd h (by simp [bind_apply, pure, StateT.pure])
        · intro h
          obtain ⟨q, hq', _⟩ := h (t1, t2) (List.mem_cons_self _ _) hc
          rw [hq] at hq'
          cases hq'
      | ok q =>
        by_cases hpos : q > 0
        · simp only [hpos, if_true]
          constructor
          · intro h
            exact absurd h (by simp [pure, StateT.pure])
          · intro h
            obtain ⟨q', hq', hle⟩ := h (t1, t2) (List.mem_cons_self _ _) hc
            rw [hq] at hq'
            cases hq'
            omega
        · simp only [hpos, if_false]
          rw [ih e]
          constructor
          · intro h t ht hct
            rcases List.mem_cons.mp ht with h1 | h1
            · subst h1
              exact ⟨q, hq, by omega⟩
            · exact h t h1 hct
          · intro h t ht hct
            exact h t (List.mem_cons_of_mem _ ht) hct
    · have hc' : t2.contains fn = false := by simpa using hc
      simp only [hc', Bool.false_eq_true, if_false]
      rw [ih e]
      constructor
      · intro h t ht hct
        rcases List.mem_cons.mp ht with h1 | h1
        · subst h1
          exact absurd hct hc
        · exact h t h1 hct
      · intro h t ht hct
        exact h t (List.mem_cons_of_mem _ ht) hct

end autoscaler

/-! ## The claims about `Propose`, the adjusters and `StartMonitoring` -/

namespace autoscaler

/-- C4 (amended). On an engine that has not been closed, in which no function is registered
under more than one topic and every monitored function has its scaler, `Propose` returns a
map whose key set is exactly the set of monitored functions, each mapped to the value of its
pipeline on its current totals. In particular, starting from a fresh engine with `fn`
monitored on `topic`, `InformFunctionReplicas(fn, 1)`, metric events whose producer counts
for `topic` total 100 and whose consumer counts for `topic` and `fn` total 25, a cooldown
that acts as the identity and an inspector that reports an empty queue, `Propose` returns
exactly `{fn: 4}` and the next `Propose` returns exactly `{fn: 0}`. -/
theorem Propose_returns_pipeline_values {D : Delayer} :
    (∀ (a : autoScaler D) (w : World), a.mutex = true → singleTopic a → scalersRegistered a →
      ∃ r, Propose a w = Except.ok r ∧
        (∀ fn, r.proposals.contains fn = true ↔ ∃ topic, monitored a topic fn = true) ∧
        (∀ topic funcTotals fn mt d, a.totals.get? topic = some funcTotals →
          funcTotals.get? fn = some mt → a.scalers.get? fn = some d →
          r.proposals.get? fn = some (pipeline a w fn mt ⟨d, []⟩).1)) ∧
    (∀ (topic : String) (fn : FunctionId) (events : List MetricEvent) (w₁ w₂ : World),
      cooldownIsIdentity D → producedTo topic events = 100 →
      consumedBy topic fn.Function events = 25 →
      w₂.QueueLength topic fn.Function = Except.ok 0 →
      ∃ (a₁ a₂ a₃ : autoScaler D) (r₁ r₂ : ProposeState D),
        StartMonitoring NewAutoScaler topic fn = Except.ok (none, a₁) ∧
        InformFunctionReplicas a₁ fn 1 = Except.ok a₂ ∧
        receiveMetrics a₂ events = Except.ok a₃ ∧
        Propose a₃ w₁ = Except.ok r₁ ∧ r₁.proposals.entries = [(fn, 4)] ∧
        Propose r₁.a w₂ = Except.ok r₂ ∧ r₂.proposals.entries = [(fn, 0)]) :=
  ⟨fun a w h1 h2 h3 => Propose_general a w h1 h2 h3,
   fun topic fn events w₁ w₂ hD hp hc hq => Propose_scenario hD topic fn events w₁ w₂ hp hc hq⟩

/-- C4, witness: the engine that monitors `F` on "T" with 7 messages transmitted and none
received meets the conditions of the first part; the events 60 produced, 25 consumed, 40
produced on "T" meet those of the second. -/
theorem Propose_returns_pipeline_values_witness :
    (∃ r, Propose (monitoring 1 ⟨7, 0⟩) emptyQueues = Except.ok r ∧
      (∀ fn, r.proposals.contains fn = true ↔
        ∃ topic, monitored (monitoring 1 ⟨7, 0⟩) topic fn = true) ∧
      (∀ topic funcTotals fn mt d, (monitoring 1 ⟨7, 0⟩).totals.get? topic = some funcTotals →
        funcTotals.get? fn = some mt → (monitoring 1 ⟨7, 0⟩).scalers.get? fn = some d →
        r.proposals.get? fn =
          some (pipeline (monitoring 1 ⟨7, 0⟩) emptyQueues fn mt ⟨d, []⟩).1)) ∧
    (∃ (a₁ a₂ a₃ : autoScaler Delayer.passThrough) (r₁ r₂ : ProposeState Delayer.passThrough),
      StartMonitoring NewAutoScaler "T" F = Except.ok (none, a₁) ∧
      InformFunctionReplicas a₁ F 1 = Except.ok a₂ ∧
      receiveMetrics a₂ [MetricEvent.producer ⟨"T", 60⟩, MetricEvent.consumer ⟨"T", "F", 25⟩,
        MetricEvent.producer ⟨"T", 40⟩] = Except.ok a₃ ∧
      Propose a₃ emptyQueues = Except.ok r₁ ∧ r₁.proposals.entries = [(F, 4)] ∧
      Propose r₁.a emptyQueues = Except.ok r₂ ∧ r₂.proposals.entries = [(F, 0)]) :=
  ⟨Propose_returns_pipeline_values.1 (monitoring 1 ⟨7, 0⟩) emptyQueues rfl
      (by unfold singleTopic; decide) (by unfold scalersRegistered; decide),
   Propose_returns_pipeline_values.2 "T" F _ emptyQueues emptyQueues
      (fun _ _ _ _ => rfl) (by decide) (by decide) rfl⟩

/-- C4, counterexample: after `StartMonitoring("T1", F)`, `StartMonitoring("T2", F)` and
`StopMonitoring("T1", F)` on a fresh engine, `F` is registered under the one topic "T2" and
the engine is not closed, yet `Propose` does not return a map: it panics on the missing
scaler of `F`. On a closed engine, where `F` is registered under one topic and has its
scaler, `Propose` panics on the `nil` mutex. -/
theorem Propose_panics_on_missing_scaler :
    StartMonitoring (NewAutoScaler : autoScaler Delayer.passThrough) "T1" F =
      Except.ok (none, monitoringOnly "T1" F metricsTotals.zero () GoMap.empty) ∧
    StartMonitoring (monitoringOnly "T1" F metricsTotals.zero () GoMap.empty) "T2" F =
      Except.ok (none, twoTopics) ∧
    StopMonitoring twoTopics "T1" F = Except.ok (none, orphaned) ∧
    orphaned.mutex = true ∧ singleTopic orphaned ∧ monitored orphaned "T2" F = true ∧
    Propose orphaned emptyQueues = Except.error Panic.nilScaler ∧
    singleTopic (closed 1 ⟨100, 25⟩) ∧ scalersRegistered (closed 1 ⟨100, 25⟩) ∧
    Propose (closed 1 ⟨100, 25⟩) emptyQueues = Except.error Panic.nilMutex :=
  ⟨rfl, rfl, rfl, rfl, by unfold singleTopic; decide, by decide, rfl,
    by unfold singleTopic; decide, by unfold scalersRegistered; decide, rfl⟩

/-- C5. For every proposal `p` and every value `m` the max-replicas policy returns for the
function, the max-clamp adjuster `limitScalingUp` returns `m` when `p > m` and `p` when
`p ≤ m`, whatever the last informed replica counts are. -/
theorem limitScalingUp_clamps {D : Delayer} (a : autoScaler D) (fn : FunctionId) (p : Int)
    (e : Effects D) :
    (a.maxReplicas fn < p → (limitScalingUp a fn p e).1 = a.maxReplicas fn) ∧
    (p ≤ a.maxReplicas fn → (limitScalingUp a fn p e).1 = p) ∧
    (∀ replicas : GoMap FunctionId Int,
      (limitScalingUp { a with replicas := replicas } fn p e).1 =
        (limitScalingUp a fn p e).1) := by
  refine ⟨?_, ?_, ?_⟩
  · intro h
    rw [limitScalingUp_value, if_pos h]
  · intro h
    rw [limitScalingUp_value, if_neg (by omega)]
  · intro replicas
    rw [limitScalingUp_value, limitScalingUp_value]

/-- C5, witness: with a maximum of 3 replicas, a proposal of 5 becomes 3 and a proposal of 2
stays 2. -/
theorem limitScalingUp_clamps_witness :
    (limitScalingUp (capped 3) F 5 noEffects).1 = 3 ∧
    (limitScalingUp (capped 3) F 2 noEffects).1 = 2 :=
  ⟨(limitScalingUp_clamps (capped 3) F 5 noEffects).1 (by decide),
   (limitScalingUp_clamps (capped 3) F 2 noEffects).2.1 (by decide)⟩

/-- C6. For every function monitored on some topic whose last informed replica count is
greater than 0, if the proposal handed to the min-floor adjuster `limitScalingDown` is 0 and
the inspector reports a positive queue length for that topic and function, the adjuster
returns 1. -/
theorem limitScalingDown_positive_queue {D : Delayer} (a : autoScaler D) (w : World)
    (fn : FunctionId) (topic : String) (q : Int) (e : Effects D)
    (hmon : monitored a topic fn = true) (hrep : 0 < replicasOf a fn)
    (hq : w.QueueLength topic fn.Function = Except.ok q) (hpos : 0 < q) :
    (limitScalingDown a w fn 0 e).1 = 1 := by
  apply limitScalingDown_floor a w fn topic e hmon (by omega)
  intro q' hq'
  rw [hq] at hq'
  cases hq'
  exact hpos

/-- C6, witness: `F` monitored on "T" with 1 replica and a queue of length 3. -/
theorem limitScalingDown_positive_queue_witness :
    (limitScalingDown (monitoring 1 ⟨0, 0⟩) queuesOfThree F 0 noEffects).1 = 1 :=
  limitScalingDown_positive_queue (monitoring 1 ⟨0, 0⟩) queuesOfThree F "T" 3 noEffects
    (by decide) (by decide) rfl (by decide)

/-- C7. For every monitored function whose last informed replica count is non-zero, if the
proposal handed to the min-floor adjuster is 0 and the inspector's `QueueLength` call for
the function's topic returns an error, the adjuster returns 1, and the error is not
propagated: `Propose` returns normally whenever it does so with any other inspector. -/
theorem limitScalingDown_inspector_error {D : Delayer} (a : autoScaler D) (w : World)
    (fn : FunctionId) (topic : String) (err : String) (e : Effects D)
    (hmon : monitored a topic fn = true) (hrep : replicasOf a fn ≠ 0)
    (herr : w.QueueLength topic fn.Function = Except.error err) :
    (limitScalingDown a w fn 0 e).1 = 1 ∧
    (∀ w', (∃ r', Propose a w' = Except.ok r') → ∃ r, Propose a w = Except.ok r) := by
  constructor
  · apply limitScalingDown_floor a w fn topic e hmon hrep
    intro q hq
    rw [herr] at hq
    cases hq
  · intro w' h
    exact (Propose_ok_iff a w).mpr ((Propose_ok_iff a w').mp h)

/-- C7, witness: `F` monitored on "T" with 1 replica and an inspector that fails; the
adjuster returns 1 and `Propose` returns, proposing 1 for `F`. -/
theorem limitScalingDown_inspector_error_witness :
    ((limitScalingDown (monitoring 1 ⟨0, 0⟩) brokenInspector F 0 noEffects).1 = 1 ∧
      (∀ w', (∃ r', Propose (monitoring 1 ⟨0, 0⟩) w' = Except.ok r') →
        ∃ r, Propose (monitoring 1 ⟨0, 0⟩) brokenInspector = Except.ok r)) ∧
    Propose (monitoring 1 ⟨0, 0⟩) brokenInspector =
      Except.ok ⟨GoMap.empty.store F 1, monitoring 1 ⟨0, 0⟩,
        [LogLine.failedQueueLength "unreachable", LogLine.ignoringScaleToZero "F" (-1)]⟩ :=
  ⟨limitScalingDown_inspector_error (monitoring 1 ⟨0, 0⟩) brokenInspector F "T" "unreachable"
    noEffects (by decide) (by decide) rfl, rfl⟩

/-- C8. The min-floor adjuster `limitScalingDown` changes a proposal only when the proposal
is 0 and the last informed replica count of the function is non-zero: for every proposal
`p ≠ 0`, and for `p = 0` with replica count 0, it returns `p` and logs nothing, whatever the
inspector would answer; so queue length alone never raises a function from 0 replicas
to 1. -/
theorem limitScalingDown_unchanged {D : Delayer} (a : autoScaler D) (w : World)
    (fn : FunctionId) (p : Int) (e : Effects D) (h : p ≠ 0 ∨ replicasOf a fn = 0) :
    limitScalingDown a w fn p e = (p, e) :=
  limitScalingDown_same a w fn p e h

/-- C8, witness: with 0 replicas informed and a queue of length 3, a proposal of 0 stays 0;
with 1 replica informed, a proposal of 2 stays 2. -/
theorem limitScalingDown_unchanged_witness :
    limitScalingDown (monitoring 0 ⟨0, 0⟩) queuesOfThree F 0 noEffects = (0, noEffects) ∧
    limitScalingDown (monitoring 1 ⟨0, 0⟩) queuesOfThree F 2 noEffects = (2, noEffects) :=
  ⟨limitScalingDown_unchanged (monitoring 0 ⟨0, 0⟩) queuesOfThree F 0 noEffects
    (Or.inr (by decide)),
   limitScalingDown_unchanged (monitoring 1 ⟨0, 0⟩) queuesOfThree F 2 noEffects
    (Or.inl (by decide))⟩

theorem foldl_bind_pure {D : Delayer} (gs : List (Int → Int)) (e : Effects D) :
    ∀ (x : StateM (Effects D) Int) (v : Int), x e = (v, e) →
      (gs.map (fun g p => (pure (g p) : StateM (Effects D) Int))).foldl
        (fun acc ad => acc >>= ad) x e = (gs.foldl (fun u g => g u) v, e) := by
  induction gs with
  | nil => intro x v h; exact h
  | cons g r ih =>
    intro x v h
    simp only [List.map_cons, List.foldl_cons]
    apply ih
    rw [bind_apply, h]
    rfl

/-- C9. For every scaler `s`, adjusters `a1..an` and metrics total `mt`,
`decorate(s, a1, ..., an)(mt)` runs `s` on `mt` and hands its result through `a1`, then
`a2`, up to `an`: adjusters are applied in argument order; for functions without effects
this is `an(...(a2(a1(s(mt))))...)`. So the pipeline that `StartMonitoring` builds computes
`cooldown(minFloor(maxClamp(base(mt))))`. -/
theorem decorate_applies_in_order {D : Delayer} (s : scaler D) (adjusters : List (adjuster D))
    (mt : metricsTotals) (a : autoScaler D) (w : World) (fn : FunctionId) (e : Effects D)
    (f : metricsTotals → Int) (gs : List (Int → Int)) :
    decorate s adjusters mt = adjusters.foldl (fun acc ad => acc >>= ad) (s mt) ∧
    decorate (fun t => pure (f t)) (gs.map (fun g p => pure (g p))) mt e =
      (gs.foldl (fun u g => g u) (f mt), e) ∧
    pipeline a w fn mt =
      (metricsScaler a fn mt >>= limitScalingUp a fn >>= limitScalingDown a w fn
        >>= delay a w fn) ∧
    pipeline a w fn mt e =
      (let base := metricsScaler a fn mt e
       let maxClamp := limitScalingUp a fn base.1 base.2
       let minFloor := limitScalingDown a w fn maxClamp.1 maxClamp.2
       delay a w fn minFloor.1 minFloor.2) := by
  refine ⟨decorate_eq_foldl s adjusters mt, ?_, pipeline_eq a w fn mt, ?_⟩
  · rw [decorate_eq_foldl]
    exact foldl_bind_pure gs e _ (f mt) rfl
  · rw [pipeline_eq]
    rfl

/-- C10 (amended). For every engine state that has not been closed and every pair of topic
and function already registered in the monitoring set, `StartMonitoring` returns an error
and leaves the whole engine state unchanged: no totals are reset, and no scalers or replica
counts change. -/
theorem StartMonitoring_already_monitoring {D : Delayer} (a : autoScaler D) (topic : String)
    (fn : FunctionId) (hopen : a.mutex = true) (hmon : monitored a topic fn = true) :
    StartMonitoring a topic fn =
      Except.ok (some (MonitorError.alreadyMonitoring topic fn), a) := by
  unfold monitored at hmon
  unfold StartMonitoring lock
  cases hg : a.totals.get? topic with
  | none => simp [hg] at hmon
  | some funcTotals =>
    simp only [hg] at hmon
    simp only [hopen, if_true, hmon]
    rfl

/-- C10, witness: `StartMonitoring("T", F)` on an engine that monitors `F` on "T" with
totals 100 and 25 returns the error and the same engine, totals included. -/
theorem StartMonitoring_already_monitoring_witness :
    StartMonitoring (monitoring 1 ⟨100, 25⟩) "T" F =
      Except.ok (some (MonitorError.alreadyMonitoring "T" F), monitoring 1 ⟨100, 25⟩) :=
  StartMonitoring_already_monitoring (monitoring 1 ⟨100, 25⟩) "T" F rfl (by decide)

/-- C10, counterexample: on a closed engine that has the pair of "T" and `F` registered,
`StartMonitoring("T", F)` does not return an error: it panics on the `nil` mutex. -/
theorem StartMonitoring_panics_when_closed :
    monitored (closed 1 ⟨100, 25⟩) "T" F = true ∧
    StartMonitoring (closed 1 ⟨100, 25⟩) "T" F = Except.error Panic.nilMutex :=
  ⟨by decide, rfl⟩

end autoscaler

/-! ## Deleting from a Go map -/

namespace GoMap

variable {K V : Type} [DecidableEq K]

theorem lookupL_deleteL_same (k : K) (l : List (K × V)) : lookupL k (deleteL k l) = none := by
  rw [lookupL_eq_none]
  intro h
  obtain ⟨e, he, hk⟩ := List.mem_map.mp h
  have := (List.mem_filter.mp he).2
  simp [hk] at this

theorem deleteL_cons (k : K) (e : K × V) (r : List (K × V)) :
    deleteL k (e :: r) = if e.1 = k then deleteL k r else e :: deleteL k r := by
  unfold deleteL
  by_cases h : e.1 = k
  · simp [List.filter_cons, h]
  · simp [List.filter_cons, h]

theorem lookupL_deleteL_ne {k k' : K} (l : List (K × V)) (h : k' ≠ k) :
    lookupL k' (deleteL k l) = lookupL k' l := by
  induction l with
  | nil => rfl
  | cons e r ih =>
    rw [deleteL_cons]
    by_cases hk : e.1 = k
    · have hk' : ¬ e.1 = k' := by rw [hk]; exact fun c => h c.symm
      rw [if_pos hk, ih]
      simp only [lookupL, hk', if_false]
    · rw [if_neg hk]
      by_cases hk' : e.1 = k'
      · simp only [lookupL, hk', if_true]
      · simp only [lookupL, hk', if_false, ih]

theorem get?_delete_same (m : GoMap K V) (k : K) : (m.delete k).get? k = none :=
  lookupL_deleteL_same k m.entries

theorem get?_delete_ne (m : GoMap K V) {k k' : K} (h : k' ≠ k) :
    (m.delete k).get? k' = m.get? k' :=
  lookupL_deleteL_ne m.entries h

theorem contains_delete_same (m : GoMap K V) (k : K) : (m.delete k).contains k = false := by
  simp [contains, get?_delete_same]

theorem len_delete_eq_zero (m : GoMap K V) (k : K) :
    (m.delete k).len = 0 ↔ ∀ k', k' ≠ k → m.contains k' = false := by
  unfold len delete deleteL
  simp only [List.length_eq_zero, List.filter_eq_nil_iff, decide_eq_true_eq, not_not]
  constructor
  · intro h k' hk'
    rw [contains_eq_false]
    intro hmem
    obtain ⟨e, he, hek⟩ := List.mem_map.mp hmem
    exact hk' (hek ▸ h e he)
  · intro h e he
    by_contra hne
    have := h e.1 hne
    rw [contains_eq_false] at this
    exact this (List.mem_map_of_mem Prod.fst he)

end GoMap

namespace autoscaler

variable {D : Delayer}

theorem StopMonitoring_of_not_monitored (a : autoScaler D) (topic : String) (fn : FunctionId)
    (hopen : a.mutex = true) (hnot : monitored a topic fn = false) :
    StopMonitoring a topic fn = Except.ok (some (MonitorError.notMonitoring topic fn), a) := by
  unfold monitored at hnot
  unfold StopMonitoring lock
  cases hg : a.totals.get? topic with
  | none =>
    simp only [hopen, if_true]
    rfl
  | some funcTotals =>
    simp only [hg] at hnot
    simp only [hopen, if_true, hnot]
    rfl

/-- The engine that `StopMonitoring` leaves for a monitored pair. -/
theorem StopMonitoring_of_monitored (a : autoScaler D) (topic : String) (fn : FunctionId)
    (funcTotals : GoMap FunctionId metricsTotals)
    (hopen : a.mutex = true) (hg : a.totals.get? topic = some funcTotals)
    (hc : funcTotals.contains fn = true) :
    StopMonitoring a topic fn = Except.ok (none,
      { a with
        totals := if (funcTotals.delete fn).len = 0
          then (a.totals.store topic (funcTotals.delete fn)).delete topic
          else a.totals.store topic (funcTotals.delete fn)
        scalers := a.scalers.delete fn }) := by
  unfold StopMonitoring lock
  simp only [hopen, if_true, hg, hc]
  rfl

theorem totalsOf_eq (a : autoScaler D) (topic : String) (fn : FunctionId) :
    totalsOf a topic fn = (a.totals.get? topic).bind (fun funcTotals => funcTotals.get? fn) :=
  rfl

theorem monitored_eq_isSome (a : autoScaler D) (topic : String) (fn : FunctionId) :
    monitored a topic fn = (totalsOf a topic fn).isSome := by
  unfold monitored totalsOf
  cases a.totals.get? topic with
  | none => rfl
  | some ft => rfl

end autoscaler

namespace autoscaler

variable {D : Delayer}

theorem StopMonitoring_effect (a : autoScaler D) (topic : String) (fn : FunctionId)
    (hopen : a.mutex = true) (hmon : monitored a topic fn = true) :
    ∃ a', StopMonitoring a topic fn = Except.ok (none, a') ∧
      monitored a' topic fn = false ∧
      (a'.totals.contains topic = false ↔ ∀ fn', fn' ≠ fn → monitored a topic fn' = false) ∧
      a'.scalers.contains fn = false ∧
      (∀ topic' fn', (topic' ≠ topic ∨ fn' ≠ fn) →
        totalsOf a' topic' fn' = totalsOf a topic' fn') ∧
      (∀ fn', fn' ≠ fn → a'.scalers.get? fn' = a.scalers.get? fn') ∧
      a'.replicas = a.replicas ∧ a'.maxReplicas = a.maxReplicas ∧
      a'.delayScaleDown = a.delayScaleDown ∧ a'.mutex = a.mutex := by
  have hmon' := hmon
  unfold monitored at hmon'
  cases hg : a.totals.get? topic with
  | none => simp [hg] at hmon'
  | some ft =>
    simp only [hg] at hmon'
    refine ⟨_, StopMonitoring_of_monitored a topic fn ft hopen hg hmon', ?_⟩
    have hothers : (ft.delete fn).len = 0 ↔ ∀ fn', fn' ≠ fn → monitored a topic fn' = false := by
      rw [GoMap.len_delete_eq_zero]
      unfold monitored
      simp only [hg]
    by_cases hlen : (ft.delete fn).len = 0
    · simp only [hlen, if_true]
      refine ⟨?_, ?_, GoMap.contains_delete_same _ _, ?_, ?_, ?_, ?_, ?_, ?_⟩ <;>
        try (first | rfl | trivial)
      · unfold monitored
        simp only [GoMap.get?_delete_same]
      · rw [GoMap.contains_delete_same]
        simp only [true_iff]
        exact hothers.mp hlen
      · intro topic' fn' hne
        unfold totalsOf
        simp only
        by_cases ht : topic' = topic
        · subst ht
          rw [GoMap.get?_delete_same, hg]
          have hfn : fn' ≠ fn := by
            rcases hne with h | h
            · exact absurd rfl h
            · exact h
          have := (GoMap.len_delete_eq_zero ft fn).mp hlen fn' hfn
          unfold GoMap.contains at this
          cases hget : ft.get? fn' with
          | none => simp [hget]
          | some v => simp [hget] at this
        · rw [GoMap.get?_delete_ne _ ht, GoMap.get?_store_ne _ _ ht]
      · intro fn' hfn
        exact GoMap.get?_delete_ne _ hfn
    · simp only [hlen, if_false]
      refine ⟨?_, ?_, GoMap.contains_delete_same _ _, ?_, ?_, ?_, ?_, ?_, ?_⟩ <;>
        try (first | rfl | trivial)
      · unfold monitored
        simp only [GoMap.get?_store_same, GoMap.contains_delete_same]
      · constructor
        · intro h
          simp [GoMap.contains, GoMap.get?_store_same] at h
        · intro h
          exact absurd (hothers.mpr h) hlen
      · intro topic' fn' hne
        unfold totalsOf
        simp only
        by_cases ht : topic' = topic
        · subst ht
          rw [GoMap.get?_store_same, hg]
          have hfn : fn' ≠ fn := by
            rcases hne with h | h
            · exact absurd rfl h
            · exact h
          simp only [Option.some_bind]
          exact GoMap.get?_delete_ne _ hfn
        · rw [GoMap.get?_store_ne _ _ ht]
      · intro fn' hfn
        exact GoMap.get?_delete_ne _ hfn

theorem InformFunctionReplicas_effect (a : autoScaler D) (fn : FunctionId) (n : Int)
    (hopen : a.mutex = true) :
    InformFunctionReplicas a fn n =
      Except.ok { a with replicas := a.replicas.store fn n } := by
  unfold InformFunctionReplicas lock
  simp only [hopen, if_true]
  rfl

end autoscaler

/-! ## Loops that panic -/

theorem foldlM_error {σ α ε : Type} (f : σ → α → Except ε σ)
    (Inv : List α → List α → σ → Prop)
    (hstep : ∀ done x rest s s', Inv done (x :: rest) s → f s x = Except.ok s' →
      Inv (done ++ [x]) rest s') (p : ε) :
    ∀ (l done : List α) (s : σ), Inv done l s → l.foldlM f s = Except.error p →
      ∃ done' x rest s₁, Inv done' (x :: rest) s₁ ∧ f s₁ x = Except.error p := by
  intro l
  induction l with
  | nil =>
    intro done s _ hf
    rw [List.foldlM_nil] at hf
    cases hf
  | cons x r ih =>
    intro done s h hf
    rw [List.foldlM_cons] at hf
    cases hx : f s x with
    | error q =>
      rw [hx] at hf
      have : q = p := by
        have := hf
        cases this
        rfl
      subst this
      exact ⟨done, x, r, s, h, hx⟩
    | ok s₁ =>
      rw [hx] at hf
      exact ih (done ++ [x]) s₁ (hstep done x r s s₁ h hx) hf

namespace autoscaler

variable {D : Delayer}

theorem proposeEntry_error (a : autoScaler D) (w : World) (topic : String)
    (pre post : List (String × GoMap FunctionId metricsTotals))
    (seen₀ tail : List (FunctionId × metricsTotals)) (ft₀ : GoMap FunctionId metricsTotals)
    (hflat : flatTotals a.totals.entries = seen₀ ++ ft₀.entries ++ tail)
    (hreg : scalersRegistered a)
    (done : List (FunctionId × metricsTotals)) (e : FunctionId × metricsTotals)
    (rest : List (FunctionId × metricsTotals))
    (s : ProposeState D × GoMap FunctionId metricsTotals) (p : Panic)
    (hinv : InnerInv a w topic pre post seen₀ ft₀ done (e :: rest) s)
    (herr : proposeEntry w topic s e = Except.error p) : p = Panic.multipleInputTopics := by
  obtain ⟨h0, _, _, hP⟩ := hinv
  unfold proposeEntry at herr
  by_cases hc : s.1.proposals.contains e.1 = true
  · simp only [hc, if_true] at herr
    cases herr
    rfl
  · have hc' : s.1.proposals.contains e.1 = false := by simpa using hc
    have hnotseen : e.1 ∉ (seen₀ ++ done).map Prod.fst := by
      rw [← hP.proposal_keys]
      exact GoMap.contains_eq_false.mp hc'
    have hkeys : e.1 ∈ (flatTotals a.totals.entries).map Prod.fst := by
      rw [hflat, h0]
      simp
    have h1 := hreg e.1 hkeys
    unfold GoMap.contains at h1
    rw [← hP.scalers e.1 hnotseen] at h1
    cases hd : s.1.a.scalers.get? e.1 with
    | none => simp [hd] at h1
    | some d =>
      simp only [hc', hd] at herr
      cases herr

theorem proposeTopic_error (a : autoScaler D) (w : World) (hreg : scalersRegistered a)
    (done : List (String × GoMap FunctionId metricsTotals))
    (t : String × GoMap FunctionId metricsTotals)
    (rest : List (String × GoMap FunctionId metricsTotals)) (s : ProposeState D) (p : Panic)
    (hinv : OuterInv a w done (t :: rest) s) (herr : proposeTopic w s t = Except.error p) :
    p = Panic.multipleInputTopics := by
  obtain ⟨h0, htot, hP⟩ := hinv
  have hflat : flatTotals a.totals.entries = flatTotals done ++ t.2.entries ++ flatTotals rest := by
    rw [h0]
    simp [flatTotals, List.flatMap_append, List.flatMap_cons]
  have hstart : InnerInv a w t.1 (done.map zeroTopic) rest (flatTotals done) t.2 []
      t.2.entries (s, t.2) := by
    refine ⟨rfl, rfl, ?_, ?_⟩
    · simpa using htot
    · simpa using hP
  unfold proposeTopic at herr
  cases hf : List.foldlM (proposeEntry w t.1) (s, t.2) t.2.entries with
  | ok r =>
    rw [hf] at herr
    cases herr
  | error q =>
    rw [hf] at herr
    have hq : q = p := by
      have := herr
      cases this
      rfl
    subst hq
    obtain ⟨done', e, rest', s₁, hinv', he⟩ := foldlM_error (proposeEntry w t.1)
      (InnerInv a w t.1 (done.map zeroTopic) rest (flatTotals done) t.2)
      (inner_step a w t.1 (done.map zeroTopic) rest (flatTotals done) t.2) q
      t.2.entries [] (s, t.2) hstart hf
    exact proposeEntry_error a w t.1 (done.map zeroTopic) rest (flatTotals done)
      (flatTotals rest) t.2 hflat hreg done' e rest' s₁ q hinv' he

theorem Propose_error (a : autoScaler D) (w : World) (hopen : a.mutex = true)
    (hreg : scalersRegistered a) (p : Panic) (herr : Propose a w = Except.error p) :
    p = Panic.multipleInputTopics := by
  have hstart : OuterInv a w [] a.totals.entries ⟨GoMap.empty, a, []⟩ := by
    refine ⟨rfl, rfl, ⟨⟨rfl, rfl, rfl, rfl⟩, rfl, rfl, fun _ _ => rfl, rfl, ?_⟩⟩
    intro fn hfn
    simp [flatTotals] at hfn
  unfold Propose lock at herr
  simp only [hopen, if_true] at herr
  have herr' : List.foldlM (proposeTopic w) ⟨GoMap.empty, a, []⟩ a.totals.entries =
      Except.error p := herr
  obtain ⟨done, t, rest, s₁, hinv, ht⟩ := foldlM_error (proposeTopic w) (OuterInv a w)
    (outer_step a w) p a.totals.entries [] _ hstart herr'
  exact proposeTopic_error a w hreg done t rest s₁ p hinv ht

theorem Propose_multipleInputTopics (a : autoScaler D) (w : World) (hopen : a.mutex = true)
    (hreg : scalersRegistered a) (hdup : ¬ singleTopic a) :
    Propose a w = Except.error Panic.multipleInputTopics := by
  cases h : Propose a w with
  | ok r => exact absurd ((Propose_ok_iff a w).mp ⟨r, h⟩).2.1 hdup
  | error p => rw [Propose_error a w hopen hreg p h]

theorem singleTopic_unique (a : autoScaler D) (hs : singleTopic a) (fn : FunctionId)
    (t₁ t₂ : String) (h₁ : monitored a t₁ fn = true) (h₂ : monitored a t₂ fn = true) :
    t₁ = t₂ := by
  obtain ⟨ft₁, hm₁, hc₁⟩ := exists_entry_of_monitored h₁
  obtain ⟨ft₂, hm₂, hc₂⟩ := exists_entry_of_monitored h₂
  by_contra hne
  unfold singleTopic flatTotals at hs
  rw [List.map_flatMap] at hs
  have hpw := (List.nodup_flatMap.mp hs).2
  have hsymm : Symmetric (fun (x y : String × GoMap FunctionId metricsTotals) =>
      List.Disjoint (List.map Prod.fst x.2.entries) (List.map Prod.fst y.2.entries)) := by
    intro x y h
    exact h.symm
  have hd := List.Pairwise.forall hsymm hpw hm₁ hm₂ (by
    intro c
    exact hne (congrArg Prod.fst c))
  rw [GoMap.contains_iff] at hc₁ hc₂
  exact hd hc₁ hc₂

end autoscaler

/-! ## Where an entry sits in a Go map -/

namespace GoMap

variable {K V : Type} [DecidableEq K]

theorem deleteL_of_not_mem (k : K) (l : List (K × V)) (h : k ∉ l.map Prod.fst) :
    deleteL k l = l := by
  unfold deleteL
  rw [List.filter_eq_self]
  intro e he
  have : e.1 ≠ k := by
    intro c
    exact h (c ▸ List.mem_map_of_mem Prod.fst he)
  simpa using this

theorem deleteL_mid (k : K) (v : V) (pre post : List (K × V)) (h₁ : k ∉ pre.map Prod.fst)
    (h₂ : k ∉ post.map Prod.fst) : deleteL k (pre ++ (k, v) :: post) = pre ++ post := by
  have e₁ := deleteL_of_not_mem k pre h₁
  have e₂ := deleteL_of_not_mem k post h₂
  unfold deleteL at e₁ e₂ ⊢
  rw [List.filter_append, List.filter_cons, e₁, e₂]
  simp

theorem split_of_get? {m : GoMap K V} {k : K} {v : V} (h : m.get? k = some v) :
    ∃ pre post, m.entries = pre ++ (k, v) :: post ∧ k ∉ pre.map Prod.fst ∧
      k ∉ post.map Prod.fst := by
  obtain ⟨pre, post, hsplit⟩ := List.append_of_mem (mem_entries_of_get? h)
  have hn := m.nodup
  rw [hsplit, List.map_append, List.map_cons] at hn
  refine ⟨pre, post, hsplit, ?_, ?_⟩
  · intro hk
    exact (List.nodup_append.mp hn).2.2 hk (List.mem_cons_self _ _)
  · intro hk
    exact (List.nodup_cons.mp (List.nodup_append.mp hn).2.1).1 hk

end GoMap

namespace autoscaler

variable {D : Delayer}

/-- The functions of the monitoring set, in visiting order, with repetitions. -/
theorem flatKeys_append (l₁ l₂ : List (String × GoMap FunctionId metricsTotals)) :
    (flatTotals (l₁ ++ l₂)).map Prod.fst =
      (flatTotals l₁).map Prod.fst ++ (flatTotals l₂).map Prod.fst := by
  rw [flatTotals_append, List.map_append]

theorem flatKeys_cons (t : String × GoMap FunctionId metricsTotals)
    (l : List (String × GoMap FunctionId metricsTotals)) :
    (flatTotals (t :: l)).map Prod.fst = t.2.keys ++ (flatTotals l).map Prod.fst := by
  simp [flatTotals, List.flatMap_cons, GoMap.keys]

theorem StartMonitoring_of_monitored (a : autoScaler D) (topic : String) (fn : FunctionId)
    (hopen : a.mutex = true) (hmon : monitored a topic fn = true) :
    StartMonitoring a topic fn =
      Except.ok (some (MonitorError.alreadyMonitoring topic fn), a) := by
  unfold monitored at hmon
  unfold StartMonitoring lock
  cases hg : a.totals.get? topic with
  | none => simp [hg] at hmon
  | some funcTotals =>
    simp only [hg] at hmon
    simp only [hopen, if_true, hmon]
    rfl

theorem singleTopic_StopMonitoring (a : autoScaler D) (topic : String) (fn : FunctionId)
    (hs : singleTopic a) : singleTopic (afterCall a (MonitorCall.stop topic fn)) := by
  simp only [afterCall]
  by_cases hopen : a.mutex = true
  · cases hmon : monitored a topic fn with
    | false =>
      rw [StopMonitoring_of_not_monitored a topic fn hopen hmon]
      exact hs
    | true =>
      have hmon' := hmon
      unfold monitored at hmon'
      cases hg : a.totals.get? topic with
      | none => simp [hg] at hmon'
      | some ft =>
        simp only [hg] at hmon'
        rw [StopMonitoring_of_monitored a topic fn ft hopen hg hmon']
        obtain ⟨pre, post, hsplit, hpre, hpost⟩ := GoMap.split_of_get? hg
        have hstore : (a.totals.store topic (ft.delete fn)).entries =
            pre ++ (topic, ft.delete fn) :: post := by
          show GoMap.storeL topic _ a.totals.entries = _
          rw [hsplit]
          exact GoMap.storeL_mid topic _ ft pre post hpre
        have hsub : List.Sublist (ft.delete fn).keys ft.keys := by
          unfold GoMap.keys GoMap.delete GoMap.deleteL
          exact List.Sublist.map _ (List.filter_sublist _)
        have hold : ((flatTotals a.totals.entries).map Prod.fst).Nodup := hs
        rw [hsplit, flatKeys_append, flatKeys_cons] at hold
        unfold singleTopic
        simp only
        split
        · have hdel : ((a.totals.store topic (ft.delete fn)).delete topic).entries =
              pre ++ post := by
            show GoMap.deleteL topic (a.totals.store topic (ft.delete fn)).entries = _
            rw [hstore]
            exact GoMap.deleteL_mid topic _ pre post hpre hpost
          rw [hdel, flatKeys_append]
          refine List.Nodup.sublist ?_ hold
          exact List.Sublist.append (List.Sublist.refl _) (List.sublist_append_right _ _)
        · rw [hstore, flatKeys_append, flatKeys_cons]
          refine List.Nodup.sublist ?_ hold
          exact List.Sublist.append (List.Sublist.refl _)
            (List.Sublist.append hsub (List.Sublist.refl _))
  · have hclosed : StopMonitoring a topic fn = Except.error Panic.nilMutex := by
      unfold StopMonitoring lock
      simp [hopen]
      rfl
    rw [hclosed]
    exact hs

theorem singleTopic_StartMonitoring (a : autoScaler D) (topic : String) (fn : FunctionId)
    (hs : singleTopic a) (hone : ∀ topic', monitored a topic' fn = true → topic' = topic) :
    singleTopic (afterCall a (MonitorCall.start topic fn)) := by
  simp only [afterCall]
  by_cases hopen : a.mutex = true
  · cases hmon : monitored a topic fn with
    | true =>
      rw [StartMonitoring_of_monitored a topic fn hopen hmon]
      exact hs
    | false =>
      have hnew : fn ∉ (flatTotals a.totals.entries).map Prod.fst := by
        rw [mem_flatTotals_keys_iff]
        rintro ⟨topic', h⟩
        have := hone topic' h
        subst this
        rw [hmon] at h
        cases h
      have hold : ((flatTotals a.totals.entries).map Prod.fst).Nodup := hs
      have hmon' := hmon
      unfold monitored at hmon'
      unfold StartMonitoring lock
      simp only [hopen, if_true]
      cases hg : a.totals.get? topic with
      | none =>
        have hk : topic ∉ a.totals.entries.map Prod.fst := GoMap.lookupL_eq_none.mp hg
        have hent : ((a.totals.store topic GoMap.empty).store topic
            (GoMap.empty.store fn metricsTotals.zero)).entries =
            a.totals.entries ++ [(topic, GoMap.empty.store fn metricsTotals.zero)] := by
          show GoMap.storeL topic _ (GoMap.storeL topic _ a.totals.entries) = _
          rw [GoMap.storeL_new _ _ _ hk]
          have := GoMap.storeL_mid topic (GoMap.empty.store fn metricsTotals.zero)
            (GoMap.empty : GoMap FunctionId metricsTotals) a.totals.entries [] hk
          exact this
        show singleTopic _
        unfold singleTopic
        simp only [GoMap.contains, GoMap.get?, GoMap.empty, GoMap.lookupL, Option.isSome_none,
          Bool.false_eq_true, if_false]
        show ((flatTotals ((a.totals.store topic GoMap.empty).store topic
            (GoMap.empty.store fn metricsTotals.zero)).entries).map Prod.fst).Nodup
        rw [hent, flatKeys_append, flatKeys_cons]
        have : (GoMap.empty.store fn metricsTotals.zero).keys = [fn] := by
          simp [GoMap.keys, GoMap.store, GoMap.storeL, GoMap.empty]
        rw [this]
        simp only [flatTotals, List.flatMap_nil, List.map_nil, List.append_nil]
        rw [List.nodup_append]
        refine ⟨hold, List.nodup_singleton fn, ?_⟩
        intro x hx hx'
        rw [List.mem_singleton] at hx'
        exact hnew (hx' ▸ hx)
      | some ft =>
        simp only [hg] at hmon'
        obtain ⟨pre, post, hsplit, hpre, _⟩ := GoMap.split_of_get? hg
        have hfn : fn ∉ ft.entries.map Prod.fst := GoMap.contains_eq_false.mp hmon'
        have hent : (a.totals.store topic (ft.store fn metricsTotals.zero)).entries =
            pre ++ (topic, ft.store fn metricsTotals.zero) :: post := by
          show GoMap.storeL topic _ a.totals.entries = _
          rw [hsplit]
          exact GoMap.storeL_mid topic _ ft pre post hpre
        have hkeys : (ft.store fn metricsTotals.zero).keys = ft.keys ++ [fn] := by
          show (GoMap.storeL fn _ ft.entries).map Prod.fst = _
          rw [GoMap.storeL_new _ _ _ hfn]
          simp [GoMap.keys]
        show singleTopic _
        unfold singleTopic
        simp only [hmon', Bool.false_eq_true, if_false]
        show ((flatTotals (a.totals.store topic
            (ft.store fn metricsTotals.zero)).entries).map Prod.fst).Nodup
        rw [hent, flatKeys_append, flatKeys_cons, hkeys]
        rw [hsplit, flatKeys_append, flatKeys_cons] at hold hnew
        have e : (flatTotals pre).map Prod.fst ++
            ((ft.keys ++ [fn]) ++ (flatTotals post).map Prod.fst) =
            ((flatTotals pre).map Prod.fst ++ ft.keys) ++
              fn :: (flatTotals post).map Prod.fst := by
          simp
        rw [e, List.nodup_middle, List.nodup_cons]
        refine ⟨?_, by simpa using hold⟩
        simpa using hnew
  · have hclosed : StartMonitoring a topic fn = Except.error Panic.nilMutex := by
      unfold StartMonitoring lock
      simp [hopen]
      rfl
    rw [hclosed]
    exact hs

theorem singleTopic_afterCalls (calls : List MonitorCall) :
    ∀ (a : autoScaler D), singleTopic a → oneTopicAtATime a calls →
      singleTopic (afterCalls a calls) := by
  induction calls with
  | nil => intro a hs _; exact hs
  | cons c rest ih =>
    intro a hs hone
    unfold afterCalls
    rw [List.foldl_cons]
    cases c with
    | start topic fn =>
      exact ih _ (singleTopic_StartMonitoring a topic fn hs hone.1) hone.2
    | stop topic fn =>
      exact ih _ (singleTopic_StopMonitoring a topic fn hs) hone

end autoscaler

/-! ## Folding metric events -/

namespace autoscaler

variable {D : Delayer}

theorem receiveProducerMetric_effect (a : autoScaler D) (pm : ProducerAggregateMetric)
    (hopen : a.mutex = true) :
    ∃ a', receiveProducerMetric a pm = Except.ok a' ∧
      (∀ topic fn, totalsOf a' topic fn =
        (totalsOf a topic fn).map
          (fun mt => if topic = pm.Topic then addTransmitted pm.Count mt else mt)) ∧
      a'.scalers = a.scalers ∧ a'.replicas = a.replicas ∧ a'.maxReplicas = a.maxReplicas ∧
      a'.delayScaleDown = a.delayScaleDown ∧ a'.mutex = a.mutex ∧
      (a.totals.contains pm.Topic = false → a' = a) := by
  unfold receiveProducerMetric lock
  rw [if_pos hopen]
  cases hg : a.totals.get? pm.Topic with
  | none =>
    refine ⟨a, rfl, ?_, rfl, rfl, rfl, rfl, rfl, fun _ => rfl⟩
    intro topic fn
    by_cases ht : topic = pm.Topic
    · subst ht
      simp [totalsOf, hg]
    · simp [ht]
  | some ft =>
    refine ⟨_, rfl, ?_, rfl, rfl, rfl, rfl, rfl, ?_⟩
    · intro topic fn
      unfold totalsOf
      simp only
      by_cases ht : topic = pm.Topic
      · subst ht
        rw [GoMap.get?_store_same, hg]
        simp only [Option.some_bind, if_true]
        rw [GoMap.get?_mapValues]
        rfl
      · rw [GoMap.get?_store_ne _ _ ht]
        simp [ht]
    · intro h
      simp [GoMap.contains, hg] at h

theorem receiveConsumerMetric_effect (a : autoScaler D) (cm : ConsumerAggregateMetric)
    (hopen : a.mutex = true) :
    ∃ a', receiveConsumerMetric a cm = Except.ok a' ∧
      (∀ topic fn, totalsOf a' topic fn =
        (totalsOf a topic fn).map
          (fun mt => if topic = cm.Topic ∧ fn = ⟨cm.ConsumerGroup⟩
            then addReceived cm.Count mt else mt)) ∧
      a'.scalers = a.scalers ∧ a'.replicas = a.replicas ∧ a'.maxReplicas = a.maxReplicas ∧
      a'.delayScaleDown = a.delayScaleDown ∧ a'.mutex = a.mutex ∧
      (monitored a cm.Topic ⟨cm.ConsumerGroup⟩ = false → a' = a) := by
  unfold receiveConsumerMetric lock
  rw [if_pos hopen]
  cases hg : a.totals.get? cm.Topic with
  | none =>
    refine ⟨a, rfl, ?_, rfl, rfl, rfl, rfl, rfl, fun _ => rfl⟩
    intro topic fn
    by_cases ht : topic = cm.Topic
    · subst ht
      simp [totalsOf, hg]
    · simp [ht]
  | some ft =>
    dsimp only
    cases hf : ft.get? ⟨cm.ConsumerGroup⟩ with
    | none =>
      refine ⟨a, rfl, ?_, rfl, rfl, rfl, rfl, rfl, fun _ => rfl⟩
      intro topic fn
      by_cases ht : topic = cm.Topic ∧ fn = ⟨cm.ConsumerGroup⟩
      · obtain ⟨h1, h2⟩ := ht
        subst h1 h2
        simp [totalsOf, hg, hf]
      · simp [ht]
    | some mt =>
      refine ⟨_, rfl, ?_, rfl, rfl, rfl, rfl, rfl, ?_⟩
      · intro topic fn
        unfold totalsOf
        simp only
        by_cases ht : topic = cm.Topic
        · subst ht
          rw [GoMap.get?_store_same, hg]
          simp only [Option.some_bind, true_and]
          by_cases hfn : fn = ⟨cm.ConsumerGroup⟩
          · subst hfn
            rw [GoMap.get?_store_same, hf]
            simp [addReceived]
          · rw [GoMap.get?_store_ne _ _ hfn]
            simp [hfn]
        · rw [GoMap.get?_store_ne _ _ ht]
          simp [ht]
      · intro h
        simp [monitored, hg, GoMap.contains, hf] at h

end autoscaler

/-! ## The backoff policy -/

theorem wrapInt64_of_fits {x : Int} (h₁ : -(2 ^ 63) ≤ x) (h₂ : x < 2 ^ 63) : wrapInt64 x = x := by
  unfold wrapInt64
  norm_num at h₁ h₂ ⊢
  omega

theorem wrapInt64_mul_left (x m : Int) : wrapInt64 (wrapInt64 x * m) = wrapInt64 (x * m) := by
  unfold wrapInt64
  have h : (x + 2 ^ 63) % 2 ^ 64 - 2 ^ 63 = x - 2 ^ 64 * ((x + 2 ^ 63) / 2 ^ 64) := by
    have := Int.emod_add_ediv (x + 2 ^ 63) (2 ^ 64)
    linarith
  rw [h]
  have e : (x - 2 ^ 64 * ((x + 2 ^ 63) / 2 ^ 64)) * m + 2 ^ 63 =
      (x * m + 2 ^ 63) + 2 ^ 64 * (-(((x + 2 ^ 63) / 2 ^ 64) * m)) := by ring
  rw [e, Int.add_mul_emod_self_left]

namespace backoff

theorem NewBackoff_ok (d n m : Int) (hd : 0 < d) (hn : 0 < n) (hm : 0 < m) :
    NewBackoff d n m = Except.ok ⟨n, 0, m, d⟩ := by
  unfold NewBackoff
  rw [if_neg (by omega), if_neg (by omega), if_neg (by omega)]

theorem NewBackoff_error (d n m : Int) (h : d ≤ 0 ∨ n ≤ 0 ∨ m ≤ 0) :
    ∃ e, NewBackoff d n m = Except.error e := by
  unfold NewBackoff
  by_cases hn : n ≤ 0
  · exact ⟨_, if_pos hn⟩
  · rw [if_neg hn]
    by_cases hm : m ≤ 0
    · exact ⟨_, if_pos hm⟩
    · rw [if_neg hm]
      have hd : d ≤ 0 := by omega
      exact ⟨_, if_pos hd⟩

/-- One call of `Backoff()` after `j` earlier calls on a `Backoff` fresh from
`NewBackoff`. -/
theorem Backoff_after (d n m : Int) (j : Nat) (hj : ((j + 1 : Nat) : Int) < 2 ^ 63) :
    (⟨n, j, m, sleepOf d m j⟩ : Backoff).Backoff =
      if ((j + 1 : Nat) : Int) ≤ n
      then ⟨true, some (sleepOf d m (j + 1)), ⟨n, ((j + 1 : Nat) : Int), m, sleepOf d m (j + 1)⟩⟩
      else ⟨false, none, ⟨n, ((j + 1 : Nat) : Int), m, sleepOf d m (j + 1)⟩⟩ := by
  have hr : wrapInt64 ((j : Int) + 1) = ((j + 1 : Nat) : Int) := by
    rw [wrapInt64_of_fits (by omega) (by push_cast at hj; omega)]
    push_cast
    rfl
  have hdur : (if (j : Int) > 0 then wrapInt64 (sleepOf d m j * m) else sleepOf d m j) =
      sleepOf d m (j + 1) := by
    unfold sleepOf
    rcases Nat.lt_trichotomy j 1 with h | h | h
    · have : j = 0 := by omega
      subst this
      simp
    · subst h
      simp
    · have h1 : (j : Int) > 0 := by omega
      have h2 : ¬ j ≤ 1 := by omega
      have h3 : ¬ j + 1 ≤ 1 := by omega
      rw [if_pos h1, if_neg h2, if_neg h3, wrapInt64_mul_left]
      have : j + 1 - 1 = (j - 1) + 1 := by omega
      rw [this, pow_succ, mul_assoc]
  unfold Backoff.Backoff
  simp only [hr, hdur]

/-- The `Backoff` after `j` calls, for a `Backoff` fresh from `NewBackoff`. -/
theorem afterBackoffs_eq (d n m : Int) (j : Nat) (hj : (j : Int) < 2 ^ 63) :
    afterBackoffs ⟨n, 0, m, d⟩ j = ⟨n, j, m, sleepOf d m j⟩ := by
  induction j with
  | zero => simp [afterBackoffs, sleepOf]
  | succ j ih =>
    have hj' : (j : Int) < 2 ^ 63 := by push_cast at hj; omega
    rw [afterBackoffs, ih hj', Backoff_after d n m j hj]
    split <;> rfl

/-- The `k`-th call of `Backoff()` on a `Backoff` fresh from `NewBackoff`. -/
theorem kthBackoff_eq (d n m : Int) (k : Nat) (hk : 1 ≤ k) (hk2 : (k : Int) < 2 ^ 63) :
    kthBackoff ⟨n, 0, m, d⟩ k =
      if (k : Int) ≤ n then ⟨true, some (sleepOf d m k), ⟨n, k, m, sleepOf d m k⟩⟩
      else ⟨false, none, ⟨n, k, m, sleepOf d m k⟩⟩ := by
  obtain ⟨j, rfl⟩ : ∃ j, k = j + 1 := ⟨k - 1, by omega⟩
  unfold kthBackoff
  have hj' : (j : Int) < 2 ^ 63 := by push_cast at hk2; omega
  rw [Nat.add_sub_cancel, afterBackoffs_eq d n m j hj', Backoff_after d n m j hk2]

theorem sleepOf_of_fits (d m : Int) (k : Nat) (hk : 1 ≤ k) (hd : 0 < d) (hm : 0 < m)
    (hfit : d * m ^ (k - 1) < 2 ^ 63) : sleepOf d m k = d * m ^ (k - 1) := by
  unfold sleepOf
  by_cases h : k ≤ 1
  · have : k = 1 := by omega
    subst this
    simp
  · rw [if_neg h]
    apply wrapInt64_of_fits _ hfit
    have : 0 < d * m ^ (k - 1) := mul_pos hd (pow_pos hm _)
    omega

end backoff

/-! ## The dispatch loop -/

namespace sidecar

open backoff

theorem backoffDelays_succ (d m : Int) (j : Nat) :
    backoffDelays d m (j + 1) = backoffDelays d m j ++ [sleepOf d m (j + 1)] := by
  unfold backoffDelays
  rw [List.range_succ, List.map_append]
  rfl

theorem createDispatcher_of_supported (env : Environment) (protocol : String) (i : Nat)
    (hp : protocol = "http" ∨ protocol = "grpc") :
    createDispatcher env protocol i =
      if env.constructs protocol i then Created.dispatcher else Created.err := by
  unfold createDispatcher
  rcases hp with h | h
  · subst h
    simp
  · subst h
    simp

theorem mainLoop_dispatches (d n m : Int) (protocol : String) (env : Environment)
    (hp : protocol = "http" ∨ protocol = "grpc") (hsig : ∀ i, env.signalPending i = false)
    (k : Nat) (hk : (k : Int) ≤ n) (hn : n < 2 ^ 63)
    (hfail : ∀ i, i < k → env.constructs protocol i = false)
    (hsucc : env.constructs protocol k = true) :
    ∀ (r j fuel : Nat), j + r = k → r + 1 ≤ fuel →
      mainLoop false protocol env fuel j ⟨n, j, m, sleepOf d m j⟩ (backoffDelays d m j) =
        some ⟨LoopEnd.dispatched, backoffDelays d m k⟩ := by
  intro r
  induction r with
  | zero =>
    intro j fuel hj hfuel
    have : j = k := by omega
    subst this
    obtain ⟨f, rfl⟩ : ∃ f, fuel = f + 1 := ⟨fuel - 1, by omega⟩
    unfold mainLoop
    rw [hsig, createDispatcher_of_supported env protocol j hp, hsucc]
    rfl
  | succ r ih =>
    intro j fuel hj hfuel
    obtain ⟨f, rfl⟩ : ∃ f, fuel = f + 1 := ⟨fuel - 1, by omega⟩
    unfold mainLoop
    rw [hsig, createDispatcher_of_supported env protocol j hp, hfail j (by omega)]
    have hj1 : ((j + 1 : Nat) : Int) ≤ n := by
      have : ((j + 1 : Nat) : Int) ≤ (k : Int) := by exact_mod_cast (by omega : j + 1 ≤ k)
      omega
    have hb : backoffOrExit false ⟨n, j, m, sleepOf d m j⟩ =
        ⟨true, some (sleepOf d m (j + 1)), ⟨n, ((j + 1 : Nat) : Int), m, sleepOf d m (j + 1)⟩⟩ := by
      unfold backoffOrExit
      simp only [Bool.false_eq_true, if_false]
      rw [Backoff_after d n m j (by omega), if_pos hj1]
    simp only [Bool.false_eq_true, if_false, hb, if_true, Option.toList_some]
    rw [← backoffDelays_succ]
    exact ih (j + 1) f (by omega) (by omega)

theorem mainLoop_gives_up (d n m : Int) (protocol : String) (env : Environment)
    (hp : protocol = "http" ∨ protocol = "grpc") (hsig : ∀ i, env.signalPending i = false)
    (hn0 : 0 < n) (hn : n + 1 < 2 ^ 63)
    (hfail : ∀ i : Nat, (i : Int) ≤ n → env.constructs protocol i = false) :
    ∀ (r j fuel : Nat), j + r = n.toNat → r + 1 ≤ fuel →
      mainLoop false protocol env fuel j ⟨n, j, m, sleepOf d m j⟩ (backoffDelays d m j) =
        some ⟨LoopEnd.fatal, backoffDelays d m n.toNat⟩ := by
  have hN : ((n.toNat : Nat) : Int) = n := Int.toNat_of_nonneg (by omega)
  intro r
  induction r with
  | zero =>
    intro j fuel hj hfuel
    have hjn : j = n.toNat := by omega
    have hjn' : (j : Int) = n := by rw [hjn, hN]
    obtain ⟨f, rfl⟩ : ∃ f, fuel = f + 1 := ⟨fuel - 1, by omega⟩
    unfold mainLoop
    rw [hsig, createDispatcher_of_supported env protocol j hp, hfail j (by omega)]
    have hj1 : ¬ ((j + 1 : Nat) : Int) ≤ n := by push_cast; omega
    have hb : (backoffOrExit false ⟨n, j, m, sleepOf d m j⟩).retry = false := by
      unfold backoffOrExit
      simp only [Bool.false_eq_true, if_false]
      rw [Backoff_after d n m j (by push_cast; omega), if_neg hj1]
    simp only [Bool.false_eq_true, if_false, hb]
    rw [hjn]
  | succ r ih =>
    intro j fuel hj hfuel
    obtain ⟨f, rfl⟩ : ∃ f, fuel = f + 1 := ⟨fuel - 1, by omega⟩
    have hjn : ((j + 1 : Nat) : Int) ≤ n := by
      rw [← hN]
      exact_mod_cast (by omega : j + 1 ≤ n.toNat)
    unfold mainLoop
    rw [hsig, createDispatcher_of_supported env protocol j hp,
      hfail j (by push_cast at hjn; omega)]
    have hb : backoffOrExit false ⟨n, j, m, sleepOf d m j⟩ =
        ⟨true, some (sleepOf d m (j + 1)), ⟨n, ((j + 1 : Nat) : Int), m, sleepOf d m (j + 1)⟩⟩ := by
      unfold backoffOrExit
      simp only [Bool.false_eq_true, if_false]
      rw [Backoff_after d n m j (by omega), if_pos hjn]
    simp only [Bool.false_eq_true, if_false, hb, if_true, Option.toList_some]
    rw [← backoffDelays_succ]
    exact ih (j + 1) f (by omega) (by omega)

theorem backoffDelays_of_fits (d m : Int) (k : Nat) (hk : 1 ≤ k) (hd : 0 < d) (hm : 0 < m)
    (hfit : d * m ^ (k - 1) < 2 ^ 63) :
    backoffDelays d m k = (List.range k).map (fun i => d * m ^ i) := by
  unfold backoffDelays
  apply List.map_congr_left
  intro i hi
  have hik : i < k := List.mem_range.mp hi
  have h := sleepOf_of_fits d m (i + 1) (by omega) hd hm (by
    rw [Nat.add_sub_cancel]
    have hpow : m ^ i ≤ m ^ (k - 1) := pow_le_pow_right₀ (by omega) (by omega)
    have : d * m ^ i ≤ d * m ^ (k - 1) := mul_le_mul_of_nonneg_left hpow (by omega)
    omega)
  rw [h, Nat.add_sub_cancel]

theorem backoffDelays_length (d m : Int) (k : Nat) : (backoffDelays d m k).length = k := by
  simp [backoffDelays]

end sidecar

/-! ## The claims about `StopMonitoring`, `Propose` on several topics, and the metric events -/

namespace autoscaler

/-- C11 (amended). For every engine state that has not been closed and every pair of topic
and function that is not in the monitoring set (unknown topic, or known topic without that
function), `StopMonitoring` returns an error and leaves the engine as it is: totals, scalers
and replica counts are unchanged. -/
theorem StopMonitoring_not_monitoring {D : Delayer} (a : autoScaler D) (topic : String)
    (fn : FunctionId) (hopen : a.mutex = true) (hnot : monitored a topic fn = false) :
    StopMonitoring a topic fn = Except.ok (some (MonitorError.notMonitoring topic fn), a) :=
  StopMonitoring_of_not_monitored a topic fn hopen hnot

/-- C11, witness: on an engine that monitors `F` on "T", stopping `F` on the unknown topic
"U" and stopping the unknown function "G" on "T" both return the error and the same
engine. -/
theorem StopMonitoring_not_monitoring_witness :
    StopMonitoring (monitoring 1 ⟨100, 25⟩) "U" F =
      Except.ok (some (MonitorError.notMonitoring "U" F), monitoring 1 ⟨100, 25⟩) ∧
    StopMonitoring (monitoring 1 ⟨100, 25⟩) "T" ⟨"G"⟩ =
      Except.ok (some (MonitorError.notMonitoring "T" ⟨"G"⟩), monitoring 1 ⟨100, 25⟩) :=
  ⟨StopMonitoring_not_monitoring (monitoring 1 ⟨100, 25⟩) "U" F rfl (by decide),
   StopMonitoring_not_monitoring (monitoring 1 ⟨100, 25⟩) "T" ⟨"G"⟩ rfl (by decide)⟩

/-- C11, counterexample: on a closed engine, `StopMonitoring` for the pair of "U" and `F`,
which is not monitored, does not return an error: it panics on the `nil` mutex. -/
theorem StopMonitoring_panics_when_closed :
    monitored (closed 1 ⟨100, 25⟩) "U" F = false ∧
    StopMonitoring (closed 1 ⟨100, 25⟩) "U" F = Except.error Panic.nilMutex :=
  ⟨by decide, rfl⟩

/-- C12 (amended). For every engine state that has not been closed and every monitored pair
of topic and function, `StopMonitoring` returns nil and afterwards the pair is no longer in
the monitoring set, the topic key is removed exactly when no other function remains under
it, the function has no scaler, and the totals of every other pair, the scalers of the
other functions, all replica counts and the policies are unchanged. -/
theorem StopMonitoring_removes_pair {D : Delayer} (a : autoScaler D) (topic : String)
    (fn : FunctionId) (hopen : a.mutex = true) (hmon : monitored a topic fn = true) :
    ∃ a', StopMonitoring a topic fn = Except.ok (none, a') ∧
      monitored a' topic fn = false ∧
      (a'.totals.contains topic = false ↔ ∀ fn', fn' ≠ fn → monitored a topic fn' = false) ∧
      a'.scalers.contains fn = false ∧
      (∀ topic' fn', (topic' ≠ topic ∨ fn' ≠ fn) →
        totalsOf a' topic' fn' = totalsOf a topic' fn') ∧
      (∀ fn', fn' ≠ fn → a'.scalers.get? fn' = a.scalers.get? fn') ∧
      a'.replicas = a.replicas ∧ a'.maxReplicas = a.maxReplicas ∧
      a'.delayScaleDown = a.delayScaleDown ∧ a'.mutex = a.mutex :=
  StopMonitoring_effect a topic fn hopen hmon

/-- C12, witness: stopping `F` on "T1" on the engine that monitors `F` on "T1" and "T2"
meets the conditions, and leaves the engine `orphaned`. -/
theorem StopMonitoring_removes_pair_witness :
    (∃ a', StopMonitoring twoTopics "T1" F = Except.ok (none, a') ∧
      monitored a' "T1" F = false ∧
      (a'.totals.contains "T1" = false ↔
        ∀ fn', fn' ≠ F → monitored twoTopics "T1" fn' = false) ∧
      a'.scalers.contains F = false ∧
      (∀ topic' fn', (topic' ≠ "T1" ∨ fn' ≠ F) →
        totalsOf a' topic' fn' = totalsOf twoTopics topic' fn') ∧
      (∀ fn', fn' ≠ F → a'.scalers.get? fn' = twoTopics.scalers.get? fn') ∧
      a'.replicas = twoTopics.replicas ∧ a'.maxReplicas = twoTopics.maxReplicas ∧
      a'.delayScaleDown = twoTopics.delayScaleDown ∧ a'.mutex = twoTopics.mutex) ∧
    StopMonitoring twoTopics "T1" F = Except.ok (none, orphaned) :=
  ⟨StopMonitoring_removes_pair twoTopics "T1" F rfl (by decide), rfl⟩

/-- C12, counterexample: on a closed engine that has the pair of "T" and `F` registered,
`StopMonitoring("T", F)` does not return nil: it panics on the `nil` mutex. -/
theorem StopMonitoring_monitored_panics_when_closed :
    monitored (closed 1 ⟨100, 25⟩) "T" F = true ∧
    StopMonitoring (closed 1 ⟨100, 25⟩) "T" F = Except.error Panic.nilMutex :=
  ⟨by decide, rfl⟩

/-- C13 (amended). For every engine state in which some function is registered under two or
more topics, `Propose` does not return a proposal map, whatever order the topics are visited
in; when the engine has not been closed and every monitored function has a scaler, it
panics with the violation "Functions with multiple input topics are not supported". -/
theorem Propose_multiple_topics {D : Delayer} (a : autoScaler D) (w : World) (fn : FunctionId)
    (topic₁ topic₂ : String) (hne : topic₁ ≠ topic₂) (h₁ : monitored a topic₁ fn = true)
    (h₂ : monitored a topic₂ fn = true) :
    (∀ r, Propose a w ≠ Except.ok r) ∧
    (a.mutex = true → scalersRegistered a →
      Propose a w = Except.error Panic.multipleInputTopics) := by
  have hdup : ¬ singleTopic a := fun hs => hne (singleTopic_unique a hs fn topic₁ topic₂ h₁ h₂)
  constructor
  · intro r hr
    exact hdup ((Propose_ok_iff a w).mp ⟨r, hr⟩).2.1
  · intro hopen hreg
    exact Propose_multipleInputTopics a w hopen hreg hdup

/-- C13, witness: with `F` monitored on "T1" and "T2" and its scaler in place, `Propose`
panics with the violation. -/
theorem Propose_multiple_topics_witness :
    Propose twoTopics emptyQueues = Except.error Panic.multipleInputTopics :=
  (Propose_multiple_topics twoTopics emptyQueues F "T1" "T2" (by decide) (by decide)
    (by decide)).2 rfl (by unfold scalersRegistered; decide)

/-- C13, counterexample: after `StartMonitoring` of `F` on "T1", "T2" and "T3" and
`StopMonitoring("T1", F)` on a fresh engine, `F` is registered under the two topics "T2"
and "T3", and `Propose` panics on the missing scaler of `F`, not with the violation; on a
closed engine with `F` under two topics it panics on the `nil` mutex. -/
theorem Propose_multiple_topics_other_panics :
    afterCalls (NewAutoScaler : autoScaler Delayer.passThrough)
      [MonitorCall.start "T1" F, MonitorCall.start "T2" F, MonitorCall.start "T3" F,
        MonitorCall.stop "T1" F] = orphanedTwice ∧
    monitored orphanedTwice "T2" F = true ∧ monitored orphanedTwice "T3" F = true ∧
    Propose orphanedTwice emptyQueues = Except.error Panic.nilScaler ∧
    monitored { twoTopics with mutex := false } "T1" F = true ∧
    monitored { twoTopics with mutex := false } "T2" F = true ∧
    Propose { twoTopics with mutex := false } emptyQueues = Except.error Panic.nilMutex :=
  ⟨rfl, by decide, by decide, rfl, by decide, by decide, rfl⟩

/-- C14 (amended). In every engine state reached from `NewAutoScaler` through a sequence of
`StartMonitoring` and `StopMonitoring` calls in which `StartMonitoring` is never called for
a function that is at that moment registered under another topic, each function appears
under at most one topic of the monitoring set. -/
theorem one_topic_per_function {D : Delayer} (calls : List MonitorCall)
    (hone : oneTopicAtATime (NewAutoScaler : autoScaler D) calls) (fn : FunctionId)
    (topic₁ topic₂ : String)
    (h₁ : monitored (afterCalls (NewAutoScaler : autoScaler D) calls) topic₁ fn = true)
    (h₂ : monitored (afterCalls (NewAutoScaler : autoScaler D) calls) topic₂ fn = true) :
    topic₁ = topic₂ := by
  have h0 : singleTopic (NewAutoScaler : autoScaler D) := by
    unfold singleTopic
    simp [flatTotals, NewAutoScaler, GoMap.empty]
  exact singleTopic_unique _ (singleTopic_afterCalls calls _ h0 hone) fn topic₁ topic₂ h₁ h₂

/-- C14, witness: start `F` on "T1", stop it, start it on "T2": `F` is monitored on "T2"
alone. -/
theorem one_topic_per_function_witness :
    monitored (afterCalls (NewAutoScaler : autoScaler Delayer.passThrough)
      [MonitorCall.start "T1" F, MonitorCall.stop "T1" F, MonitorCall.start "T2" F]) "T2" F
      = true ∧ "T2" = "T2" :=
  ⟨by decide,
   one_topic_per_function (D := Delayer.passThrough)
    [MonitorCall.start "T1" F, MonitorCall.stop "T1" F, MonitorCall.start "T2" F]
    ⟨fun _ h => Bool.noConfusion h, fun _ h => Bool.noConfusion h, trivial⟩
    F "T2" "T2" (by decide) (by decide)⟩

/-- C14, counterexample: `StartMonitoring("T1", F)` and `StartMonitoring("T2", F)` on a
fresh engine both succeed and leave `F` registered under two topics. -/
theorem two_topics_reachable :
    StartMonitoring (NewAutoScaler : autoScaler Delayer.passThrough) "T1" F =
      Except.ok (none, monitoringOnly "T1" F metricsTotals.zero () GoMap.empty) ∧
    StartMonitoring (monitoringOnly "T1" F metricsTotals.zero () GoMap.empty) "T2" F =
      Except.ok (none, twoTopics) ∧
    afterCalls (NewAutoScaler : autoScaler Delayer.passThrough)
      [MonitorCall.start "T1" F, MonitorCall.start "T2" F] = twoTopics ∧
    monitored twoTopics "T1" F = true ∧ monitored twoTopics "T2" F = true ∧ "T1" ≠ "T2" :=
  ⟨rfl, rfl, rfl, by decide, by decide, by decide⟩

/-- C15 (amended). On an engine that has not been closed, for every function id (monitored
or not) and every count, `InformFunctionReplicas(id, count)` succeeds and afterwards the
recorded replica count of id is count, while the replica counts of all other functions, the
monitoring set with its totals, the scalers and the policies are unchanged. -/
theorem InformFunctionReplicas_records {D : Delayer} (a : autoScaler D) (fn : FunctionId)
    (n : Int) (hopen : a.mutex = true) :
    ∃ a', InformFunctionReplicas a fn n = Except.ok a' ∧ replicasOf a' fn = n ∧
      (∀ fn', fn' ≠ fn → replicasOf a' fn' = replicasOf a fn') ∧
      a'.totals = a.totals ∧ a'.scalers = a.scalers ∧ a'.maxReplicas = a.maxReplicas ∧
      a'.delayScaleDown = a.delayScaleDown ∧ a'.mutex = a.mutex := by
  refine ⟨_, InformFunctionReplicas_effect a fn n hopen, ?_, ?_, rfl, rfl, rfl, rfl, rfl⟩
  · unfold replicasOf
    simp only [GoMap.get?_store_same, Option.getD_some]
  · intro fn' hne
    unfold replicasOf
    simp only [GoMap.get?_store_ne _ _ hne]

/-- C15, witness: informing a fresh engine, which monitors nothing, of 3 replicas of `F`
records 3. -/
theorem InformFunctionReplicas_records_witness :
    (∃ a', InformFunctionReplicas (NewAutoScaler : autoScaler Delayer.passThrough) F 3 =
        Except.ok a' ∧ replicasOf a' F = 3 ∧
      (∀ fn', fn' ≠ F → replicasOf a' fn' = replicasOf
        (NewAutoScaler : autoScaler Delayer.passThrough) fn') ∧
      a'.totals = (NewAutoScaler : autoScaler Delayer.passThrough).totals ∧
      a'.scalers = (NewAutoScaler : autoScaler Delayer.passThrough).scalers ∧
      a'.maxReplicas = (NewAutoScaler : autoScaler Delayer.passThrough).maxReplicas ∧
      a'.delayScaleDown = (NewAutoScaler : autoScaler Delayer.passThrough).delayScaleDown ∧
      a'.mutex = (NewAutoScaler : autoScaler Delayer.passThrough).mutex) ∧
    InformFunctionReplicas (NewAutoScaler : autoScaler Delayer.passThrough) F 3 =
      Except.ok (informed 3) :=
  ⟨InformFunctionReplicas_records (NewAutoScaler : autoScaler Delayer.passThrough) F 3 rfl, rfl⟩

/-- C15, counterexample: on a closed engine `InformFunctionReplicas(F, 3)` does not succeed:
it panics on the `nil` mutex. -/
theorem InformFunctionReplicas_panics_when_closed :
    InformFunctionReplicas (closed 1 ⟨100, 25⟩) F 3 = Except.error Panic.nilMutex :=
  rfl

/-- C16 (amended). On an engine that has not been closed, folding a producer metric
`{topic, count}` replaces the `transmitCount` of every function registered under that topic
by its `int32` sum with count (their sum when it fits `int32`, the sum wrapped around
otherwise) and changes nothing else: no `receiveCount`, no entry under another topic, no set
of monitored pairs, no scaler, replica count or policy; when the topic is not monitored the
engine state is unchanged. -/
theorem receiveProducerMetric_adds {D : Delayer} (a : autoScaler D)
    (pm : ProducerAggregateMetric) (hopen : a.mutex = true) :
    ∃ a', receiveProducerMetric a pm = Except.ok a' ∧
      (∀ topic fn, totalsOf a' topic fn =
        (totalsOf a topic fn).map
          (fun mt => if topic = pm.Topic then addTransmitted pm.Count mt else mt)) ∧
      (∀ mt, IsInt32 (mt.transmitCount + pm.Count) →
        addTransmitted pm.Count mt = ⟨mt.transmitCount + pm.Count, mt.receiveCount⟩) ∧
      a'.scalers = a.scalers ∧ a'.replicas = a.replicas ∧ a'.maxReplicas = a.maxReplicas ∧
      a'.delayScaleDown = a.delayScaleDown ∧ a'.mutex = a.mutex ∧
      (a.totals.contains pm.Topic = false → a' = a) := by
  obtain ⟨a', h1, h2, h3, h4, h5, h6, h7, h8⟩ := receiveProducerMetric_effect a pm hopen
  refine ⟨a', h1, h2, ?_, h3, h4, h5, h6, h7, h8⟩
  intro mt hfit
  unfold addTransmitted
  rw [wrapInt32_of_IsInt32 hfit]

/-- C16, witness: folding 40 produced on "T" into the totals 60 and 25 of `F` gives 100 and
25. -/
theorem receiveProducerMetric_adds_witness :
    (∃ a', receiveProducerMetric (monitoring 1 ⟨60, 25⟩) ⟨"T", 40⟩ = Except.ok a' ∧
      (∀ topic fn, totalsOf a' topic fn =
        (totalsOf (monitoring 1 ⟨60, 25⟩) topic fn).map
          (fun mt => if topic = "T" then addTransmitted 40 mt else mt)) ∧
      (∀ mt, IsInt32 (mt.transmitCount + 40) →
        addTransmitted 40 mt = ⟨mt.transmitCount + 40, mt.receiveCount⟩) ∧
      a'.scalers = (monitoring 1 ⟨60, 25⟩).scalers ∧
      a'.replicas = (monitoring 1 ⟨60, 25⟩).replicas ∧
      a'.maxReplicas = (monitoring 1 ⟨60, 25⟩).maxReplicas ∧
      a'.delayScaleDown = (monitoring 1 ⟨60, 25⟩).delayScaleDown ∧
      a'.mutex = (monitoring 1 ⟨60, 25⟩).mutex ∧
      ((monitoring 1 ⟨60, 25⟩).totals.contains "T" = false → a' = monitoring 1 ⟨60, 25⟩)) ∧
    receiveProducerMetric (monitoring 1 ⟨60, 25⟩) ⟨"T", 40⟩ =
      Except.ok (monitoring 1 ⟨100, 25⟩) :=
  ⟨receiveProducerMetric_adds (monitoring 1 ⟨60, 25⟩) ⟨"T", 40⟩ rfl, rfl⟩

/-- C16, counterexample: folding 1 produced on "T" into a `transmitCount` of `2^31 - 1`
gives `-2^31`, not `2^31`; and on a closed engine the fold panics on the `nil` mutex. -/
theorem receiveProducerMetric_wraps :
    receiveProducerMetric (monitoring 1 ⟨2147483647, 0⟩) ⟨"T", 1⟩ =
      Except.ok (monitoring 1 ⟨-2147483648, 0⟩) ∧
    totalsOf (monitoring 1 ⟨-2147483648, 0⟩) "T" F = some ⟨-2147483648, 0⟩ ∧
    (-2147483648 : Int) ≠ 2147483647 + 1 ∧
    receiveProducerMetric (closed 1 ⟨60, 25⟩) ⟨"T", 40⟩ = Except.error Panic.nilMutex :=
  ⟨rfl, by decide, by decide, rfl⟩

/-- C17 (amended). On an engine that has not been closed, folding a consumer metric
`{topic, consumerGroup, count}` replaces the `receiveCount` of exactly the entry of topic
and `FunctionId{consumerGroup}` by its `int32` sum with count (their sum when it fits
`int32`, the sum wrapped around otherwise) and changes nothing else; when that pair is not
monitored (unknown topic or unknown function under the topic) the engine state is
unchanged. -/
theorem receiveConsumerMetric_adds {D : Delayer} (a : autoScaler D)
    (cm : ConsumerAggregateMetric) (hopen : a.mutex = true) :
    ∃ a', receiveConsumerMetric a cm = Except.ok a' ∧
      (∀ topic fn, totalsOf a' topic fn =
        (totalsOf a topic fn).map
          (fun mt => if topic = cm.Topic ∧ fn = ⟨cm.ConsumerGroup⟩
            then addReceived cm.Count mt else mt)) ∧
      (∀ mt, IsInt32 (mt.receiveCount + cm.Count) →
        addReceived cm.Count mt = ⟨mt.transmitCount, mt.receiveCount + cm.Count⟩) ∧
      a'.scalers = a.scalers ∧ a'.replicas = a.replicas ∧ a'.maxReplicas = a.maxReplicas ∧
      a'.delayScaleDown = a.delayScaleDown ∧ a'.mutex = a.mutex ∧
      (monitored a cm.Topic ⟨cm.ConsumerGroup⟩ = false → a' = a) := by
  obtain ⟨a', h1, h2, h3, h4, h5, h6, h7, h8⟩ := receiveConsumerMetric_effect a cm hopen
  refine ⟨a', h1, h2, ?_, h3, h4, h5, h6, h7, h8⟩
  intro mt hfit
  unfold addReceived
  rw [wrapInt32_of_IsInt32 hfit]

/-- C17, witness: folding 5 consumed by "F" on "T" into the totals 100 and 20 of `F` gives
100 and 25. -/
theorem receiveConsumerMetric_adds_witness :
    (∃ a', receiveConsumerMetric (monitoring 1 ⟨100, 20⟩) ⟨"T", "F", 5⟩ = Except.ok a' ∧
      (∀ topic fn, totalsOf a' topic fn =
        (totalsOf (monitoring 1 ⟨100, 20⟩) topic fn).map
          (fun mt => if topic = "T" ∧ fn = ⟨"F"⟩ then addReceived 5 mt else mt)) ∧
      (∀ mt, IsInt32 (mt.receiveCount + 5) →
        addReceived 5 mt = ⟨mt.transmitCount, mt.receiveCount + 5⟩) ∧
      a'.scalers = (monitoring 1 ⟨100, 20⟩).scalers ∧
      a'.replicas = (monitoring 1 ⟨100, 20⟩).replicas ∧
      a'.maxReplicas = (monitoring 1 ⟨100, 20⟩).maxReplicas ∧
      a'.delayScaleDown = (monitoring 1 ⟨100, 20⟩).delayScaleDown ∧
      a'.mutex = (monitoring 1 ⟨100, 20⟩).mutex ∧
      (monitored (monitoring 1 ⟨100, 20⟩) "T" ⟨"F"⟩ = false → a' = monitoring 1 ⟨100, 20⟩)) ∧
    receiveConsumerMetric (monitoring 1 ⟨100, 20⟩) ⟨"T", "F", 5⟩ =
      Except.ok (monitoring 1 ⟨100, 25⟩) :=
  ⟨receiveConsumerMetric_adds (monitoring 1 ⟨100, 20⟩) ⟨"T", "F", 5⟩ rfl, rfl⟩

/-- C17, counterexample: folding 1 consumed by "F" on "T" into a `receiveCount` of
`2^31 - 1` gives `-2^31`, not `2^31`; and on a closed engine the fold panics on the `nil`
mutex. -/
theorem receiveConsumerMetric_wraps :
    receiveConsumerMetric (monitoring 1 ⟨0, 2147483647⟩) ⟨"T", "F", 1⟩ =
      Except.ok (monitoring 1 ⟨0, -2147483648⟩) ∧
    totalsOf (monitoring 1 ⟨0, -2147483648⟩) "T" F = some ⟨0, -2147483648⟩ ∧
    (-2147483648 : Int) ≠ 2147483647 + 1 ∧
    receiveConsumerMetric (closed 1 ⟨100, 20⟩) ⟨"T", "F", 5⟩ = Except.error Panic.nilMutex :=
  ⟨rfl, by decide, by decide, rfl⟩

end autoscaler

/-! ## The claims about the backoff policy and the dispatch loop -/

namespace backoff

theorem NewBackoff_ok_inv {d n m : Int} {b : Backoff} (h : NewBackoff d n m = Except.ok b) :
    0 < d ∧ 0 < n ∧ 0 < m ∧ b = ⟨n, 0, m, d⟩ := by
  by_cases hbad : d ≤ 0 ∨ n ≤ 0 ∨ m ≤ 0
  · obtain ⟨e, he⟩ := NewBackoff_error d n m hbad
    rw [he] at h
    cases h
  · have hd : 0 < d := by omega
    have hn : 0 < n := by omega
    have hm : 0 < m := by omega
    rw [NewBackoff_ok d n m hd hn hm] at h
    exact ⟨hd, hn, hm, (Except.ok.inj h).symm⟩

/-- C18. `NewBackoff(duration, maxRetries, multiplier)` returns an error, and no `Backoff`,
if and only if at least one of duration, maxRetries, multiplier is `<= 0`; otherwise it
returns a `Backoff` holding exactly those three values with a retry counter of 0. -/
theorem NewBackoff_contract (duration maxRetries multiplier : Int) :
    ((∃ e, NewBackoff duration maxRetries multiplier = Except.error e) ↔
      (duration ≤ 0 ∨ maxRetries ≤ 0 ∨ multiplier ≤ 0)) ∧
    (¬ (duration ≤ 0 ∨ maxRetries ≤ 0 ∨ multiplier ≤ 0) →
      NewBackoff duration maxRetries multiplier =
        Except.ok { maxRetries := maxRetries, retries := 0, multiplier := multiplier,
                    duration := duration }) := by
  have hok : ¬ (duration ≤ 0 ∨ maxRetries ≤ 0 ∨ multiplier ≤ 0) →
      NewBackoff duration maxRetries multiplier =
        Except.ok { maxRetries := maxRetries, retries := 0, multiplier := multiplier,
                    duration := duration } := by
    intro h
    exact NewBackoff_ok duration maxRetries multiplier (by omega) (by omega) (by omega)
  refine ⟨⟨?_, NewBackoff_error duration maxRetries multiplier⟩, hok⟩
  rintro ⟨e, he⟩
  by_contra hgood
  rw [hok hgood] at he
  cases he

/-- C18, witness: one second, 3 retries and multiplier 2 give a `Backoff`; a multiplier of 0
gives an error. -/
theorem NewBackoff_contract_witness :
    NewBackoff 1000000000 3 2 = Except.ok ⟨3, 0, 2, 1000000000⟩ ∧
    (∃ e, NewBackoff 1000000000 3 0 = Except.error e) :=
  ⟨(NewBackoff_contract 1000000000 3 2).2 (by decide),
   (NewBackoff_contract 1000000000 3 0).1.mpr (by decide)⟩

/-- C19 (amended). For a `Backoff` built with base duration `d`, `maxRetries` `n` and
multiplier `m`, the `k`-th call to `Backoff()`, for `1 <= k < 2^63`, returns true exactly
when `k <= n`; when it returns true it sleeps `d * m^(k-1)` as computed in `time.Duration`,
which is `d * m^(k-1)` whenever that fits 64 bits; when it returns false it does not
sleep. -/
theorem Backoff_kth_call (d n m : Int) (b : Backoff) (hb : NewBackoff d n m = Except.ok b)
    (k : Nat) (hk : 1 ≤ k) (hk2 : (k : Int) < 2 ^ 63) :
    ((kthBackoff b k).retry = true ↔ (k : Int) ≤ n) ∧
    ((k : Int) ≤ n → (kthBackoff b k).slept = some (sleepOf d m k)) ∧
    ((k : Int) ≤ n → d * m ^ (k - 1) < 2 ^ 63 →
      (kthBackoff b k).slept = some (d * m ^ (k - 1))) ∧
    (n < (k : Int) → (kthBackoff b k).slept = none) := by
  obtain ⟨hd, _, hm, rfl⟩ := NewBackoff_ok_inv hb
  rw [kthBackoff_eq d n m k hk hk2]
  by_cases hle : (k : Int) ≤ n
  · rw [if_pos hle]
    refine ⟨⟨fun _ => hle, fun _ => rfl⟩, fun _ => rfl, ?_, fun h => absurd hle (by omega)⟩
    intro _ hfit
    rw [← sleepOf_of_fits d m k hk hd hm hfit]
  · rw [if_neg hle]
    refine ⟨⟨fun h => ?_, fun h => absurd h hle⟩, fun h => absurd h hle,
      fun h => absurd h hle, fun _ => rfl⟩
    simp at h

/-- C19, witness: built with one second, 3 retries and multiplier 2, the first three calls
sleep 1 s, 2 s and 4 s and return true, and the 4th returns false without sleeping. -/
theorem Backoff_kth_call_witness :
    (kthBackoff ⟨3, 0, 2, 1000000000⟩ 1).slept = some (1000000000 * 2 ^ (1 - 1)) ∧
    (kthBackoff ⟨3, 0, 2, 1000000000⟩ 2).slept = some (1000000000 * 2 ^ (2 - 1)) ∧
    (kthBackoff ⟨3, 0, 2, 1000000000⟩ 3).slept = some (1000000000 * 2 ^ (3 - 1)) ∧
    (kthBackoff ⟨3, 0, 2, 1000000000⟩ 3).retry = true ∧
    (kthBackoff ⟨3, 0, 2, 1000000000⟩ 4).slept = none ∧
    ¬ (kthBackoff ⟨3, 0, 2, 1000000000⟩ 4).retry = true :=
  ⟨(Backoff_kth_call 1000000000 3 2 _ rfl 1 (by decide) (by decide)).2.2.1 (by decide)
      (by decide),
   (Backoff_kth_call 1000000000 3 2 _ rfl 2 (by decide) (by decide)).2.2.1 (by decide)
      (by decide),
   (Backoff_kth_call 1000000000 3 2 _ rfl 3 (by decide) (by decide)).2.2.1 (by decide)
      (by decide),
   (Backoff_kth_call 1000000000 3 2 _ rfl 3 (by decide) (by decide)).1.mpr (by decide),
   (Backoff_kth_call 1000000000 3 2 _ rfl 4 (by decide) (by decide)).2.2.2 (by decide),
   fun h => absurd ((Backoff_kth_call 1000000000 3 2 _ rfl 4 (by decide) (by decide)).1.mp h)
      (by decide)⟩

/-- C19, counterexample: built with 4 ns, 2 retries and multiplier `2^62`, the 2nd call
returns true and sleeps 0 ns, not `4 * 2^62` ns, since the product wraps around; and built
with 1 ns, 1 retry and multiplier 1, the call number `2^63` returns true although `2^63 > 1`,
since the retry counter wraps around. -/
theorem Backoff_wraps :
    NewBackoff 4 2 4611686018427387904 = Except.ok ⟨2, 0, 4611686018427387904, 4⟩ ∧
    (kthBackoff ⟨2, 0, 4611686018427387904, 4⟩ 2).retry = true ∧
    (kthBackoff ⟨2, 0, 4611686018427387904, 4⟩ 2).slept = some 0 ∧
    (4 : Int) * 4611686018427387904 ^ (2 - 1) ≠ 0 ∧
    NewBackoff 1 1 1 = Except.ok ⟨1, 0, 1, 1⟩ ∧
    (kthBackoff ⟨1, 0, 1, 1⟩ 9223372036854775808).retry = true := by
  refine ⟨rfl, by decide, by decide, by decide, rfl, ?_⟩
  have h := afterBackoffs_eq 1 1 1 9223372036854775807 (by decide)
  have e : (9223372036854775808 : Nat) - 1 = 9223372036854775807 := by decide
  unfold kthBackoff
  rw [e, h]
  unfold Backoff.Backoff
  have hw : wrapInt64 (((9223372036854775807 : Nat) : Int) + 1) ≤ 1 := by decide
  simp only [hw, if_true]

end backoff

namespace sidecar

open backoff

/-- C20 (amended). In the dispatch loop of the sidecar with fail-fast (`exitOnComplete`)
off, a supported protocol, no termination signal pending and a `Backoff` built with base
duration `d`, `maxRetries` `n` and multiplier `m`: if dispatcher construction fails `k`
times and then succeeds with `k <= n`, exactly `k` backoff delays occur before steady-state
dispatch (`carrier.Run`) begins, the delays being `d, d*m, ..., d*m^(k-1)` as computed in
`time.Duration`, which are these products whenever `d*m^(k-1)` fits 64 bits; if construction
keeps failing and `n < 2^63 - 1`, the loop performs exactly `n` delays and then aborts
fatally without ever dispatching. -/
theorem dispatch_loop_backs_off (d n m : Int) (b : Backoff)
    (hb : NewBackoff d n m = Except.ok b) (hn : n < 2 ^ 63) (protocol : String)
    (hp : protocol = "http" ∨ protocol = "grpc") (env : Environment)
    (hsig : ∀ i, env.signalPending i = false) :
    (∀ k fuel : Nat, (k : Int) ≤ n → (∀ i, i < k → env.constructs protocol i = false) →
      env.constructs protocol k = true → k + 1 ≤ fuel →
      mainLoop false protocol env fuel 0 b [] =
        some ⟨LoopEnd.dispatched, backoffDelays d m k⟩ ∧
      (backoffDelays d m k).length = k ∧
      (1 ≤ k → d * m ^ (k - 1) < 2 ^ 63 →
        backoffDelays d m k = (List.range k).map (fun i => d * m ^ i))) ∧
    (∀ fuel : Nat, n + 1 < 2 ^ 63 →
      (∀ i : Nat, (i : Int) ≤ n → env.constructs protocol i = false) →
      n.toNat + 1 ≤ fuel →
      mainLoop false protocol env fuel 0 b [] =
        some ⟨LoopEnd.fatal, backoffDelays d m n.toNat⟩ ∧
      (backoffDelays d m n.toNat).length = n.toNat) := by
  obtain ⟨hd, hn0, hm, rfl⟩ := NewBackoff_ok_inv hb
  have hstart : (⟨n, 0, m, d⟩ : Backoff) = ⟨n, ((0 : Nat) : Int), m, sleepOf d m 0⟩ := by
    simp [sleepOf]
  constructor
  · intro k fuel hk hfail hsucc hfuel
    refine ⟨?_, backoffDelays_length d m k, fun hk1 hfit =>
      backoffDelays_of_fits d m k hk1 hd hm hfit⟩
    rw [hstart]
    exact mainLoop_dispatches d n m protocol env hp hsig k hk hn hfail hsucc k 0 fuel
      (by omega) hfuel
  · intro fuel hn1 hfail hfuel
    refine ⟨?_, backoffDelays_length d m n.toNat⟩
    rw [hstart]
    exact mainLoop_gives_up d n m protocol env hp hsig hn0 hn1 hfail n.toNat 0 fuel
      (by omega) hfuel

/-- C20, witness: with 1000 ns, 3 retries and multiplier 2, two failures followed by a
success give the delays 1000 and 2000 before dispatch; failures throughout give the delays
1000, 2000 and 4000 and then the fatal end. -/
theorem dispatch_loop_backs_off_witness :
    mainLoop false "http" (failsThenSucceeds 2) 3 0 ⟨3, 0, 2, 1000⟩ [] =
      some ⟨LoopEnd.dispatched, backoffDelays 1000 2 2⟩ ∧
    backoffDelays 1000 2 2 = [1000, 2000] ∧
    mainLoop false "grpc" alwaysFails 4 0 ⟨3, 0, 2, 1000⟩ [] =
      some ⟨LoopEnd.fatal, backoffDelays 1000 2 3⟩ ∧
    backoffDelays 1000 2 3 = [1000, 2000, 4000] :=
  ⟨((dispatch_loop_backs_off 1000 3 2 _ rfl (by decide) "http" (Or.inl rfl)
      (failsThenSucceeds 2) (fun _ => rfl)).1 2 3 (by decide)
      (fun i hi => by simp [failsThenSucceeds]; omega) (by decide) (by decide)).1,
   by decide,
   ((dispatch_loop_backs_off 1000 3 2 _ rfl (by decide) "grpc" (Or.inr rfl)
      alwaysFails (fun _ => rfl)).2 4 (by decide) (fun _ _ => rfl) (by decide)).1,
   by decide⟩

/-- C20, counterexample: with 4 ns, 2 retries and multiplier `2^62`, two failures followed
by a success give the delays 4 and 0, not 4 and `4 * 2^62`; and with `2^63 - 1` retries the
backoff still allows a retry after `2^63 - 1` failures, so that the loop does not abort
after `maxBackoffRetries` delays. -/
theorem dispatch_loop_delays_wrap :
    NewBackoff 4 2 4611686018427387904 = Except.ok ⟨2, 0, 4611686018427387904, 4⟩ ∧
    mainLoop false "http" (failsThenSucceeds 2) 3 0 ⟨2, 0, 4611686018427387904, 4⟩ [] =
      some ⟨LoopEnd.dispatched, [4, 0]⟩ ∧
    (4 : Int) * 4611686018427387904 ≠ 0 ∧
    NewBackoff 1 9223372036854775807 1 = Except.ok ⟨9223372036854775807, 0, 1, 1⟩ ∧
    (backoffOrExit false
      (afterBackoffs ⟨9223372036854775807, 0, 1, 1⟩ 9223372036854775807)).retry = true := by
  refine ⟨rfl, by decide, by decide, rfl, ?_⟩
  rw [afterBackoffs_eq 1 9223372036854775807 1 9223372036854775807 (by decide)]
  unfold backoffOrExit Backoff.Backoff
  have hw : wrapInt64 (((9223372036854775807 : Nat) : Int) + 1) ≤ 9223372036854775807 := by
    decide
  simp only [Bool.false_eq_true, if_false, hw, if_true]

end sidecar

namespace sidecar

open backoff

/-- C21. When `exitOnComplete` is set, `backoffOrExit` returns false without a call of
`Backoff()`: nothing is slept and the `Backoff` is left as it is, so that the first failure
to construct a dispatcher ends the loop with `panic(err)` and no delay; when it is not set,
`backoffOrExit` is the call `Backoff()`, with its result, its sleep and the `Backoff` it
leaves. -/
theorem backoffOrExit_fail_fast (b : Backoff) :
    backoffOrExit true b = ⟨false, none, b⟩ ∧
    backoffOrExit false b = b.Backoff ∧
    (∀ (protocol : String) (env : Environment) (fuel i : Nat) (delays : List Int),
      (protocol = "http" ∨ protocol = "grpc") → env.signalPending i = false →
      env.constructs protocol i = false →
      mainLoop true protocol env (fuel + 1) i b delays = some ⟨LoopEnd.fatal, delays⟩) := by
  refine ⟨rfl, rfl, ?_⟩
  intro protocol env fuel i delays hp hsig hfail
  unfold mainLoop
  rw [hsig, createDispatcher_of_supported env protocol i hp, hfail]
  rfl

/-- C21, witness: with fail-fast on, the loop ends fatally at the first failure, without
any delay, although the backoff would allow three retries. -/
theorem backoffOrExit_fail_fast_witness :
    mainLoop true "grpc" alwaysFails 1 0 ⟨3, 0, 2, 1000⟩ [] = some ⟨LoopEnd.fatal, []⟩ ∧
    (backoffOrExit false ⟨3, 0, 2, 1000⟩).retry = true :=
  ⟨(backoffOrExit_fail_fast ⟨3, 0, 2, 1000⟩).2.2 "grpc" alwaysFails 0 0 [] (Or.inr rfl) rfl rfl,
   by decide⟩

/-- C22 (amended). The function `grpcContextTimeout` returns 60 seconds whenever
`exitOnComplete` is set; otherwise it returns `initialDelayMs` milliseconds as computed in
`time.Duration` when `initialDelayMs > 0`, which is that many milliseconds whenever the
product fits 64 bits, and 100 milliseconds when `initialDelayMs <= 0`. -/
theorem grpcContextTimeout_cases (exitOnComplete : Bool) (initialDelayMs : Int) :
    (exitOnComplete = true → grpcContextTimeout exitOnComplete initialDelayMs = 60 * Second) ∧
    (exitOnComplete = false → 0 < initialDelayMs →
      grpcContextTimeout exitOnComplete initialDelayMs =
        wrapInt64 (initialDelayMs * Millisecond)) ∧
    (exitOnComplete = false → 0 < initialDelayMs → initialDelayMs * Millisecond < 2 ^ 63 →
      grpcContextTimeout exitOnComplete initialDelayMs = initialDelayMs * Millisecond) ∧
    (exitOnComplete = false → initialDelayMs ≤ 0 →
      grpcContextTimeout exitOnComplete initialDelayMs = 100 * Millisecond) := by
  refine ⟨?_, ?_, ?_, ?_⟩
  · rintro rfl
    rfl
  · rintro rfl h
    simp [grpcContextTimeout, h]
  · rintro rfl h hfit
    have h0 : 0 ≤ initialDelayMs * Millisecond := by
      unfold Millisecond
      omega
    simp only [grpcContextTimeout, Bool.false_eq_true, if_false, gt_iff_lt, h, if_true]
    exact wrapInt64_of_fits (by omega) hfit
  · rintro rfl h
    have : ¬ initialDelayMs > 0 := by omega
    simp [grpcContextTimeout, this]

/-- C22, witness: 60 s with fail-fast on, 5 s for an initial delay of 5000 ms, and 100 ms
without an initial delay. -/
theorem grpcContextTimeout_cases_witness :
    grpcContextTimeout true 5000 = 60 * Second ∧
    grpcContextTimeout false 5000 = 5000 * Millisecond ∧
    grpcContextTimeout false 0 = 100 * Millisecond :=
  ⟨(grpcContextTimeout_cases true 5000).1 rfl,
   (grpcContextTimeout_cases false 5000).2.2.1 rfl (by decide) (by decide),
   (grpcContextTimeout_cases false 0).2.2.2 rfl (by decide)⟩

/-- C22, counterexample: for an initial delay of 9223372036855 ms the product with
`time.Millisecond` wraps around, and the timeout returned is negative. -/
theorem grpcContextTimeout_wraps :
    grpcContextTimeout false 9223372036855 = -9223372036854551616 ∧
    grpcContextTimeout false 9223372036855 ≠ 9223372036855 * Millisecond ∧
    (0 : Int) < 9223372036855 := by
  refine ⟨by decide, by decide, by decide⟩

end sidecar

namespace sidecar

open backoff

/-- C30. Started without the flag `inputs`, the sidecar passes both count checks and
`NewBackoff`, and `inputs[0]` then panics with an index out of range; in general that panic
is met exactly when `inputs` is empty, `outputs` has at most one element and the backoff
flags are valid. -/
theorem mainHead_index_out_of_range :
    mainHead defaultFlags = MainHead.indexOutOfRange ∧
    (∀ f : Flags, mainHead f = MainHead.indexOutOfRange ↔
      f.inputs = [] ∧ f.outputs.length ≤ 1 ∧
        ∃ b, NewBackoff (wrapInt64 (f.backoffDurationMs * Millisecond)) f.backoffMaxRetries
          f.backoffMultiplier = Except.ok b) := by
  refine ⟨by decide, ?_⟩
  intro f
  unfold mainHead
  by_cases h1 : f.inputs.length > 1
  · rw [if_pos h1]
    constructor
    · intro h
      cases h
    · rintro ⟨h, -⟩
      rw [h] at h1
      simp at h1
  rw [if_neg h1]
  by_cases h2 : f.outputs.length > 1
  · rw [if_pos h2]
    constructor
    · intro h
      cases h
    · rintro ⟨-, h, -⟩
      omega
  rw [if_neg h2]
  cases hb : NewBackoff (wrapInt64 (f.backoffDurationMs * Millisecond)) f.backoffMaxRetries
      f.backoffMultiplier with
  | error e =>
    constructor
    · intro h
      cases h
    · rintro ⟨-, -, b, hb'⟩
      cases hb'
  | ok b =>
    cases hi : f.inputs with
    | nil =>
      simp only [List.getElem?_nil]
      exact ⟨fun _ => ⟨trivial, by omega, b, rfl⟩, fun _ => trivial⟩
    | cons x xs =>
      simp only [List.getElem?_cons_zero]
      constructor
      · intro h
        cases h
      · rintro ⟨h, -⟩
        cases h

end sidecar

namespace utils

variable {σ : Type}

theorem postRunEBody_length (commands : List (Command σ)) (s : σ) :
    postRunEBody commands commands.length s =
      Except.error (ChainPanic.indexOutOfRange commands.length commands.length) := by
  unfold postRunEBody
  rw [List.getElem?_eq_none (Nat.le_refl _)]

theorem postRunE_eq (commands : List (Command σ)) (s : σ) :
    postRunE commands s =
      Except.error (ChainPanic.indexOutOfRange commands.length commands.length) := by
  unfold postRunE
  cases h : commands.length with
  | zero =>
    have := postRunEBody_length commands s
    rw [h] at this
    exact this
  | succ n =>
    have := postRunEBody_length commands s
    rw [h] at this
    unfold postRunELoop
    rw [this]

/-- C26. The closure `postRunE` of a chain of two commands whose `PostRunE` hooks return nil
panics with an index out of range and runs neither hook; and so it does for every list of
commands, the empty one included: its first pass reads `commands[len(commands)]`. -/
theorem postRunE_index_out_of_range :
    postRunE [tracing "c1", tracing "c2"] [] =
      Except.error (ChainPanic.indexOutOfRange 2 2) ∧
    ∀ (τ : Type) (commands : List (Command τ)) (s : τ), postRunE commands s =
      Except.error (ChainPanic.indexOutOfRange commands.length commands.length) :=
  ⟨rfl, fun _ commands s => postRunE_eq commands s⟩

end utils

/-! ## The closed engine -/

namespace autoscaler

variable {D : Delayer}

theorem lock_of_closed (a : autoScaler D) (h : a.mutex = false) :
    lock a = Except.error Panic.nilMutex := by
  unfold lock
  rw [h]
  rfl

theorem Close_of_closed (a : autoScaler D) (c : Channels) (h : a.mutex = false) :
    Close a c = Except.error Panic.nilMutex := by
  unfold Close
  rw [lock_of_closed a h]
  rfl

theorem Run_of_closed (a : autoScaler D) (c : Channels) (h : a.mutex = false) :
    Run a c = Except.error Panic.nilMutex := by
  unfold Run
  rw [lock_of_closed a h]
  rfl

theorem Close_returned (a a' : autoScaler D) (c c' : Channels)
    (h : Close a c = Except.ok (CloseEnd.returned a' c')) :
    a' = { a with mutex := false } ∧ a.mutex = true := by
  unfold Close at h
  cases hm : a.mutex with
  | false =>
    rw [lock_of_closed a hm] at h
    cases h
  | true =>
    have hl : lock a = Except.ok () := by
      unfold lock
      rw [hm]
      rfl
    rw [hl] at h
    refine ⟨?_, rfl⟩
    cases hs : c.stop with
    | true =>
      simp only [hs] at h
      cases h
    | false =>
      simp only [hs] at h
      cases h1 : (stopReceiveLoops { c with stop := true }).1.accumulatingStopped with
      | false =>
        have h' : (pure CloseEnd.blocked : Except Panic (CloseEnd D)) =
            Except.ok (CloseEnd.returned a' c') := by
          simpa [h1, bind, Except.bind] using h
        cases h'
      | true =>
        have h' : (pure (CloseEnd.returned { a with mutex := false }
            (stopReceiveLoops { c with stop := true }).1) :
            Except Panic (CloseEnd D)) = Except.ok (CloseEnd.returned a' c') := by
          simpa [h1, bind, Except.bind] using h
        injection h' with h'
        injection h' with h2 h3
        exact h2.symm

theorem Close_of_receiving (a : autoScaler D) (n : Nat) (h : a.mutex = true) :
    Close a ⟨false, false, n + 1⟩ =
      Except.ok (CloseEnd.returned { a with mutex := false } ⟨true, true, 0⟩) := by
  unfold Close lock
  rw [if_pos h]
  rfl

end autoscaler

namespace autoscaler

variable {D : Delayer}

theorem StartMonitoring_of_closed (a : autoScaler D) (topic : String) (fn : FunctionId)
    (h : a.mutex = false) : StartMonitoring a topic fn = Except.error Panic.nilMutex := by
  unfold StartMonitoring
  rw [lock_of_closed a h]
  rfl

theorem StopMonitoring_of_closed (a : autoScaler D) (topic : String) (fn : FunctionId)
    (h : a.mutex = false) : StopMonitoring a topic fn = Except.error Panic.nilMutex := by
  unfold StopMonitoring
  rw [lock_of_closed a h]
  rfl

theorem InformFunctionReplicas_of_closed (a : autoScaler D) (fn : FunctionId) (n : Int)
    (h : a.mutex = false) : InformFunctionReplicas a fn n = Except.error Panic.nilMutex := by
  unfold InformFunctionReplicas
  rw [lock_of_closed a h]
  rfl

theorem Propose_of_closed (a : autoScaler D) (w : World) (h : a.mutex = false) :
    Propose a w = Except.error Panic.nilMutex := by
  unfold Propose
  rw [lock_of_closed a h]
  rfl

/-- C24. On the engine that `Close` leaves when it returns, the calls of `Run`,
`InformFunctionReplicas`, `StartMonitoring`, `StopMonitoring`, `Propose` and `Close` panic
on the `nil` mutex, but `SetMaxReplicasPolicy` and `SetDelayScaleDownPolicy`, which do not
touch the mutex, complete normally and install the policy they are given. -/
theorem closed_engine_takes_policies :
    Close (monitoring 1 ⟨100, 25⟩) ⟨false, false, 1⟩ =
      Except.ok (CloseEnd.returned (closed 1 ⟨100, 25⟩) ⟨true, true, 0⟩) ∧
    (SetMaxReplicasPolicy (closed 1 ⟨100, 25⟩) (fun _ => 7)).maxReplicas F = 7 ∧
    (closed 1 ⟨100, 25⟩).maxReplicas F = MaxInt ∧
    (SetDelayScaleDownPolicy (closed 1 ⟨100, 25⟩) (fun _ => 5)).delayScaleDown F = 5 ∧
    (closed 1 ⟨100, 25⟩).delayScaleDown F = 0 ∧
    Run (closed 1 ⟨100, 25⟩) ⟨true, true, 0⟩ = Except.error Panic.nilMutex ∧
    InformFunctionReplicas (closed 1 ⟨100, 25⟩) F 2 = Except.error Panic.nilMutex ∧
    StartMonitoring (closed 1 ⟨100, 25⟩) "T2" F = Except.error Panic.nilMutex ∧
    StopMonitoring (closed 1 ⟨100, 25⟩) "T" F = Except.error Panic.nilMutex ∧
    Propose (closed 1 ⟨100, 25⟩) emptyQueues = Except.error Panic.nilMutex ∧
    Close (closed 1 ⟨100, 25⟩) ⟨true, true, 0⟩ = Except.error Panic.nilMutex :=
  ⟨rfl, rfl, rfl, rfl, rfl, rfl, rfl, rfl, rfl, rfl, rfl⟩

/-- C25. For every engine on which `Close` has returned, a second call of `Close` panics
on the `nil` mutex, whatever the state of the channels, instead of returning nil. -/
theorem Close_twice_panics (a a' : autoScaler D) (c c' : Channels)
    (h : Close a c = Except.ok (CloseEnd.returned a' c')) :
    a'.mutex = false ∧ ∀ c'', Close a' c'' = Except.error Panic.nilMutex := by
  have hm : a'.mutex = false := by
    rw [(Close_returned a a' c c' h).1]
  exact ⟨hm, fun c'' => Close_of_closed a' c'' hm⟩

/-- C25, witness: `Close` returns on an engine whose receive loop is running, and also when
`Run` has started two receive loops, one of which then panics in its own goroutine; in both
cases the second call of `Close` panics on the `nil` mutex. -/
theorem Close_twice_panics_witness :
    Close (monitoring 1 ⟨100, 25⟩) ⟨false, false, 1⟩ =
      Except.ok (CloseEnd.returned (closed 1 ⟨100, 25⟩) ⟨true, true, 0⟩) ∧
    Close (closed 1 ⟨100, 25⟩) ⟨true, true, 0⟩ = Except.error Panic.nilMutex ∧
    Close (monitoring 1 ⟨100, 25⟩) ⟨false, false, 2⟩ =
      Except.ok (CloseEnd.returned (closed 1 ⟨100, 25⟩) ⟨true, true, 0⟩) ∧
    (stopReceiveLoops ⟨true, false, 2⟩).2 = 1 ∧
    (∀ c, Close (closed 1 ⟨100, 25⟩) c = Except.error Panic.nilMutex) :=
  ⟨rfl, (Close_twice_panics (monitoring 1 ⟨100, 25⟩) (closed 1 ⟨100, 25⟩) ⟨false, false, 1⟩
    ⟨true, true, 0⟩ rfl).2 ⟨true, true, 0⟩, rfl, rfl,
   (Close_twice_panics (monitoring 1 ⟨100, 25⟩) (closed 1 ⟨100, 25⟩) ⟨false, false, 2⟩
    ⟨true, true, 0⟩ rfl).2⟩

end autoscaler

/-! ## The scaler up to the cooldown -/

namespace autoscaler

variable {D : Delayer}

theorem pipeline_eq_beforeCooldown (a : autoScaler D) (w : World) (fn : FunctionId)
    (mt : metricsTotals) :
    pipeline a w fn mt = (beforeCooldown a w fn mt >>= delay a w fn) := by
  rw [pipeline_eq]
  unfold beforeCooldown
  rw [decorate_eq_foldl]
  rfl

theorem limitScalingDown_value (a : autoScaler D) (w : World) (fn : FunctionId) (p : Int)
    (e : Effects D) :
    (limitScalingDown a w fn p e).1 = p ∨ (p = 0 ∧ (limitScalingDown a w fn p e).1 = 1) := by
  by_cases h : p = 0 ∧ replicasOf a fn ≠ 0
  · unfold limitScalingDown
    simp only [h, ne_eq, not_false_eq_true, and_self, if_true]
    simp only [bind, StateT.bind]
    generalize emptyQueue a w fn e = res
    obtain ⟨⟨b, n⟩, s⟩ := res
    cases b with
    | true =>
      left
      simp only [if_true]
      exact h.1.symm ▸ rfl
    | false =>
      right
      exact ⟨trivial, rfl⟩
  · left
    rw [limitScalingDown_same a w fn p e (by tauto)]

theorem beforeCooldown_value (a : autoScaler D) (w : World) (fn : FunctionId)
    (mt : metricsTotals) (e : Effects D) :
    (beforeCooldown a w fn mt e).1 ≤ a.maxReplicas fn ∨
      (a.maxReplicas fn ≤ 0 ∧ (beforeCooldown a w fn mt e).1 = 1) := by
  unfold beforeCooldown
  rw [decorate_eq_foldl]
  simp only [List.foldl_cons, List.foldl_nil, bind, StateT.bind]
  generalize metricsScaler a fn mt e = r0
  obtain ⟨p0, e0⟩ := r0
  simp only
  have hup := limitScalingUp_value a fn p0 e0
  generalize limitScalingUp a fn p0 e0 = r1 at hup
  obtain ⟨p1, e1⟩ := r1
  simp only at hup ⊢
  have hle : p1 ≤ a.maxReplicas fn := by
    rw [hup]
    split_ifs with h
    · exact le_refl _
    · omega
  rcases limitScalingDown_value a w fn p1 e1 with h | ⟨h0, h1⟩
  · left
    rw [h]
    exact hle
  · by_cases hm : 1 ≤ a.maxReplicas fn
    · left
      rw [h1]
      exact hm
    · right
      exact ⟨by omega, h1⟩

end autoscaler

namespace autoscaler

variable {D : Delayer}

/-- C28 (amended). For every function whose maximum replica count policy returns `m >= 0`,
and for all totals, replica counts and answers of the inspector, the replica count that the
base scaler followed by `limitScalingUp` and `limitScalingDown` hands to the cooldown is at
most `m` when `m >= 1`; when `m = 0` it is at most 0, or it is the 1 that
`limitScalingDown` proposes. -/
theorem beforeCooldown_at_most_max (a : autoScaler D) (w : World) (fn : FunctionId)
    (mt : metricsTotals) (e : Effects D) (hm : 0 ≤ a.maxReplicas fn) :
    ((beforeCooldown a w fn mt e).1 ≤ a.maxReplicas fn ∨
      (a.maxReplicas fn = 0 ∧ (beforeCooldown a w fn mt e).1 = 1)) ∧
    (1 ≤ a.maxReplicas fn → (beforeCooldown a w fn mt e).1 ≤ a.maxReplicas fn) ∧
    pipeline a w fn mt = (beforeCooldown a w fn mt >>= delay a w fn) := by
  refine ⟨?_, ?_, pipeline_eq_beforeCooldown a w fn mt⟩
  · rcases beforeCooldown_value a w fn mt e with h | ⟨h0, h⟩
    · exact Or.inl h
    · exact Or.inr ⟨by omega, h⟩
  · intro h1
    rcases beforeCooldown_value a w fn mt e with h | ⟨h0, -⟩
    · exact h
    · omega

/-- C28, witness: with one replica, 100 messages transmitted, 25 received and a maximum of
2, the value handed to the cooldown is at most 2. -/
theorem beforeCooldown_at_most_max_witness :
    (beforeCooldown { monitoring 1 ⟨100, 25⟩ with maxReplicas := fun _ => 2 } queuesOfThree F
      ⟨100, 25⟩ noEffects).1 ≤ 2 :=
  (beforeCooldown_at_most_max { monitoring 1 ⟨100, 25⟩ with maxReplicas := fun _ => 2 }
    queuesOfThree F ⟨100, 25⟩ noEffects (by decide)).2.1 (by decide)

/-- C28, counterexample: `F` is monitored on "T" with one replica and a maximum of 0; with
nothing transmitted the base scaler proposes 0, the clamp leaves 0, and since the queue has
length 3 the floor hands 1 to the cooldown, which exceeds the maximum. -/
theorem beforeCooldown_exceeds_zero_max :
    monitored (cappedAtZero ⟨0, 0⟩) "T" F = true ∧
    (cappedAtZero ⟨0, 0⟩).maxReplicas F = 0 ∧
    (beforeCooldown (cappedAtZero ⟨0, 0⟩) queuesOfThree F ⟨0, 0⟩ noEffects).1 = 1 ∧
    ¬ (beforeCooldown (cappedAtZero ⟨0, 0⟩) queuesOfThree F ⟨0, 0⟩ noEffects).1 ≤
      (cappedAtZero ⟨0, 0⟩).maxReplicas F := by
  refine ⟨by decide, rfl, by decide, by decide⟩

end autoscaler

/-! ## Engines reached by calls -/

namespace autoscaler

variable {D : Delayer}

theorem scalersRegistered_iff (a : autoScaler D) :
    scalersRegistered a ↔
      ∀ topic fn, monitored a topic fn = true → a.scalers.contains fn = true := by
  unfold scalersRegistered
  constructor
  · intro h topic fn hm
    exact h fn ((mem_flatTotals_keys_iff a fn).mpr ⟨topic, hm⟩)
  · intro h fn hfn
    obtain ⟨topic, hm⟩ := (mem_flatTotals_keys_iff a fn).mp hfn
    exact h topic fn hm

theorem monitored_of_mem {a : autoScaler D} {t : String × GoMap FunctionId metricsTotals}
    {fn : FunctionId} (ht : t ∈ a.totals.entries) (hfn : fn ∈ t.2.keys) :
    monitored a t.1 fn = true := by
  unfold monitored
  rw [GoMap.get?_of_mem_entries (k := t.1) (v := t.2) ht]
  exact GoMap.contains_iff.mpr hfn

theorem singleTopic_iff (a : autoScaler D) :
    singleTopic a ↔
      ∀ fn t₁ t₂, monitored a t₁ fn = true → monitored a t₂ fn = true → t₁ = t₂ := by
  constructor
  · intro hs fn t₁ t₂ h₁ h₂
    exact singleTopic_unique a hs fn t₁ t₂ h₁ h₂
  · intro h
    unfold singleTopic flatTotals
    rw [List.map_flatMap, List.nodup_flatMap]
    refine ⟨fun t _ => t.2.nodup, ?_⟩
    have hn : a.totals.entries.Pairwise (fun x y => x.1 ≠ y.1) := by
      have := a.totals.nodup
      unfold List.Nodup at this
      rwa [List.pairwise_map] at this
    refine List.Pairwise.imp_of_mem ?_ hn
    intro x y hx hy hne fn hfx hfy
    exact hne (h fn x.1 y.1 (monitored_of_mem hx hfx) (monitored_of_mem hy hfy))

theorem singleTopic_of_monitored_eq (a a' : autoScaler D)
    (h : ∀ topic fn, monitored a' topic fn = monitored a topic fn) (hs : singleTopic a) :
    singleTopic a' := by
  rw [singleTopic_iff] at hs ⊢
  intro fn t₁ t₂ h₁ h₂
  rw [h] at h₁ h₂
  exact hs fn t₁ t₂ h₁ h₂

theorem Serviceable.of_same (a a' : autoScaler D)
    (hmon : ∀ topic fn, monitored a' topic fn = monitored a topic fn)
    (hsc : ∀ fn, a'.scalers.contains fn = a.scalers.contains fn) (hm : a'.mutex = a.mutex)
    (h : Serviceable a) : Serviceable a' := by
  refine ⟨hm.trans h.1, singleTopic_of_monitored_eq a a' hmon h.2.1, ?_⟩
  rw [scalersRegistered_iff]
  intro topic fn hf
  rw [hmon] at hf
  rw [hsc]
  exact (scalersRegistered_iff a).mp h.2.2 topic fn hf

end autoscaler

namespace autoscaler

variable {D : Delayer}

theorem contains_store (m : GoMap FunctionId metricsTotals) (fn f : FunctionId)
    (v : metricsTotals) : (m.store fn v).contains f = (m.contains f || decide (f = fn)) := by
  unfold GoMap.contains
  by_cases h : f = fn
  · subst h
    rw [GoMap.get?_store_same]
    simp
  · rw [GoMap.get?_store_ne m v h]
    simp [h]

theorem StartMonitoring_effect (a : autoScaler D) (topic : String) (fn : FunctionId)
    (hopen : a.mutex = true) (hmon : monitored a topic fn = false) :
    ∃ a', StartMonitoring a topic fn = Except.ok (none, a') ∧
      (∀ t f, monitored a' t f = (monitored a t f || decide (t = topic ∧ f = fn))) ∧
      a'.scalers = a.scalers.store fn D.NewDelayer ∧ a'.mutex = a.mutex := by
  have hmon' := hmon
  unfold monitored at hmon'
  unfold StartMonitoring lock
  rw [if_pos hopen]
  cases hg : a.totals.get? topic with
  | none =>
    have hc : (GoMap.empty : GoMap FunctionId metricsTotals).contains fn = false := rfl
    refine ⟨{ a with
        totals := (a.totals.store topic GoMap.empty).store topic
          (GoMap.empty.store fn metricsTotals.zero)
        scalers := a.scalers.store fn D.NewDelayer }, ?_, ?_, rfl, rfl⟩
    · simp only [hc, Bool.false_eq_true, if_false]
      rfl
    · intro t f
      unfold monitored
      by_cases ht : t = topic
      · subst ht
        simp only [GoMap.get?_store_same, hg, contains_store]
        simp [GoMap.contains, GoMap.get?, GoMap.empty, GoMap.lookupL]
      · simp only [GoMap.get?_store_ne _ _ ht]
        simp [ht]
  | some ft =>
    simp only [hg] at hmon'
    refine ⟨{ a with
        totals := a.totals.store topic (ft.store fn metricsTotals.zero)
        scalers := a.scalers.store fn D.NewDelayer }, ?_, ?_, rfl, rfl⟩
    · simp only [hmon', Bool.false_eq_true, if_false]
      rfl
    · intro t f
      unfold monitored
      by_cases ht : t = topic
      · subst ht
        simp only [GoMap.get?_store_same, hg, contains_store]
        simp
      · simp only [GoMap.get?_store_ne _ _ ht]
        simp [ht]

theorem Serviceable.start (a : autoScaler D) (topic : String) (fn : FunctionId)
    (h : Serviceable a) (hone : ∀ topic', monitored a topic' fn = true → topic' = topic) :
    ∃ a', afterEngineCall a (EngineCall.start topic fn) = Except.ok a' ∧ Serviceable a' := by
  simp only [afterEngineCall]
  cases hmon : monitored a topic fn with
  | true =>
    rw [StartMonitoring_of_monitored a topic fn h.1 hmon]
    exact ⟨a, rfl, h⟩
  | false =>
    obtain ⟨a', he, hm, hsc, hmx⟩ := StartMonitoring_effect a topic fn h.1 hmon
    rw [he]
    refine ⟨a', rfl, hmx.trans h.1, ?_, ?_⟩
    · rw [singleTopic_iff]
      intro f t₁ t₂ h₁ h₂
      rw [hm] at h₁ h₂
      by_cases hf : f = fn
      · subst hf
        have e₁ : t₁ = topic := by
          rcases Bool.or_eq_true _ _ ▸ h₁ with h | h
          · exact hone t₁ h
          · exact (of_decide_eq_true h).1
        have e₂ : t₂ = topic := by
          rcases Bool.or_eq_true _ _ ▸ h₂ with h | h
          · exact hone t₂ h
          · exact (of_decide_eq_true h).1
        rw [e₁, e₂]
      · have d₁ : decide (t₁ = topic ∧ f = fn) = false := by simp [hf]
        have d₂ : decide (t₂ = topic ∧ f = fn) = false := by simp [hf]
        rw [d₁, Bool.or_false] at h₁
        rw [d₂, Bool.or_false] at h₂
        exact (singleTopic_iff a).mp h.2.1 f t₁ t₂ h₁ h₂
    · rw [scalersRegistered_iff]
      intro t f hf
      rw [hm] at hf
      rw [hsc]
      by_cases hfn : f = fn
      · subst hfn
        unfold GoMap.contains
        rw [GoMap.get?_store_same]
        rfl
      · have d : decide (t = topic ∧ f = fn) = false := by simp [hfn]
        rw [d, Bool.or_false] at hf
        unfold GoMap.contains
        rw [GoMap.get?_store_ne _ _ hfn]
        exact (scalersRegistered_iff a).mp h.2.2 t f hf

theorem Serviceable.stop (a : autoScaler D) (topic : String) (fn : FunctionId)
    (h : Serviceable a) :
    ∃ a', afterEngineCall a (EngineCall.stop topic fn) = Except.ok a' ∧ Serviceable a' := by
  simp only [afterEngineCall]
  cases hmon : monitored a topic fn with
  | false =>
    rw [StopMonitoring_of_not_monitored a topic fn h.1 hmon]
    exact ⟨a, rfl, h⟩
  | true =>
    obtain ⟨a', he, hgone, -, -, htot, hsc, -, -, -, hmx⟩ :=
      StopMonitoring_effect a topic fn h.1 hmon
    rw [he]
    have hsub : ∀ t f, monitored a' t f = true → monitored a t f = true ∧ f ≠ fn := by
      intro t f hf
      by_cases hp : t ≠ topic ∨ f ≠ fn
      · have hm : monitored a t f = true := by
          rw [monitored_eq_isSome] at hf ⊢
          rw [← htot t f hp]
          exact hf
        refine ⟨hm, ?_⟩
        rintro rfl
        have := (singleTopic_iff a).mp h.2.1 f t topic hm hmon
        subst this
        rw [hgone] at hf
        cases hf
      · have : t = topic ∧ f = fn := by tauto
        rw [this.1, this.2, hgone] at hf
        cases hf
    refine ⟨a', rfl, hmx.trans h.1, ?_, ?_⟩
    · rw [singleTopic_iff]
      intro f t₁ t₂ h₁ h₂
      exact (singleTopic_iff a).mp h.2.1 f t₁ t₂ (hsub t₁ f h₁).1 (hsub t₂ f h₂).1
    · rw [scalersRegistered_iff]
      intro t f hf
      obtain ⟨hm, hne⟩ := hsub t f hf
      unfold GoMap.contains
      rw [hsc f hne]
      exact (scalersRegistered_iff a).mp h.2.2 t f hm

end autoscaler

namespace autoscaler

variable {D : Delayer}

theorem Serviceable.inform (a : autoScaler D) (fn : FunctionId) (n : Int)
    (h : Serviceable a) :
    ∃ a', afterEngineCall a (EngineCall.inform fn n) = Except.ok a' ∧ Serviceable a' := by
  simp only [afterEngineCall]
  rw [InformFunctionReplicas_effect a fn n h.1]
  exact ⟨_, rfl, h⟩

theorem Serviceable.metric (a : autoScaler D) (event : MetricEvent) (h : Serviceable a) :
    ∃ a', afterEngineCall a (EngineCall.metric event) = Except.ok a' ∧ Serviceable a' := by
  simp only [afterEngineCall]
  cases event with
  | producer pm =>
    obtain ⟨a', he, htot, hsc, -, -, -, hmx, -⟩ := receiveProducerMetric_effect a pm h.1
    refine ⟨a', he, Serviceable.of_same a a' ?_ (fun fn => by rw [hsc]) hmx h⟩
    intro topic fn
    rw [monitored_eq_isSome, monitored_eq_isSome, htot]
    cases totalsOf a topic fn <;> rfl
  | consumer cm =>
    obtain ⟨a', he, htot, hsc, -, -, -, hmx, -⟩ := receiveConsumerMetric_effect a cm h.1
    refine ⟨a', he, Serviceable.of_same a a' ?_ (fun fn => by rw [hsc]) hmx h⟩
    intro topic fn
    rw [monitored_eq_isSome, monitored_eq_isSome, htot]
    cases totalsOf a topic fn <;> rfl

theorem Serviceable.propose (a : autoScaler D) (w : World) (h : Serviceable a) :
    ∃ a', afterEngineCall a (EngineCall.propose w) = Except.ok a' ∧ Serviceable a' := by
  simp only [afterEngineCall]
  obtain ⟨r, hr⟩ := (Propose_ok_iff a w).mpr h
  rw [hr]
  obtain ⟨-, hz, hinv⟩ := Propose_spec hr
  refine ⟨r.a, rfl, Serviceable.of_same a r.a (monitored_of_zeroed a r.a hz) ?_
    hinv.settings.1 h⟩
  intro fn
  rw [Bool.eq_iff_iff, GoMap.contains_iff, GoMap.contains_iff, hinv.scalerKeys]

theorem Serviceable.NewAutoScaler : Serviceable (NewAutoScaler : autoScaler D) := by
  refine ⟨rfl, ?_, ?_⟩
  · unfold singleTopic
    exact List.nodup_nil
  · intro fn hfn
    cases hfn

theorem Serviceable.afterEngineCalls (calls : List EngineCall) :
    ∀ a : autoScaler D, Serviceable a → startsOnOneTopic a calls →
      ∃ a', afterEngineCalls a calls = Except.ok a' ∧ Serviceable a' := by
  induction calls with
  | nil =>
    intro a h _
    exact ⟨a, rfl, h⟩
  | cons c rest ih =>
    intro a h hs
    have hstep : ∃ a₁, afterEngineCall a c = Except.ok a₁ ∧ Serviceable a₁ := by
      cases c with
      | start topic fn => exact Serviceable.start a topic fn h hs.1
      | stop topic fn => exact Serviceable.stop a topic fn h
      | inform fn n => exact Serviceable.inform a fn n h
      | metric event => exact Serviceable.metric a event h
      | propose w => exact Serviceable.propose a w h
    obtain ⟨a₁, he, h₁⟩ := hstep
    have hrest : startsOnOneTopic a₁ rest := by
      have := hs.2
      rw [he] at this
      exact this
    obtain ⟨a', he', h'⟩ := ih a₁ h₁ hrest
    refine ⟨a', ?_, h'⟩
    unfold autoscaler.afterEngineCalls at he' ⊢
    rw [List.foldlM_cons, he]
    exact he'

/-- C29 (amended). In every engine state reached from `NewAutoScaler` through calls of
`StartMonitoring`, `StopMonitoring`, `InformFunctionReplicas`, metric folding and `Propose`
in which `StartMonitoring` is never called for a function that is, at that moment,
registered under another topic, all the calls return and every function in the monitoring
set has a scaler registered, so that `Propose` returns without calling a `nil` scaler. -/
theorem scalers_registered_on_one_topic {D : Delayer} (calls : List EngineCall)
    (h : startsOnOneTopic (NewAutoScaler : autoScaler D) calls) :
    ∃ a, afterEngineCalls (NewAutoScaler : autoScaler D) calls = Except.ok a ∧
      (∀ topic fn, monitored a topic fn = true → a.scalers.contains fn = true) ∧
      ∀ w, ∃ r, Propose a w = Except.ok r := by
  obtain ⟨a, he, hs⟩ := Serviceable.afterEngineCalls calls NewAutoScaler
    Serviceable.NewAutoScaler h
  exact ⟨a, he, (scalersRegistered_iff a).mp hs.2.2, fun w => (Propose_ok_iff a w).mpr hs⟩

/-- C29, witness: `F` is started on "T1", informed of two replicas, proposed for, stopped,
and started on "T2"; it then has a scaler and `Propose` returns. -/
theorem scalers_registered_on_one_topic_witness :
    ∃ a, afterEngineCalls (NewAutoScaler : autoScaler Delayer.passThrough)
        [EngineCall.start "T1" F, EngineCall.inform F 2, EngineCall.propose emptyQueues,
          EngineCall.stop "T1" F, EngineCall.start "T2" F] = Except.ok a ∧
      (∀ topic fn, monitored a topic fn = true → a.scalers.contains fn = true) ∧
      ∀ w, ∃ r, Propose a w = Except.ok r :=
  scalers_registered_on_one_topic
    [EngineCall.start "T1" F, EngineCall.inform F 2, EngineCall.propose emptyQueues,
      EngineCall.stop "T1" F, EngineCall.start "T2" F]
    (And.intro (fun _ h => nomatch h) (And.intro trivial (And.intro trivial
      (And.intro trivial (And.intro (fun _ h => nomatch h) trivial)))))

/-- C29, counterexample: the calls `StartMonitoring("T1", F)`, `StartMonitoring("T2", F)`
and `StopMonitoring("T1", F)` on a fresh engine all return nil and leave `F` monitored on
"T2" without a scaler, and `Propose` then calls the `nil` scaler. -/
theorem monitored_without_scaler_reachable :
    afterEngineCalls (NewAutoScaler : autoScaler Delayer.passThrough)
      [EngineCall.start "T1" F, EngineCall.start "T2" F, EngineCall.stop "T1" F] =
        Except.ok orphaned ∧
    monitored orphaned "T2" F = true ∧ orphaned.scalers.contains F = false ∧
    Propose orphaned emptyQueues = Except.error Panic.nilScaler :=
  ⟨rfl, by decide, by decide, rfl⟩

end autoscaler

/-! ## The cooldown -/

namespace autoscaler

theorem foldl_max_ge_init (l : List Int) (x : Int) : x ≤ l.foldl max x := by
  induction l generalizing x with
  | nil => exact le_refl x
  | cons y r ih => exact le_trans (le_max_left x y) (ih (max x y))

theorem foldl_max_ge_mem (l : List Int) (x q : Int) (h : q ∈ l) : q ≤ l.foldl max x := by
  induction l generalizing x with
  | nil => cases h
  | cons y r ih =>
    rcases List.mem_cons.mp h with h | h
    · subst h
      exact le_trans (le_max_right x q) (foldl_max_ge_init r (max x q))
    · exact ih (max x y) h

theorem foldl_max_eq_init (l : List Int) (x : Int) (h : ∀ q, q ∈ l → q ≤ x) :
    l.foldl max x = x := by
  induction l with
  | nil => rfl
  | cons y r ih =>
    rw [List.foldl_cons, max_eq_left (h y (List.mem_cons_self y r))]
    exact ih (fun q hq => h q (List.mem_cons_of_mem y hq))

theorem heldValue_ge_proposal (d now : Int) (seen : List (Int × Int)) (p : Int) :
    p ≤ heldValue d now seen p :=
  foldl_max_ge_init _ p

theorem heldValue_ge_of_mem (d now : Int) (seen : List (Int × Int)) (p t q : Int)
    (hmem : (t, q) ∈ seen) (hin : now - t < d) : q ≤ heldValue d now seen p := by
  apply foldl_max_ge_mem
  refine List.mem_map.mpr ⟨(t, q), ?_, rfl⟩
  exact List.mem_filter.mpr ⟨hmem, by simpa using hin⟩

theorem heldValue_eq_proposal (d now : Int) (seen : List (Int × Int)) (p : Int)
    (h : ∀ t q, (t, q) ∈ seen → now - t < d → q ≤ p) : heldValue d now seen p = p := by
  apply foldl_max_eq_init
  intro q hq
  obtain ⟨e, he, rfl⟩ := List.mem_map.mp hq
  obtain ⟨hmem, hin⟩ := List.mem_filter.mp he
  exact h e.1 e.2 hmem (by simpa using hin)

theorem cooldownOutputs_length (a : autoScaler Delayer.trailingWindow) (fn : FunctionId)
    (ps : List (Int × Int)) :
    ∀ e, (cooldownOutputs a fn ps e).length = ps.length := by
  induction ps with
  | nil => intro e; rfl
  | cons x r ih =>
    intro e
    obtain ⟨t, p⟩ := x
    simp only [cooldownOutputs, List.length_cons, ih]

theorem cooldownOutputs_get (a : autoScaler Delayer.trailingWindow) (fn : FunctionId)
    (ps : List (Int × Int)) :
    ∀ (seen : List (Int × Int)) (log : List LogLine) (k : Nat) (t p : Int),
      ps[k]? = some (t, p) →
      (cooldownOutputs a fn ps ⟨seen, log⟩)[k]? =
        some (heldValue (a.delayScaleDown fn) t (seen ++ ps.take k) p) := by
  induction ps with
  | nil =>
    intro seen log k t p h
    simp at h
  | cons x r ih =>
    intro seen log k t p h
    obtain ⟨t₀, p₀⟩ := x
    cases k with
    | zero =>
      simp only [List.getElem?_cons_zero, Option.some.injEq, Prod.mk.injEq] at h
      obtain ⟨rfl, rfl⟩ := h
      simp [cooldownOutputs, delay, Delayer.trailingWindow]
    | succ k =>
      simp only [List.getElem?_cons_succ] at h
      have := ih (seen ++ [(t₀, p₀)]) log k t p h
      simp only [cooldownOutputs, List.getElem?_cons_succ, List.take_succ_cons]
      rw [List.append_assoc] at this
      exact this

end autoscaler

namespace autoscaler

theorem sorted_times (ps : List (Int × Int)) (hs : (ps.map Prod.fst).Pairwise (· ≤ ·))
    (i j : Nat) (ti pi tj pj : Int) (hij : i ≤ j) (hi : ps[i]? = some (ti, pi))
    (hj : ps[j]? = some (tj, pj)) : ti ≤ tj := by
  rcases Nat.eq_or_lt_of_le hij with h | h
  · subst h
    rw [hi] at hj
    injection hj with hj
    injection hj with h1 h2
    rw [h1]
  · rw [List.pairwise_iff_getElem] at hs
    obtain ⟨hi', ei⟩ := List.getElem?_eq_some.mp hi
    obtain ⟨hj', ej⟩ := List.getElem?_eq_some.mp hj
    have := hs i j (by simpa using hi') (by simpa using hj') h
    simpa [ei, ej] using this

theorem mem_take_iff (ps : List (Int × Int)) (k : Nat) (x : Int × Int) :
    x ∈ ps.take k ↔ ∃ j, j < k ∧ ps[j]? = some x := by
  rw [List.mem_iff_getElem?]
  constructor
  · rintro ⟨j, hj⟩
    rw [List.getElem?_take] at hj
    by_cases h : j < k
    · rw [if_pos h] at hj
      exact ⟨j, h, hj⟩
    · rw [if_neg h] at hj
      cases hj
  · rintro ⟨j, h, hj⟩
    exact ⟨j, by rw [List.getElem?_take, if_pos h]; exact hj⟩

/-- C23. For every sequence of proposals passed in order of time through the adjuster
`delay` of a function whose delay policy answers `d`, with the `Delayer` modelled from the
spec: there is one value returned for each proposal; the value returned is never lower than
a proposal passed less than `d` before, nor than the proposal just passed; a proposal
higher than the value returned before it is returned at once; and a proposal is returned as
soon as every higher proposal lies `d` or more in the past. -/
theorem delay_holds_highest_of_window (a : autoScaler Delayer.trailingWindow)
    (fn : FunctionId) (ps : List (Int × Int))
    (hs : (ps.map Prod.fst).Pairwise (· ≤ ·)) :
    (cooldownOutputs a fn ps ⟨[], []⟩).length = ps.length ∧
    (∀ (j k : Nat) (tj pj tk pk o : Int), j ≤ k → ps[j]? = some (tj, pj) →
      ps[k]? = some (tk, pk) → (cooldownOutputs a fn ps ⟨[], []⟩)[k]? = some o →
      tk - tj < a.delayScaleDown fn ∨ j = k → pj ≤ o) ∧
    (∀ (k : Nat) (tk pk o o' : Int), ps[k + 1]? = some (tk, pk) →
      (cooldownOutputs a fn ps ⟨[], []⟩)[k]? = some o →
      (cooldownOutputs a fn ps ⟨[], []⟩)[k + 1]? = some o' → o < pk → o' = pk) ∧
    (∀ (k : Nat) (tk pk o : Int), ps[k]? = some (tk, pk) →
      (cooldownOutputs a fn ps ⟨[], []⟩)[k]? = some o →
      (∀ (j : Nat) (tj pj : Int), j < k → ps[j]? = some (tj, pj) → pk < pj →
        a.delayScaleDown fn ≤ tk - tj) → o = pk) := by
  have hget := fun k t p h => cooldownOutputs_get a fn ps [] [] k t p h
  simp only [List.nil_append] at hget
  have hge : ∀ (j k : Nat) (tj pj tk pk o : Int), j ≤ k → ps[j]? = some (tj, pj) →
      ps[k]? = some (tk, pk) → (cooldownOutputs a fn ps ⟨[], []⟩)[k]? = some o →
      tk - tj < a.delayScaleDown fn ∨ j = k → pj ≤ o := by
    intro j k tj pj tk pk o hjk hj hk ho hin
    rw [hget k tk pk hk] at ho
    injection ho with ho
    subst ho
    rcases Nat.eq_or_lt_of_le hjk with h | h
    · subst h
      rw [hj] at hk
      injection hk with hk
      injection hk with h1 h2
      rw [h2]
      exact heldValue_ge_proposal _ _ _ _
    · rcases hin with hin | hin
      · exact heldValue_ge_of_mem _ _ _ _ tj pj ((mem_take_iff ps k _).mpr ⟨j, h, hj⟩) hin
      · omega
  refine ⟨cooldownOutputs_length a fn ps _, hge, ?_, ?_⟩
  · intro k tk pk o o' hk ho ho' hlt
    rw [hget (k + 1) tk pk hk] at ho'
    injection ho' with ho'
    subst ho'
    apply heldValue_eq_proposal
    intro t q hmem hin
    obtain ⟨j, hj, hjq⟩ := (mem_take_iff ps (k + 1) _).mp hmem
    have hklen : k < ps.length := by
      have := (List.getElem?_eq_some.mp hk).1
      omega
    obtain ⟨⟨t₀, p₀⟩, hk0⟩ : ∃ x, ps[k]? = some x := ⟨ps[k], List.getElem?_eq_getElem hklen⟩
    have h1 : t₀ ≤ tk := sorted_times ps hs k (k + 1) t₀ p₀ tk pk (by omega) hk0 hk
    have h2 : q ≤ o := by
      by_cases hjk : j = k
      · exact hge j k t q t₀ p₀ o (by omega) hjq hk0 ho (Or.inr hjk)
      · exact hge j k t q t₀ p₀ o (by omega) hjq hk0 ho (Or.inl (by omega))
    omega
  · intro k tk pk o hk ho hpast
    rw [hget k tk pk hk] at ho
    injection ho with ho
    subst ho
    apply heldValue_eq_proposal
    intro t q hmem hin
    obtain ⟨j, hj, hjq⟩ := (mem_take_iff ps k _).mp hmem
    by_contra hc
    have := hpast j t q hj hjq (by omega)
    omega

/-- C23, witness: with a delay of 3 and the proposals 5, 0, 0, 0 passed at the times 0, 1,
2 and 3, the values returned are 5, 5, 5 and 0: 5 is held while it is less than 3 old, and
0 is returned once 3 has elapsed since the 5. -/
theorem delay_holds_highest_of_window_witness :
    cooldownOutputs (coolingDown 3) F [(0, 5), (1, 0), (2, 0), (3, 0)] ⟨[], []⟩ =
      [5, 5, 5, 0] ∧
    (∀ o : Int, (cooldownOutputs (coolingDown 3) F [(0, 5), (1, 0), (2, 0), (3, 0)]
      ⟨[], []⟩)[2]? = some o → 5 ≤ o) :=
  ⟨by decide, fun o ho =>
    (delay_holds_highest_of_window (coolingDown 3) F [(0, 5), (1, 0), (2, 0), (3, 0)]
      (by decide)).2.1 0 2 0 5 2 0 o (by decide) rfl rfl ho (Or.inl (by decide))⟩

end autoscaler

/-! ## The table of subscriptions -/

namespace commands

theorem set_at_length {α : Type} (pre post : List α) (x v : α) :
    (pre ++ x :: post).set pre.length v = pre ++ v :: post := by
  induction pre with
  | nil => rfl
  | cons y r ih => simp [List.set, ih]

theorem getD_at_length {α : Type} (pre post : List α) (x d : α) :
    (pre ++ x :: post).getD pre.length d = x := by
  induction pre with
  | nil => rfl
  | cons y r ih => simpa [List.getD] using ih

theorem setCell_at (cpre cpost : List (List String)) (pre post : List String) (x v : String) :
    setCell (cpre ++ (pre ++ x :: post) :: cpost) cpre.length pre.length v =
      cpre ++ (pre ++ v :: post) :: cpost := by
  unfold setCell
  rw [getD_at_length, set_at_length, set_at_length]

theorem fillColumn_eq (extractor : namedExtractor) (cpre cpost : List (List String))
    (subscriptions : List Subscription) :
    ∀ (pre : List String) (j width : Nat), pre.length = j + 1 →
      fillColumn extractor cpre.length subscriptions j
          (cpre ++ (pre ++ List.replicate subscriptions.length "") :: cpost, width) =
        (cpre ++ (pre ++ subscriptions.map extractor.fn) :: cpost,
          (subscriptions.map (fun s => len (extractor.fn s))).foldl max width) := by
  induction subscriptions with
  | nil =>
    intro pre j width _
    rfl
  | cons s rest ih =>
    intro pre j width hj
    simp only [fillColumn, List.length_cons, List.replicate_succ, List.map_cons,
      List.foldl_cons]
    rw [← hj, setCell_at]
    have e : pre ++ extractor.fn s :: List.replicate rest.length "" =
        (pre ++ [extractor.fn s]) ++ List.replicate rest.length "" := by simp
    rw [e, ih (pre ++ [extractor.fn s]) (pre.length) _ (by simp)]
    simp

theorem fillTable_eq (subscriptions : List Subscription) (extractors : List namedExtractor) :
    ∀ (donew : List Nat) (donec : List (List String)), donew.length = donec.length →
      fillTable subscriptions extractors donec.length
          (donew ++ List.replicate extractors.length 0,
            donec ++ List.replicate extractors.length
              (List.replicate (1 + subscriptions.length) "")) =
        (donew ++ extractors.map (fun e =>
            1 + (subscriptions.map (fun s => len (e.fn s))).foldl max (len e.name)),
          donec ++ extractors.map (column subscriptions)) := by
  induction extractors with
  | nil =>
    intro donew donec _
    simp [fillTable]
  | cons e rest ih =>
    intro donew donec hlen
    simp only [fillTable, List.length_cons, List.replicate_succ, List.map_cons]
    have hb : List.replicate (1 + subscriptions.length) "" =
        "" :: List.replicate subscriptions.length "" := by
      rw [Nat.add_comm, List.replicate_succ]
    have h0 : ∀ (tail : List (List String)) (blank : List String),
        blank = "" :: List.replicate subscriptions.length "" →
        setCell (donec ++ blank :: tail) donec.length 0 e.name =
          donec ++ ([e.name] ++ List.replicate subscriptions.length "") :: tail := by
      intro tail blank h
      subst h
      exact setCell_at donec tail [] _ "" e.name
    rw [h0 _ _ hb, fillColumn_eq e donec _ subscriptions [e.name] 0 _ rfl]
    simp only
    rw [← hlen, set_at_length]
    have := ih (donew ++ [1 + (subscriptions.map (fun s => len (e.fn s))).foldl max
      (len e.name)]) (donec ++ [column subscriptions e]) (by simp [hlen])
    simp only [List.length_append, List.length_singleton, List.append_assoc,
      List.singleton_append] at this
    rw [hlen]
    simpa [column] using this

theorem foldl_max_eq (l : List Nat) (x : Nat) : l.foldl max x = l.foldl Max.max x := by
  have : (max : Nat → Nat → Nat) = Max.max := by
    funext a b
    unfold max
    by_cases h : a > b
    · rw [if_pos h]
      exact (Nat.max_eq_left (Nat.le_of_lt h)).symm
    · rw [if_neg h]
      exact (Nat.max_eq_right (Nat.le_of_not_lt h)).symm
  rw [this]

theorem columnWidth_eq (subscriptions : List Subscription) (e : namedExtractor) :
    (subscriptions.map (fun s => len (e.fn s))).foldl max (len e.name) =
      columnWidth subscriptions e := by
  rw [foldl_max_eq]
  unfold columnWidth column
  simp [List.map_map, Function.comp_def]

theorem makeSubscriptionDisplay_eq (subscriptions : List Subscription) :
    makeSubscriptionDisplay subscriptions =
      { height := 1 + subscriptions.length
        widths := makeExtractors.map (fun e => 1 + columnWidth subscriptions e)
        content := makeExtractors.map (column subscriptions) } := by
  unfold makeSubscriptionDisplay make2dArray
  have := fillTable_eq subscriptions makeExtractors [] [] rfl
  simp only [List.nil_append, List.length_nil] at this
  simp only [this, columnWidth_eq]

end commands

namespace commands

theorem length_le_utf8Len (cs : List Char) : cs.length ≤ String.utf8Len cs := by
  induction cs with
  | nil => exact Nat.le_refl 0
  | cons c r ih =>
    have := Char.utf8Size_pos c
    simp only [List.length_cons, String.utf8Len_cons]
    omega

theorem length_le_len (s : String) : s.length ≤ len s :=
  length_le_utf8Len s.data

theorem foldl_natMax_ge_init (l : List Nat) (x : Nat) : x ≤ l.foldl Max.max x := by
  induction l generalizing x with
  | nil => exact Nat.le_refl x
  | cons y r ih => exact Nat.le_trans (Nat.le_max_left x y) (ih (Max.max x y))

theorem foldl_natMax_ge_mem (l : List Nat) (x q : Nat) (h : q ∈ l) : q ≤ l.foldl Max.max x := by
  induction l generalizing x with
  | nil => cases h
  | cons y r ih =>
    rcases List.mem_cons.mp h with h | h
    · subst h
      exact Nat.le_trans (Nat.le_max_right x q) (foldl_natMax_ge_init r (Max.max x q))
    · exact ih (Max.max x y) h

theorem foldl_natMax_mem (l : List Nat) (x : Nat) :
    l.foldl Max.max x = x ∨ l.foldl Max.max x ∈ l := by
  induction l generalizing x with
  | nil => exact Or.inl rfl
  | cons y r ih =>
    rw [List.foldl_cons]
    rcases ih (Max.max x y) with h | h
    · rw [h]
      rcases Nat.le_total x y with hxy | hxy
      · right
        rw [Nat.max_eq_right hxy]
        exact List.mem_cons_self y r
      · rcases Nat.eq_or_lt_of_le hxy with e | hlt
        · right
          rw [e, Nat.max_self]
          exact List.mem_cons_self x r
        · left
          exact Nat.max_eq_left hxy
    · exact Or.inr (List.mem_cons_of_mem y h)

theorem len_le_columnWidth (subscriptions : List Subscription) (e : namedExtractor)
    (cell : String) (h : cell ∈ column subscriptions e) :
    len cell ≤ columnWidth subscriptions e :=
  foldl_natMax_ge_mem _ 0 _ (List.mem_map_of_mem len h)

theorem columnWidth_attained (subscriptions : List Subscription) (e : namedExtractor) :
    ∃ cell, cell ∈ column subscriptions e ∧ len cell = columnWidth subscriptions e := by
  unfold columnWidth
  rcases foldl_natMax_mem ((column subscriptions e).map len) 0 with h | h
  · refine ⟨e.name, List.mem_cons_self _ _, ?_⟩
    have := len_le_columnWidth subscriptions e e.name (List.mem_cons_self _ _)
    unfold columnWidth at this
    omega
  · obtain ⟨cell, hc, hl⟩ := List.mem_map.mp h
    exact ⟨cell, hc, hl⟩

theorem leftAligned_pads (subscriptions : List Subscription) (e : namedExtractor)
    (cell : String) (h : cell ∈ column subscriptions e) :
    ∃ n, 1 ≤ n ∧ leftAligned (1 + columnWidth subscriptions e) cell =
      cell ++ String.mk (List.replicate n ' ') := by
  refine ⟨1 + columnWidth subscriptions e - cell.length, ?_, rfl⟩
  have h1 := len_le_columnWidth subscriptions e cell h
  have h2 := length_le_len cell
  omega

/-- The line that `display` writes for row `j`: the four cells of the row, each padded to
the width of its column, and a line break. -/
theorem displayRow_eq (subscriptions : List Subscription) (j : Nat) :
    displayRow (makeSubscriptionDisplay subscriptions) j =
      "" ++ leftAligned (1 + columnWidth subscriptions ⟨"NAME", fun s => s.Name⟩)
          ((column subscriptions ⟨"NAME", fun s => s.Name⟩).getD j "") ++
        leftAligned (1 + columnWidth subscriptions ⟨"CHANNEL", fun s => s.Channel⟩)
          ((column subscriptions ⟨"CHANNEL", fun s => s.Channel⟩).getD j "") ++
        leftAligned (1 + columnWidth subscriptions ⟨"SUBSCRIBER", fun s => s.Subscriber⟩)
          ((column subscriptions ⟨"SUBSCRIBER", fun s => s.Subscriber⟩).getD j "") ++
        leftAligned (1 + columnWidth subscriptions ⟨"REPLY-TO", fun s => s.ReplyTo⟩)
          ((column subscriptions ⟨"REPLY-TO", fun s => s.ReplyTo⟩).getD j "") ++ "\n" := by
  rw [makeSubscriptionDisplay_eq]
  rfl

/-- C27. For every list of subscriptions, `makeSubscriptionDisplay` builds a table of
height 1 + the number of subscriptions, with the columns NAME, CHANNEL, SUBSCRIBER and
REPLY-TO in that order, each column holding its header in row 0 and the field of the `j`-th
subscription in row `j + 1`, and each width being 1 + the greatest length among the header
and the cells of its column; so `display` writes every cell followed by at least one
space, row after row, and for the empty list the one line "NAME CHANNEL SUBSCRIBER
REPLY-TO ". -/
theorem makeSubscriptionDisplay_table (subscriptions : List Subscription) :
    makeSubscriptionDisplay subscriptions =
      { height := 1 + subscriptions.length
        widths := makeExtractors.map (fun e => 1 + columnWidth subscriptions e)
        content := makeExtractors.map (column subscriptions) } ∧
    makeExtractors.map (fun e => e.name) = ["NAME", "CHANNEL", "SUBSCRIBER", "REPLY-TO"] ∧
    (∀ (e : namedExtractor) (j : Nat) (s : Subscription),
      (column subscriptions e)[0]? = some e.name ∧
      (subscriptions[j]? = some s → (column subscriptions e)[j + 1]? = some (e.fn s))) ∧
    (∀ (e : namedExtractor),
      (∀ cell, cell ∈ column subscriptions e → len cell ≤ columnWidth subscriptions e) ∧
      (∃ cell, cell ∈ column subscriptions e ∧ len cell = columnWidth subscriptions e) ∧
      (∀ cell, cell ∈ column subscriptions e →
        ∃ n, 1 ≤ n ∧ leftAligned (1 + columnWidth subscriptions e) cell =
          cell ++ String.mk (List.replicate n ' '))) ∧
    display subscriptions = (List.range (1 + subscriptions.length)).foldl
      (fun out j => out ++ displayRow (makeSubscriptionDisplay subscriptions) j) "" ∧
    (∀ j, displayRow (makeSubscriptionDisplay subscriptions) j =
      "" ++ leftAligned (1 + columnWidth subscriptions ⟨"NAME", fun s => s.Name⟩)
          ((column subscriptions ⟨"NAME", fun s => s.Name⟩).getD j "") ++
        leftAligned (1 + columnWidth subscriptions ⟨"CHANNEL", fun s => s.Channel⟩)
          ((column subscriptions ⟨"CHANNEL", fun s => s.Channel⟩).getD j "") ++
        leftAligned (1 + columnWidth subscriptions ⟨"SUBSCRIBER", fun s => s.Subscriber⟩)
          ((column subscriptions ⟨"SUBSCRIBER", fun s => s.Subscriber⟩).getD j "") ++
        leftAligned (1 + columnWidth subscriptions ⟨"REPLY-TO", fun s => s.ReplyTo⟩)
          ((column subscriptions ⟨"REPLY-TO", fun s => s.ReplyTo⟩).getD j "") ++ "\n") ∧
    display [] = "NAME CHANNEL SUBSCRIBER REPLY-TO \n" ∧
    display [mySubscription] =
      "NAME            CHANNEL SUBSCRIBER REPLY-TO \n" ++
        "my-subscription channel subscriber reply-to \n" := by
  refine ⟨makeSubscriptionDisplay_eq subscriptions, rfl, ?_, ?_, ?_,
    displayRow_eq subscriptions, by decide, by decide⟩
  · intro e j s
    unfold column
    refine ⟨List.getElem?_cons_zero, fun h => ?_⟩
    rw [List.getElem?_cons_succ, List.getElem?_map, h]
    rfl
  · intro e
    exact ⟨len_le_columnWidth subscriptions e, columnWidth_attained subscriptions e,
      leftAligned_pads subscriptions e⟩
  · unfold display
    rw [makeSubscriptionDisplay_eq]

/-- C27, witness: for the one subscription of the test, the table has two rows and the
widths 16, 8, 11 and 9. -/
theorem makeSubscriptionDisplay_table_witness :
    makeSubscriptionDisplay [mySubscription] =
      { height := 2
        widths := [16, 8, 11, 9]
        content := [["NAME", "my-subscription"], ["CHANNEL", "channel"],
          ["SUBSCRIBER", "subscriber"], ["REPLY-TO", "reply-to"]] } :=
  (makeSubscriptionDisplay_table [mySubscription]).1.trans (by decide)

end commands
